import Mathlib

/-!
# resolv: triangle collision and swept resolution

A shallow embedding of `triangle.go` and `utils.go`.

* Go `int32` values are integers in `[-2^31, 2^31)`; every `int32` operation of the
  source is followed by `wrap32`, the two's-complement reduction.
* A pointer receiver that is mutated (`SetXY`, `WouldBeColliding`) becomes a function
  that returns the new value of the receiver.
-/

namespace Resolv

/-! ## Machine integers -/

/-- Two's-complement reduction of an integer to the `int32` range. -/
def wrap32 (v : Int) : Int := (v + 2147483648) % 4294967296 - 2147483648

/-- The value is representable as an `int32`. -/
def inI32 (v : Int) : Prop := -2147483648 ≤ v ∧ v ≤ 2147483647

instance (v : Int) : Decidable (inI32 v) := by unfold inI32; infer_instance

/-- Go `a + b` on `int32`. -/
def add32 (a b : Int) : Int := wrap32 (a + b)

/-- Go `a - b` on `int32`. -/
def sub32 (a b : Int) : Int := wrap32 (a - b)

/-- Go `a * b` on `int32`. -/
def mul32 (a b : Int) : Int := wrap32 (a * b)

/-- Go `a | b` on `int32`: the bitwise or of the two 32 bit patterns, read back as a signed
value. -/
def or32 (a b : Int) : Int :=
  wrap32 (((a % 4294967296).toNat ||| (b % 4294967296).toNat : Nat) : Int)

/-! ## Triangle -/

/-- The struct `Triangle`: the embedded `BasicShape` contributes `X`, `Y`. -/
structure Triangle where
  X : Int
  Y : Int
  X2 : Int
  Y2 : Int
  X3 : Int
  Y3 : Int
  deriving DecidableEq, Repr

/-- All six fields are `int32` values. -/
def Triangle.wf (t : Triangle) : Prop :=
  inI32 t.X ∧ inI32 t.Y ∧ inI32 t.X2 ∧ inI32 t.Y2 ∧ inI32 t.X3 ∧ inI32 t.Y3

instance (t : Triangle) : Decidable t.wf := by unfold Triangle.wf; infer_instance

/-- The function `NewTriangle` of `triangle.go`. -/
def NewTriangle (x y x2 y2 x3 y3 : Int) : Triangle :=
  let e1 := mul32 (sub32 x2 x) (add32 y2 y)
  let e2 := mul32 (sub32 x3 x2) (add32 y3 y2)
  let e3 := mul32 (sub32 x x3) (add32 y y3)
  if add32 (add32 e1 e2) e3 ≥ 0 then
    { X := x, Y := y, X2 := x2, Y2 := y2, X3 := x3, Y3 := y3 }
  else
    { X := x, Y := y, X2 := x3, Y2 := y3, X3 := x2, Y3 := y2 }

/-- The constants `colinear`, `clockwise`, `counterclockwise` of `utils.go` (an `iota` block). -/
def colinear : Nat := 0

/-- See `colinear`. -/
def clockwise : Nat := 1

/-- See `colinear`. -/
def counterclockwise : Nat := 2

/-- The function `orientation` of `utils.go`. -/
def orientation (px py qx qy rx ry : Int) : Nat :=
  let val := sub32 (mul32 (sub32 qy py) (sub32 rx qx)) (mul32 (sub32 qx px) (sub32 ry qy))
  if val = 0 then colinear
  else if val > 0 then clockwise
  else counterclockwise

/-- The method `SetXY` of `triangle.go`; returns the receiver after the call. -/
def Triangle.SetXY (t : Triangle) (x y : Int) : Triangle :=
  let dx := sub32 x t.X
  let dy := sub32 y t.Y
  { X := x, Y := y,
    X2 := add32 t.X2 dx, Y2 := add32 t.Y2 dy,
    X3 := add32 t.X3 dx, Y3 := add32 t.Y3 dy }

/-- The orientation of the stored vertices of a triangle. -/
def Triangle.orientation (t : Triangle) : Nat :=
  Resolv.orientation t.X t.Y t.X2 t.Y2 t.X3 t.Y3

/-! ## Absence of overflow -/

/-- No `int32` operation of `NewTriangle x y x2 y2 x3 y3` overflows. -/
def NewTriangle.noOverflow (x y x2 y2 x3 y3 : Int) : Prop :=
  inI32 (x2 - x) ∧ inI32 (y2 + y) ∧ inI32 ((x2 - x) * (y2 + y)) ∧
  inI32 (x3 - x2) ∧ inI32 (y3 + y2) ∧ inI32 ((x3 - x2) * (y3 + y2)) ∧
  inI32 (x - x3) ∧ inI32 (y + y3) ∧ inI32 ((x - x3) * (y + y3)) ∧
  inI32 ((x2 - x) * (y2 + y) + (x3 - x2) * (y3 + y2)) ∧
  inI32 ((x2 - x) * (y2 + y) + (x3 - x2) * (y3 + y2) + (x - x3) * (y + y3))

/-- No `int32` operation of `orientation px py qx qy rx ry` overflows. -/
def orientation.noOverflow (px py qx qy rx ry : Int) : Prop :=
  inI32 (qy - py) ∧ inI32 (rx - qx) ∧ inI32 ((qy - py) * (rx - qx)) ∧
  inI32 (qx - px) ∧ inI32 (ry - qy) ∧ inI32 ((qx - px) * (ry - qy)) ∧
  inI32 ((qy - py) * (rx - qx) - (qx - px) * (ry - qy))

instance (x y x2 y2 x3 y3 : Int) : Decidable (NewTriangle.noOverflow x y x2 y2 x3 y3) := by
  unfold NewTriangle.noOverflow; infer_instance

instance (px py qx qy rx ry : Int) : Decidable (orientation.noOverflow px py qx qy rx ry) := by
  unfold orientation.noOverflow; infer_instance

/-- The exact cross product whose sign `orientation` reports. -/
def cross (px py qx qy rx ry : Int) : Int :=
  (qy - py) * (rx - qx) - (qx - px) * (ry - qy)

/-! ## Floating point of `utils.go`

`fDistance` and `PointOnLine` compute in `float64`.  Every value that occurs there is a
multiple of `2^-52` (a square root of a positive integer is at least `1`, so its unit in the
last place is at least `2^-52`), so a `float64` is represented by the natural or integer
number of units of `2^-52` it holds.  `math.Sqrt` and the `float64` operations are the
correctly rounded IEEE 754 operations, rounding to nearest, ties to even, with a 53 bit
significand; no value leaves the normal range. -/

/-- Floor of the binary logarithm, by halving (`fuel` bounds the number of halvings). -/
def log2F : Nat → Nat → Nat
  | 0, _ => 0
  | fuel + 1, n => if n < 2 then 0 else log2F fuel (n / 2) + 1

/-- Integer square root by bisection on the bits of the result, from bit `k - 1` down. -/
def isqrtAux : Nat → Nat → Nat → Nat
  | 0, r, _ => r
  | k + 1, r, n => if (r + 2 ^ k) * (r + 2 ^ k) ≤ n then isqrtAux k (r + 2 ^ k) n
      else isqrtAux k r n

/-- Floor of the square root of a natural number below `2^128`. -/
def isqrt (n : Nat) : Nat := isqrtAux 64 0 n

/-- Rounding of a non-negative number of units to a 53 bit significand, ties to even. -/
def roundF64 (n : Nat) : Nat :=
  let sh := log2F n n - 52
  if log2F n n < 53 then n
  else
    let q := n / 2 ^ sh
    let r := n % 2 ^ sh
    let half := 2 ^ (sh - 1)
    if r < half then q * 2 ^ sh
    else if half < r then (q + 1) * 2 ^ sh
    else if q % 2 = 0 then q * 2 ^ sh
    else (q + 1) * 2 ^ sh

/-- Rounding of a signed number of units to a 53 bit significand. -/
def roundF64Int (v : Int) : Int :=
  if v < 0 then -((roundF64 v.natAbs : Nat) : Int) else ((roundF64 v.natAbs : Nat) : Int)

/-- Correctly rounded `math.Sqrt(float64(n))` for an integer `0 ≤ n ≤ 2^31`, in units of
`2^-52`: with `4^e ≤ n < 4^(e+1)` the significand is the square root of `n * 4^(52-e)`
rounded to the nearest integer (a tie cannot occur). -/
def sqrtF64 (n : Nat) : Nat :=
  if n = 0 then 0
  else
    let e := log2F n n / 2
    let k := n * 4 ^ (52 - e)
    let m := isqrt k
    if k ≤ m * m + m then m * 2 ^ e else (m + 1) * 2 ^ e

/-- The function `fDistance` of `utils.go`, in units of `2^-52`. -/
def fDistance (x y x2 y2 : Int) : Nat :=
  let dx := sub32 x x2
  let dy := sub32 y y2
  let ds := add32 (mul32 dx dx) (mul32 dy dy)
  sqrtF64 ds.natAbs

/-- The `float64` nearest to the constant `0.0001` is `7378697629483821 * 2^-66`. -/
def tolerance66 : Int := 7378697629483821

/-- The function `PointOnLine` of `utils.go`: `(seg1+seg2)-line <= 0.0001`, the left side
in units of `2^-52` and so compared after scaling by `2^14`. -/
def PointOnLine (x y ax ay bx «by» : Int) : Bool :=
  let seg1 := fDistance x y ax ay
  let seg2 := fDistance x y bx «by»
  let line := fDistance ax ay bx «by»
  decide (roundF64Int ((roundF64 (seg1 + seg2) : Int) - (line : Int)) * 16384 ≤ tolerance66)

/-- The function `max` of `utils.go`. -/
def max32 (a b : Int) : Int := if a > b then a else b

/-- The function `min` of `utils.go`. -/
def min32 (a b : Int) : Int := if a < b then a else b

/-- The function `ColinearPointsOnSegment` of `utils.go`. -/
def ColinearPointsOnSegment (ax ay bx «by» cx cy : Int) : Bool :=
  if cx < max32 ax bx ∧ cx > min32 ax bx ∧ cy < max32 ay «by» ∧ cy > min32 ay «by» then true
  else false

/-- The function `LinesIntersect` of `utils.go`. -/
def LinesIntersect (p1x p1y q1x q1y p2x p2y q2x q2y : Int) : Bool :=
  let o1 := orientation p1x p1y q1x q1y p2x p2y
  let o2 := orientation p1x p1y q1x q1y q2x q2y
  let o3 := orientation p2x p2y q2x q2y p1x p1y
  let o4 := orientation p2x p2y q2x q2y q1x q1y
  if o1 ≠ o2 ∧ o3 ≠ o4 then
    if PointOnLine p1x p1y p2x p2y q2x q2y ||
        PointOnLine q1x q1y p2x p2y q2x q2y ||
        PointOnLine p2x p2y p1x p1y q1x q1y ||
        PointOnLine q2x q2y p1x p1y q1x q1y then false
    else true
  else if o1 = colinear ∧ ColinearPointsOnSegment p1x p1y q1x q1y p2x p2y = true then true
  else if o2 = colinear ∧ ColinearPointsOnSegment p1x p1y q1x q1y q2x q2y = true then true
  else if o3 = colinear ∧ ColinearPointsOnSegment p2x p2y q2x q2y p1x p1y = true then true
  else if o4 = colinear ∧ ColinearPointsOnSegment p2x p2y q2x q2y q1x q1y = true then true
  else false

/-! ## Triangle collision -/

/-- The function `herons` of `triangle.go`.  The `int32` value is converted to `float64`
exactly and `math.Abs` is exact, so the result is the natural number `|v|`. -/
def herons (x1 y1 x2 y2 x3 y3 : Int) : Nat :=
  (sub32 (mul32 (sub32 x2 x1) (sub32 y3 y1)) (mul32 (sub32 x3 x1) (sub32 y2 y1))).natAbs

/-- The method `Area` of `triangle.go`. -/
def Triangle.Area (t : Triangle) : Nat :=
  herons t.X t.Y t.X2 t.Y2 t.X3 t.Y3

/-- The method `pointOnEdge` of `triangle.go`. -/
def Triangle.pointOnEdge (t : Triangle) (x y : Int) : Bool × Bool × Bool :=
  (PointOnLine x y t.X t.Y t.X2 t.Y2,
   PointOnLine x y t.X2 t.Y2 t.X3 t.Y3,
   PointOnLine x y t.X3 t.Y3 t.X t.Y)

/-- The method `pointCollides` of `triangle.go`.  The three areas are integers of at most
`2^31`, so their `float64` sum is exact. -/
def Triangle.pointCollides (t : Triangle) (x y : Int) : Bool :=
  let a := herons x y t.X2 t.Y2 t.X3 t.Y3
  let b := herons t.X t.Y x y t.X3 t.Y3
  let c := herons t.X t.Y t.X2 t.Y2 x y
  let self := t.Area
  let e := t.pointOnEdge x y
  decide (a + b + c = self) && !(e.1 || e.2.1 || e.2.2)

/-- The method `segmentCollides` of `triangle.go`. -/
def Triangle.segmentCollides (t : Triangle) (px py qx qy : Int) : Bool :=
  LinesIntersect t.X t.Y t.X2 t.Y2 px py qx qy ||
    LinesIntersect t.X2 t.Y2 t.X3 t.Y3 px py qx qy ||
    LinesIntersect t.X3 t.Y3 t.X t.Y px py qx qy

/-- Modelled from the spec: the struct `Line`, a segment with the two endpoints
`(X, Y)` and `(X2, Y2)`; its declaration is not among the sources. -/
structure Line where
  X : Int
  Y : Int
  X2 : Int
  Y2 : Int
  deriving DecidableEq, Repr

/-- Modelled from the spec: the struct `Circle`, a centre `(X, Y)` and a `Radius`; its
declaration is not among the sources. -/
structure Circle where
  X : Int
  Y : Int
  Radius : Int
  deriving DecidableEq, Repr

/-- The shapes whose branch of `Triangle.IsColliding` is self-contained.  The `*Rectangle`
branch and the `default` branch call methods of types that are not among the sources. -/
inductive Shape where
  | triangle (b : Triangle)
  | line (b : Line)
  | circle (b : Circle)
  deriving DecidableEq, Repr

/-- The `*Circle` branch of `Triangle.IsColliding` in `triangle.go`. -/
def Triangle.collidesCircle (t : Triangle) (b : Circle) : Bool :=
  let c1x := sub32 b.X t.X
  let c1y := sub32 b.Y t.Y
  let radiusSqr := mul32 b.Radius b.Radius
  let c1sqr := sub32 (add32 (mul32 c1x c1x) (mul32 c1y c1y)) radiusSqr
  if c1sqr ≤ 0 then true
  else
    let c2x := sub32 b.X t.X2
    let c2y := sub32 b.Y t.Y2
    let c2sqr := sub32 (add32 (mul32 c2x c2x) (mul32 c2y c2y)) radiusSqr
    if c2sqr ≤ 0 then true
    else
      let c3x := sub32 b.X t.X3
      let c3y := sub32 b.Y t.Y3
      let c3sqr := sub32 (add32 (mul32 c3x c3x) (mul32 c3y c3y)) radiusSqr
      if c3sqr ≤ 0 then true
      else
        let e1x := sub32 t.X2 t.X
        let e1y := sub32 t.Y2 t.Y
        let e2x := sub32 t.X3 t.X2
        let e2y := sub32 t.Y3 t.Y2
        let e3x := sub32 t.X t.X3
        let e3y := sub32 t.Y t.Y3
        let k0 := or32 (or32 (sub32 (mul32 e1y c1x) (mul32 e1x c1y))
          (sub32 (mul32 e2y c2x) (mul32 e2x c2y))) (sub32 (mul32 e3y c3x) (mul32 e3x c3y))
        if k0 ≥ 0 then true
        else
          let k1 := add32 (mul32 c1x e1x) (mul32 c1y e1y)
          let lng1 := add32 (mul32 e1x e1x) (mul32 e1y e1y)
          if k1 > 0 ∧ k1 < lng1 ∧ mul32 c1sqr lng1 ≤ mul32 k1 k1 then true
          else
            let k2 := add32 (mul32 c2x e2x) (mul32 c2y e2y)
            let lng2 := add32 (mul32 e2x e2x) (mul32 e2y e2y)
            if k2 > 0 ∧ k2 < lng2 ∧ mul32 c2sqr lng2 ≤ mul32 k2 k2 then true
            else
              let k3 := add32 (mul32 c3x e3x) (mul32 c3y e3y)
              let lng3 := add32 (mul32 e3x e3x) (mul32 e3y e3y)
              if k3 > 0 ∧ k3 < lng3 ∧ mul32 c3sqr lng3 ≤ mul32 k3 k3 then true
              else false

/-- The method `IsColliding` of `triangle.go`, on the shapes of `Shape`. -/
def Triangle.IsColliding (t : Triangle) (other : Shape) : Bool :=
  match other with
  | Shape.triangle b =>
    t.segmentCollides b.X b.Y b.X2 b.Y2 || t.segmentCollides b.X2 b.Y2 b.X3 b.Y3 ||
      t.segmentCollides b.X3 b.Y3 b.X b.Y || t.pointCollides b.X b.Y ||
      t.pointCollides b.X2 b.Y2 || t.pointCollides b.X3 b.Y3
  | Shape.line b =>
    t.segmentCollides b.X b.Y b.X2 b.Y2 || t.pointCollides b.X b.Y || t.pointCollides b.X2 b.Y2
  | Shape.circle b => t.collidesCircle b

/-- The method `WouldBeColliding` of `triangle.go`: the result and the receiver after the
call. -/
def Triangle.WouldBeColliding (t : Triangle) (other : Shape) (dx dy : Int) : Bool × Triangle :=
  let t1 := t.SetXY (add32 t.X dx) (add32 t.Y dy)
  let isColliding := t1.IsColliding other
  let t2 := t1.SetXY (sub32 t1.X dx) (sub32 t1.Y dy)
  (isColliding, t2)

/-! ## Swept resolution

`Resolve` computes in `float32`.  A `float32` is represented by the rational number it
holds, and every operation is the exact operation followed by `f32`, the rounding to a
24 bit significand, to nearest and ties to even.  The values of `Resolve` stay within the
normal range of `float32`, so the exponent range is not represented. -/

/-- The power `2^e` as a rational number. -/
def pow2 (e : Int) : ℚ :=
  if 0 ≤ e then ((2 ^ e.toNat : Nat) : ℚ) else 1 / ((2 ^ (-e).toNat : Nat) : ℚ)

/-- Floor of the binary logarithm of the absolute value of a non-zero rational. -/
def ilog2 (q : ℚ) : Int :=
  let n := q.num.natAbs
  let d := q.den
  let a := log2F n n
  let b := log2F d d
  if 2 ^ a * d ≤ n * 2 ^ b then (a : Int) - b else (a : Int) - b - 1

/-- Rounding to a `p` bit significand, to nearest, ties to even. -/
def roundNE (p : Nat) (q : ℚ) : ℚ :=
  if q = 0 then 0
  else
    let s := pow2 (ilog2 q - (p - 1))
    let m := |q| / s
    let f := ⌊m⌋
    let r := m - f
    let k := if r < 1 / 2 then f else if 1 / 2 < r then f + 1 else if f % 2 = 0 then f else f + 1
    (if q < 0 then -1 else 1) * k * s

/-- Rounding to `float32`. -/
def f32 (q : ℚ) : ℚ := roundNE 24 q

/-- Go `int32(x)` for a `float32`: truncation toward zero.  For a value outside the `int32`
range Go leaves the result to the implementation; the amd64 result `-2^31` is taken. -/
def toInt32 (q : ℚ) : Int :=
  let t := if q < 0 then -⌊-q⌋ else ⌊q⌋
  if -2147483648 ≤ t ∧ t ≤ 2147483647 then t else -2147483648

/-- The struct `Collision`, the result of `Resolve`. -/
structure Collision (σ : Type) where
  ResolveX : Int
  ResolveY : Int
  Teleporting : Bool
  ShapeA : σ
  ShapeB : Option σ
  deriving DecidableEq

/-- The local variables of `Resolve` that its loop changes, and `iters`, a counter of the
executions of the colliding branch that is not in the source. -/
structure ResolveState (σ : Type) where
  x : ℚ
  y : ℚ
  out : Collision σ
  iters : Nat

/-- The variable `primeX` of `Resolve` after its initialisation. -/
def Resolve.primeX (deltaX deltaY : Int) : Bool :=
  if |deltaY| > |deltaX| then false else true

/-- The variable `slope` of `Resolve` after its initialisation. -/
def Resolve.slope (deltaX deltaY : Int) : ℚ :=
  if |deltaY| > |deltaX| then
    if deltaY ≠ 0 ∧ deltaX ≠ 0 then f32 (f32 deltaX / f32 deltaY) else 0
  else if deltaY ≠ 0 ∧ deltaX ≠ 0 then f32 (f32 deltaY / f32 deltaX) else 0

/-- The colliding branch of the loop of `Resolve`. -/
def Resolve.reduce {σ : Type} (other : σ) (deltaX deltaY : Int) (s : ResolveState σ) :
    ResolveState σ :=
  let slope := Resolve.slope deltaX deltaY
  let x := if Resolve.primeX deltaX deltaY then
      (if deltaX > 0 then f32 (s.x - 1) else if deltaX < 0 then f32 (s.x + 1) else s.x)
    else
      (if deltaX > 0 then f32 (s.x - slope) else if deltaX < 0 then f32 (s.x + slope) else s.x)
  let y := if Resolve.primeX deltaX deltaY then
      (if deltaY > 0 then f32 (s.y - slope) else if deltaY < 0 then f32 (s.y + slope) else s.y)
    else
      (if deltaY > 0 then f32 (s.y - 1) else if deltaY < 0 then f32 (s.y + 1) else s.y)
  { x := x, y := y,
    out := { s.out with ResolveX := toInt32 x, ResolveY := toInt32 y, ShapeB := some other },
    iters := s.iters + 1 }

/-- The loop `for true` of `Resolve`, run for at most `fuel` tests of `WouldBeColliding`;
`none` when the loop has not reached its `break` by then. -/
def Resolve.loop {σ : Type} (wbc : σ → σ → Int → Int → Bool) (firstShape other : σ)
    (deltaX deltaY : Int) : Nat → ResolveState σ → Option (ResolveState σ)
  | 0, _ => none
  | fuel + 1, s =>
    if wbc firstShape other s.out.ResolveX s.out.ResolveY then
      Resolve.loop wbc firstShape other deltaX deltaY fuel (Resolve.reduce other deltaX deltaY s)
    else some s

/-- The state of `Resolve` on entry to its loop. -/
def Resolve.init {σ : Type} (firstShape : σ) (deltaX deltaY : Int) : ResolveState σ :=
  { x := f32 deltaX, y := f32 deltaY,
    out := { ResolveX := deltaX, ResolveY := deltaY, Teleporting := false,
             ShapeA := firstShape, ShapeB := none },
    iters := 0 }

/-- The teleport test after the loop of `Resolve`; the `float64` values are exact, so
`|a| > |b| * 1.5` is `2 * |a| > 3 * |b|`. -/
def Resolve.teleports (deltaX deltaY resolveX resolveY : Int) : Bool :=
  decide (2 * |sub32 deltaX resolveX| > 3 * |deltaX|) ||
    decide (2 * |sub32 deltaY resolveY| > 3 * |deltaY|)

/-- The function `Resolve` of `utils.go`.  `wbc a b dx dy` stands for the interface call
`a.WouldBeColliding(b, dx, dy)`; the result is `none` when the loop is still running after
`fuel` tests, and otherwise the returned `Collision` with the number of executions of the
colliding branch. -/
def Resolve {σ : Type} (wbc : σ → σ → Int → Int → Bool) (fuel : Nat) (firstShape other : σ)
    (deltaX deltaY : Int) : Option (Collision σ × Nat) :=
  if deltaX = 0 ∧ deltaY = 0 then
    some ((Resolve.init firstShape deltaX deltaY).out, 0)
  else
    match Resolve.loop wbc firstShape other deltaX deltaY fuel
        (Resolve.init firstShape deltaX deltaY) with
    | none => none
    | some s =>
      some ({ s.out with
        Teleporting := Resolve.teleports deltaX deltaY s.out.ResolveX s.out.ResolveY }, s.iters)

/-- The requested displacement on the primary axis of `Resolve`: `X` unless
`|deltaY| > |deltaX|`. -/
def Resolve.primary (deltaX deltaY : Int) : Int :=
  if Resolve.primeX deltaX deltaY then deltaX else deltaY

/-- The component of a displacement `(rx, ry)` on the primary axis of `Resolve`. -/
def Resolve.primaryOf (deltaX deltaY rx ry : Int) : Int :=
  if Resolve.primeX deltaX deltaY then rx else ry

/-- The `float32` trial component on the primary axis. -/
def ResolveState.primaryF {σ : Type} (deltaX deltaY : Int) (s : ResolveState σ) : ℚ :=
  if Resolve.primeX deltaX deltaY then s.x else s.y

/-- The requested displacement on the other axis of `Resolve`: `Y` unless `|deltaY| > |deltaX|`. -/
def Resolve.minor (deltaX deltaY : Int) : Int :=
  if Resolve.primeX deltaX deltaY then deltaY else deltaX

/-- The component of a displacement `(rx, ry)` on the axis that is not the primary one. -/
def Resolve.minorOf (deltaX deltaY rx ry : Int) : Int :=
  if Resolve.primeX deltaX deltaY then ry else rx

/-- The `float32` trial component on the axis that is not the primary one. -/
def ResolveState.minorF {σ : Type} (deltaX deltaY : Int) (s : ResolveState σ) : ℚ :=
  if Resolve.primeX deltaX deltaY then s.y else s.x

/-- A mover that collides at every displacement other than `(0,0)`. -/
def blockedUnlessHome (_ _ : Unit) (rx ry : Int) : Bool := !(rx == 0 && ry == 0)

/-- A mover that collides at every displacement whose `x` exceeds `-10`: it overlaps the other
shape already where it stands. -/
def overlappingAtStart (_ _ : Unit) (rx _ : Int) : Bool := decide (rx > -10)

/-! ## Geometry used to state the properties -/

/-- The point `(cx, cy)` lies in the closed triangle with vertices `(px,py)`, `(qx,qy)`,
`(rx,ry)`: it is a convex combination of the three vertices. -/
def inClosedTriangle (px py qx qy rx ry cx cy : Int) : Prop :=
  ∃ a b c : ℚ, 0 ≤ a ∧ 0 ≤ b ∧ 0 ≤ c ∧ a + b + c = 1 ∧
    (cx : ℚ) = a * px + b * qx + c * rx ∧ (cy : ℚ) = a * py + b * qy + c * ry

/-- No `int32` operation of the second stage of the circle test (the three cross products of
an edge with the vector from its first vertex to the centre) overflows. -/
def Triangle.stage2NoOverflow (t : Triangle) (b : Circle) : Prop :=
  inI32 (b.X - t.X) ∧ inI32 (b.Y - t.Y) ∧ inI32 (b.X - t.X2) ∧ inI32 (b.Y - t.Y2) ∧
  inI32 (b.X - t.X3) ∧ inI32 (b.Y - t.Y3) ∧
  inI32 (t.X2 - t.X) ∧ inI32 (t.Y2 - t.Y) ∧ inI32 (t.X3 - t.X2) ∧ inI32 (t.Y3 - t.Y2) ∧
  inI32 (t.X - t.X3) ∧ inI32 (t.Y - t.Y3) ∧
  inI32 ((t.Y2 - t.Y) * (b.X - t.X)) ∧ inI32 ((t.X2 - t.X) * (b.Y - t.Y)) ∧
  inI32 ((t.Y2 - t.Y) * (b.X - t.X) - (t.X2 - t.X) * (b.Y - t.Y)) ∧
  inI32 ((t.Y3 - t.Y2) * (b.X - t.X2)) ∧ inI32 ((t.X3 - t.X2) * (b.Y - t.Y2)) ∧
  inI32 ((t.Y3 - t.Y2) * (b.X - t.X2) - (t.X3 - t.X2) * (b.Y - t.Y2)) ∧
  inI32 ((t.Y - t.Y3) * (b.X - t.X3)) ∧ inI32 ((t.X - t.X3) * (b.Y - t.Y3)) ∧
  inI32 ((t.Y - t.Y3) * (b.X - t.X3) - (t.X - t.X3) * (b.Y - t.Y3))

instance (t : Triangle) (b : Circle) : Decidable (t.stage2NoOverflow b) := by
  unfold Triangle.stage2NoOverflow; infer_instance

/-- The three-stage circle test as the spec words it, over unbounded integers: a vertex is
within the radius of the centre, or the three cross products are non-negative, or for some
edge the projection `k` of the centre lies strictly inside the edge and
`distSqr * edgeLenSqr ≤ k^2`. -/
def Triangle.collidesCircleExact (t : Triangle) (b : Circle) : Bool :=
  let c1x := b.X - t.X
  let c1y := b.Y - t.Y
  let c2x := b.X - t.X2
  let c2y := b.Y - t.Y2
  let c3x := b.X - t.X3
  let c3y := b.Y - t.Y3
  let radiusSqr := b.Radius * b.Radius
  let c1sqr := c1x * c1x + c1y * c1y - radiusSqr
  let c2sqr := c2x * c2x + c2y * c2y - radiusSqr
  let c3sqr := c3x * c3x + c3y * c3y - radiusSqr
  let e1x := t.X2 - t.X
  let e1y := t.Y2 - t.Y
  let e2x := t.X3 - t.X2
  let e2y := t.Y3 - t.Y2
  let e3x := t.X - t.X3
  let e3y := t.Y - t.Y3
  let k1 := c1x * e1x + c1y * e1y
  let k2 := c2x * e2x + c2y * e2y
  let k3 := c3x * e3x + c3y * e3y
  let lng1 := e1x * e1x + e1y * e1y
  let lng2 := e2x * e2x + e2y * e2y
  let lng3 := e3x * e3x + e3y * e3y
  decide (c1sqr ≤ 0 ∨ c2sqr ≤ 0 ∨ c3sqr ≤ 0) ||
    decide (e1y * c1x - e1x * c1y ≥ 0 ∧ e2y * c2x - e2x * c2y ≥ 0 ∧
      e3y * c3x - e3x * c3y ≥ 0) ||
    decide (k1 > 0 ∧ k1 < lng1 ∧ c1sqr * lng1 ≤ k1 * k1) ||
    decide (k2 > 0 ∧ k2 < lng2 ∧ c2sqr * lng2 ≤ k2 * k2) ||
    decide (k3 > 0 ∧ k3 < lng3 ∧ c3sqr * lng3 ≤ k3 * k3)

/-- The point `(px, py)` lies on the closed segment from `(ax, ay)` to `(bx, by)`: it is
colinear with the endpoints and inside their bounding box. -/
def onSegment (px py ax ay bx «by» : Int) : Prop :=
  cross ax ay bx «by» px py = 0 ∧ min ax bx ≤ px ∧ px ≤ max ax bx ∧
    min ay «by» ≤ py ∧ py ≤ max ay «by»

instance (px py ax ay bx «by» : Int) : Decidable (onSegment px py ax ay bx «by») := by
  unfold onSegment; infer_instance

/-- No `int32` operation of `fDistance x y x2 y2` overflows. -/
def fDistance.noOverflow (x y x2 y2 : Int) : Prop :=
  inI32 (x - x2) ∧ inI32 (y - y2) ∧ inI32 ((x - x2) * (x - x2)) ∧
    inI32 ((y - y2) * (y - y2)) ∧ inI32 ((x - x2) * (x - x2) + (y - y2) * (y - y2))

instance (x y x2 y2 : Int) : Decidable (fDistance.noOverflow x y x2 y2) := by
  unfold fDistance.noOverflow; infer_instance

/-- No `int32` operation of `PointOnLine x y ax ay bx by` overflows. -/
def PointOnLine.noOverflow (x y ax ay bx «by» : Int) : Prop :=
  fDistance.noOverflow x y ax ay ∧ fDistance.noOverflow x y bx «by» ∧
    fDistance.noOverflow ax ay bx «by»

instance (x y ax ay bx «by» : Int) : Decidable (PointOnLine.noOverflow x y ax ay bx «by») := by
  unfold PointOnLine.noOverflow; infer_instance

/-- The exact value whose absolute value `herons` returns: twice the signed area of the
triangle `(x1,y1) (x2,y2) (x3,y3)`. -/
def area2 (x1 y1 x2 y2 x3 y3 : Int) : Int :=
  (x2 - x1) * (y3 - y1) - (x3 - x1) * (y2 - y1)

/-- No `int32` operation of `herons x1 y1 x2 y2 x3 y3` overflows. -/
def herons.noOverflow (x1 y1 x2 y2 x3 y3 : Int) : Prop :=
  inI32 (x2 - x1) ∧ inI32 (y3 - y1) ∧ inI32 ((x2 - x1) * (y3 - y1)) ∧
  inI32 (x3 - x1) ∧ inI32 (y2 - y1) ∧ inI32 ((x3 - x1) * (y2 - y1)) ∧
  inI32 ((x2 - x1) * (y3 - y1) - (x3 - x1) * (y2 - y1))

instance (x1 y1 x2 y2 x3 y3 : Int) : Decidable (herons.noOverflow x1 y1 x2 y2 x3 y3) := by
  unfold herons.noOverflow; infer_instance

/-- No `int32` operation of the four areas of `t.pointCollides x y` overflows. -/
def Triangle.areasNoOverflow (t : Triangle) (x y : Int) : Prop :=
  herons.noOverflow x y t.X2 t.Y2 t.X3 t.Y3 ∧ herons.noOverflow t.X t.Y x y t.X3 t.Y3 ∧
  herons.noOverflow t.X t.Y t.X2 t.Y2 x y ∧ herons.noOverflow t.X t.Y t.X2 t.Y2 t.X3 t.Y3

instance (t : Triangle) (x y : Int) : Decidable (t.areasNoOverflow x y) := by
  unfold Triangle.areasNoOverflow; infer_instance

/-- No `int32` operation of the three edge tests of `t.pointCollides x y` overflows. -/
def Triangle.edgesNoOverflow (t : Triangle) (x y : Int) : Prop :=
  PointOnLine.noOverflow x y t.X t.Y t.X2 t.Y2 ∧ PointOnLine.noOverflow x y t.X2 t.Y2 t.X3 t.Y3 ∧
  PointOnLine.noOverflow x y t.X3 t.Y3 t.X t.Y

instance (t : Triangle) (x y : Int) : Decidable (t.edgesNoOverflow x y) := by
  unfold Triangle.edgesNoOverflow; infer_instance

/-- The closed segments from `p1` to `q1` and from `p2` to `q2` have a point in common. -/
def segmentsMeet (p1x p1y q1x q1y p2x p2y q2x q2y : Int) : Prop :=
  ∃ s t : ℚ, 0 ≤ s ∧ s ≤ 1 ∧ 0 ≤ t ∧ t ≤ 1 ∧
    (p1x : ℚ) + s * (q1x - p1x) = p2x + t * (q2x - p2x) ∧
    (p1y : ℚ) + s * (q1y - p1y) = p2y + t * (q2y - p2y)

/-- No `int32` operation of the four calls of `orientation` in `LinesIntersect` overflows. -/
def LinesIntersect.noOverflow (p1x p1y q1x q1y p2x p2y q2x q2y : Int) : Prop :=
  orientation.noOverflow p1x p1y q1x q1y p2x p2y ∧
  orientation.noOverflow p1x p1y q1x q1y q2x q2y ∧
  orientation.noOverflow p2x p2y q2x q2y p1x p1y ∧
  orientation.noOverflow p2x p2y q2x q2y q1x q1y

instance (p1x p1y q1x q1y p2x p2y q2x q2y : Int) :
    Decidable (LinesIntersect.noOverflow p1x p1y q1x q1y p2x p2y q2x q2y) := by
  unfold LinesIntersect.noOverflow; infer_instance

/-- No `int32` operation of the circle test of `t` against `b` overflows, on whichever path. -/
def Triangle.circleNoOverflow (t : Triangle) (b : Circle) : Prop :=
  inI32 (b.X - t.X) ∧
  inI32 (b.Y - t.Y) ∧
  inI32 (b.X - t.X2) ∧
  inI32 (b.Y - t.Y2) ∧
  inI32 (b.X - t.X3) ∧
  inI32 (b.Y - t.Y3) ∧
  inI32 (b.Radius * b.Radius) ∧
  inI32 ((b.X - t.X) * (b.X - t.X)) ∧
  inI32 ((b.Y - t.Y) * (b.Y - t.Y)) ∧
  inI32 ((b.X - t.X) * (b.X - t.X) + (b.Y - t.Y) * (b.Y - t.Y)) ∧
  inI32 ((b.X - t.X) * (b.X - t.X) + (b.Y - t.Y) * (b.Y - t.Y) - b.Radius * b.Radius) ∧
  inI32 ((b.X - t.X2) * (b.X - t.X2)) ∧
  inI32 ((b.Y - t.Y2) * (b.Y - t.Y2)) ∧
  inI32 ((b.X - t.X2) * (b.X - t.X2) + (b.Y - t.Y2) * (b.Y - t.Y2)) ∧
  inI32 ((b.X - t.X2) * (b.X - t.X2) + (b.Y - t.Y2) * (b.Y - t.Y2) - b.Radius * b.Radius) ∧
  inI32 ((b.X - t.X3) * (b.X - t.X3)) ∧
  inI32 ((b.Y - t.Y3) * (b.Y - t.Y3)) ∧
  inI32 ((b.X - t.X3) * (b.X - t.X3) + (b.Y - t.Y3) * (b.Y - t.Y3)) ∧
  inI32 ((b.X - t.X3) * (b.X - t.X3) + (b.Y - t.Y3) * (b.Y - t.Y3) - b.Radius * b.Radius) ∧
  inI32 (t.X2 - t.X) ∧
  inI32 (t.Y2 - t.Y) ∧
  inI32 (t.X3 - t.X2) ∧
  inI32 (t.Y3 - t.Y2) ∧
  inI32 (t.X - t.X3) ∧
  inI32 (t.Y - t.Y3) ∧
  inI32 ((t.Y2 - t.Y) * (b.X - t.X)) ∧
  inI32 ((t.X2 - t.X) * (b.Y - t.Y)) ∧
  inI32 ((t.Y2 - t.Y) * (b.X - t.X) - (t.X2 - t.X) * (b.Y - t.Y)) ∧
  inI32 ((t.Y3 - t.Y2) * (b.X - t.X2)) ∧
  inI32 ((t.X3 - t.X2) * (b.Y - t.Y2)) ∧
  inI32 ((t.Y3 - t.Y2) * (b.X - t.X2) - (t.X3 - t.X2) * (b.Y - t.Y2)) ∧
  inI32 ((t.Y - t.Y3) * (b.X - t.X3)) ∧
  inI32 ((t.X - t.X3) * (b.Y - t.Y3)) ∧
  inI32 ((t.Y - t.Y3) * (b.X - t.X3) - (t.X - t.X3) * (b.Y - t.Y3)) ∧
  inI32 ((b.X - t.X) * (t.X2 - t.X)) ∧
  inI32 ((b.Y - t.Y) * (t.Y2 - t.Y)) ∧
  inI32 ((b.X - t.X) * (t.X2 - t.X) + (b.Y - t.Y) * (t.Y2 - t.Y)) ∧
  inI32 ((t.X2 - t.X) * (t.X2 - t.X)) ∧
  inI32 ((t.Y2 - t.Y) * (t.Y2 - t.Y)) ∧
  inI32 ((t.X2 - t.X) * (t.X2 - t.X) + (t.Y2 - t.Y) * (t.Y2 - t.Y)) ∧
  inI32 (((b.X - t.X) * (b.X - t.X) + (b.Y - t.Y) * (b.Y - t.Y) - b.Radius * b.Radius) * ((t.X2 - t.X) * (t.X2 - t.X) + (t.Y2 - t.Y) * (t.Y2 - t.Y))) ∧
  inI32 (((b.X - t.X) * (t.X2 - t.X) + (b.Y - t.Y) * (t.Y2 - t.Y)) * ((b.X - t.X) * (t.X2 - t.X) + (b.Y - t.Y) * (t.Y2 - t.Y))) ∧
  inI32 ((b.X - t.X2) * (t.X3 - t.X2)) ∧
  inI32 ((b.Y - t.Y2) * (t.Y3 - t.Y2)) ∧
  inI32 ((b.X - t.X2) * (t.X3 - t.X2) + (b.Y - t.Y2) * (t.Y3 - t.Y2)) ∧
  inI32 ((t.X3 - t.X2) * (t.X3 - t.X2)) ∧
  inI32 ((t.Y3 - t.Y2) * (t.Y3 - t.Y2)) ∧
  inI32 ((t.X3 - t.X2) * (t.X3 - t.X2) + (t.Y3 - t.Y2) * (t.Y3 - t.Y2)) ∧
  inI32 (((b.X - t.X2) * (b.X - t.X2) + (b.Y - t.Y2) * (b.Y - t.Y2) - b.Radius * b.Radius) * ((t.X3 - t.X2) * (t.X3 - t.X2) + (t.Y3 - t.Y2) * (t.Y3 - t.Y2))) ∧
  inI32 (((b.X - t.X2) * (t.X3 - t.X2) + (b.Y - t.Y2) * (t.Y3 - t.Y2)) * ((b.X - t.X2) * (t.X3 - t.X2) + (b.Y - t.Y2) * (t.Y3 - t.Y2))) ∧
  inI32 ((b.X - t.X3) * (t.X - t.X3)) ∧
  inI32 ((b.Y - t.Y3) * (t.Y - t.Y3)) ∧
  inI32 ((b.X - t.X3) * (t.X - t.X3) + (b.Y - t.Y3) * (t.Y - t.Y3)) ∧
  inI32 ((t.X - t.X3) * (t.X - t.X3)) ∧
  inI32 ((t.Y - t.Y3) * (t.Y - t.Y3)) ∧
  inI32 ((t.X - t.X3) * (t.X - t.X3) + (t.Y - t.Y3) * (t.Y - t.Y3)) ∧
  inI32 (((b.X - t.X3) * (b.X - t.X3) + (b.Y - t.Y3) * (b.Y - t.Y3) - b.Radius * b.Radius) * ((t.X - t.X3) * (t.X - t.X3) + (t.Y - t.Y3) * (t.Y - t.Y3))) ∧
  inI32 (((b.X - t.X3) * (t.X - t.X3) + (b.Y - t.Y3) * (t.Y - t.Y3)) * ((b.X - t.X3) * (t.X - t.X3) + (b.Y - t.Y3) * (t.Y - t.Y3)))

instance (t : Triangle) (b : Circle) : Decidable (t.circleNoOverflow b) := by
  unfold Triangle.circleNoOverflow; infer_instance

/-- The closed disk of `b` and the closed triangle `t` have a point in common: a convex
combination of the three vertices lies at distance at most `Radius` from the centre. -/
def diskMeetsTriangle (t : Triangle) (b : Circle) : Prop :=
  ∃ u v w : ℝ, 0 ≤ u ∧ 0 ≤ v ∧ 0 ≤ w ∧ u + v + w = 1 ∧
    Real.sqrt ((u * t.X + v * t.X2 + w * t.X3 - b.X) ^ 2 +
      (u * t.Y + v * t.Y2 + w * t.Y3 - b.Y) ^ 2) ≤ b.Radius

/-- Every coordinate of the triangle is at most `n` in magnitude. -/
def Triangle.within (t : Triangle) (n : Int) : Prop :=
  |t.X| ≤ n ∧ |t.Y| ≤ n ∧ |t.X2| ≤ n ∧ |t.Y2| ≤ n ∧ |t.X3| ≤ n ∧ |t.Y3| ≤ n

instance (t : Triangle) (n : Int) : Decidable (t.within n) := by
  unfold Triangle.within; infer_instance

/-- The real point `(px, py)` is a point of the closed triangle: a convex combination of the
three vertices. -/
def Triangle.hasPoint (t : Triangle) (px py : ℝ) : Prop :=
  ∃ u v w : ℝ, 0 ≤ u ∧ 0 ≤ v ∧ 0 ≤ w ∧ u + v + w = 1 ∧
    px = u * t.X + v * t.X2 + w * t.X3 ∧ py = u * t.Y + v * t.Y2 + w * t.Y3

/-- The real point `(px, py)` is an interior point of the triangle: a convex combination of
the three vertices with positive weights. -/
def Triangle.hasInteriorPoint (t : Triangle) (px py : ℝ) : Prop :=
  ∃ u v w : ℝ, 0 < u ∧ 0 < v ∧ 0 < w ∧ u + v + w = 1 ∧
    px = u * t.X + v * t.X2 + w * t.X3 ∧ py = u * t.Y + v * t.Y2 + w * t.Y3

/-- The point `p` is clear of the segment from `a` to `b`: its two distances to the endpoints
exceed the length of the segment by more than `0.0001 + 10^-9`, the tolerance of
`PointOnLine` and the rounding of its `float64` operations. -/
def clearOf (px py ax ay bx «by» : Int) : Prop :=
  (1 / 10000 + 1 / 1000000000 : ℝ) <
    Real.sqrt (((px - ax) * (px - ax) + (py - ay) * (py - ay) : Int) : ℝ) +
      Real.sqrt (((px - bx) * (px - bx) + (py - «by») * (py - «by») : Int) : ℝ) -
      Real.sqrt (((ax - bx) * (ax - bx) + (ay - «by») * (ay - «by») : Int) : ℝ)

/-- The point `p` is clear of the three edges of `t`. -/
def Triangle.clearOfEdges (t : Triangle) (px py : Int) : Prop :=
  clearOf px py t.X t.Y t.X2 t.Y2 ∧ clearOf px py t.X2 t.Y2 t.X3 t.Y3 ∧
    clearOf px py t.X3 t.Y3 t.X t.Y

/-- The interiors of the two triangles have a point in common. -/
def Triangle.interiorsMeet (A B : Triangle) : Prop :=
  ∃ px py : ℝ, A.hasInteriorPoint px py ∧ B.hasInteriorPoint px py

/-- The triangle `A` lies in the closed triangle `B`: its three vertices are points of `B`. -/
def Triangle.liesIn (A B : Triangle) : Prop :=
  B.hasPoint A.X A.Y ∧ B.hasPoint A.X2 A.Y2 ∧ B.hasPoint A.X3 A.Y3

/-- Every vertex of `B` is clear of every edge of `A`. -/
def Triangle.clearOfTriangle (A B : Triangle) : Prop :=
  A.clearOfEdges B.X B.Y ∧ A.clearOfEdges B.X2 B.Y2 ∧ A.clearOfEdges B.X3 B.Y3

/-- A test on integer square roots that implies `clearOf`: the rounded-down distances from
`p` to `a` and to `b` exceed the rounded-down length of `ab` by at least two. -/
def farFrom (px py ax ay bx «by» : Int) : Prop :=
  ((px - ax) * (px - ax) + (py - ay) * (py - ay)).toNat < 2 ^ 128 ∧
  ((px - bx) * (px - bx) + (py - «by») * (py - «by»)).toNat < 2 ^ 128 ∧
  ((ax - bx) * (ax - bx) + (ay - «by») * (ay - «by»)).toNat < 2 ^ 128 ∧
  isqrt ((ax - bx) * (ax - bx) + (ay - «by») * (ay - «by»)).toNat + 2 ≤
    isqrt ((px - ax) * (px - ax) + (py - ay) * (py - ay)).toNat +
      isqrt ((px - bx) * (px - bx) + (py - «by») * (py - «by»)).toNat

instance (px py ax ay bx «by» : Int) : Decidable (farFrom px py ax ay bx «by») := by
  unfold farFrom; infer_instance

/-- Every vertex of `B` passes `farFrom` against every edge of `A`. -/
def Triangle.farFromTriangle (A B : Triangle) : Prop :=
  (farFrom B.X B.Y A.X A.Y A.X2 A.Y2 ∧ farFrom B.X B.Y A.X2 A.Y2 A.X3 A.Y3 ∧
    farFrom B.X B.Y A.X3 A.Y3 A.X A.Y) ∧
  (farFrom B.X2 B.Y2 A.X A.Y A.X2 A.Y2 ∧ farFrom B.X2 B.Y2 A.X2 A.Y2 A.X3 A.Y3 ∧
    farFrom B.X2 B.Y2 A.X3 A.Y3 A.X A.Y) ∧
  (farFrom B.X3 B.Y3 A.X A.Y A.X2 A.Y2 ∧ farFrom B.X3 B.Y3 A.X2 A.Y2 A.X3 A.Y3 ∧
    farFrom B.X3 B.Y3 A.X3 A.Y3 A.X A.Y)

instance (A B : Triangle) : Decidable (A.farFromTriangle B) := by
  unfold Triangle.farFromTriangle; infer_instance

/-! ## Lemmas on machine integers -/

theorem wrap32_of_inI32 {v : Int} (h : inI32 v) : wrap32 v = v := by
  unfold inI32 at h
  unfold wrap32
  omega

theorem inI32_wrap32 (v : Int) : inI32 (wrap32 v) := by
  unfold inI32 wrap32
  omega

theorem wrap32_emod (v : Int) : wrap32 v % 4294967296 = v % 4294967296 := by
  unfold wrap32
  omega

theorem wrap32_congr {a b : Int} (h : a % 4294967296 = b % 4294967296) :
    wrap32 a = wrap32 b := by
  unfold wrap32
  omega

theorem wrap32_modEq (v : Int) : wrap32 v ≡ v [ZMOD 4294967296] := wrap32_emod v

theorem wrap32_eq_of_modEq {a b : Int} (h : a ≡ b [ZMOD 4294967296]) :
    wrap32 a = wrap32 b := wrap32_congr h

/-! ## Winding order -/

theorem sub32_exact {a b : Int} (h : inI32 (a - b)) : sub32 a b = a - b :=
  wrap32_of_inI32 h

theorem add32_exact {a b : Int} (h : inI32 (a + b)) : add32 a b = a + b :=
  wrap32_of_inI32 h

theorem mul32_exact {a b : Int} (h : inI32 (a * b)) : mul32 a b = a * b :=
  wrap32_of_inI32 h

theorem cross_swap (px py qx qy rx ry : Int) :
    cross px py rx ry qx qy = - cross px py qx qy rx ry := by
  unfold cross
  ring

/-- Without overflow the winding sum of `NewTriangle` is the cross product of `orientation`. -/
theorem NewTriangle_sum_exact {x y x2 y2 x3 y3 : Int}
    (h : NewTriangle.noOverflow x y x2 y2 x3 y3) :
    add32 (add32 (mul32 (sub32 x2 x) (add32 y2 y)) (mul32 (sub32 x3 x2) (add32 y3 y2)))
      (mul32 (sub32 x x3) (add32 y y3)) = cross x y x2 y2 x3 y3 := by
  obtain ⟨h1, h2, h3, h4, h5, h6, h7, h8, h9, h10, h11⟩ := h
  rw [sub32_exact h1, add32_exact h2, mul32_exact h3, sub32_exact h4, add32_exact h5,
    mul32_exact h6, sub32_exact h7, add32_exact h8, mul32_exact h9, add32_exact h10,
    add32_exact h11]
  unfold cross
  ring

/-- Without overflow `NewTriangle` swaps the last two vertices exactly when the cross product
of the supplied points is negative. -/
theorem NewTriangle_eq {x y x2 y2 x3 y3 : Int}
    (h : NewTriangle.noOverflow x y x2 y2 x3 y3) :
    NewTriangle x y x2 y2 x3 y3 =
      if cross x y x2 y2 x3 y3 ≥ 0 then
        { X := x, Y := y, X2 := x2, Y2 := y2, X3 := x3, Y3 := y3 }
      else
        { X := x, Y := y, X2 := x3, Y2 := y3, X3 := x2, Y3 := y2 } := by
  unfold NewTriangle
  simp only [NewTriangle_sum_exact h]

/-- Without overflow `orientation` reports the sign of the exact cross product. -/
theorem orientation_exact {px py qx qy rx ry : Int}
    (h : orientation.noOverflow px py qx qy rx ry) :
    orientation px py qx qy rx ry =
      if cross px py qx qy rx ry = 0 then colinear
      else if cross px py qx qy rx ry > 0 then clockwise else counterclockwise := by
  obtain ⟨h1, h2, h3, h4, h5, h6, h7⟩ := h
  unfold orientation
  simp only [sub32_exact h1, sub32_exact h2, mul32_exact h3, sub32_exact h4, sub32_exact h5,
    mul32_exact h6, sub32_exact h7]
  rfl

theorem sub32_add32_anchor (a b x : Int) : sub32 (add32 a (sub32 x b)) x = sub32 a b := by
  unfold sub32 add32 wrap32
  omega

theorem sub32_add32_both (a c d : Int) : sub32 (add32 a d) (add32 c d) = sub32 a c := by
  unfold sub32 add32 wrap32
  omega

/-- The value of `orientation` depends only on the vertex differences modulo `2^32`, so the
wrapping translation of `SetXY` leaves it unchanged. -/
theorem orientation_SetXY (t : Triangle) (x y : Int) :
    (t.SetXY x y).orientation = t.orientation := by
  unfold Triangle.orientation Triangle.SetXY orientation
  simp only [sub32_add32_anchor, sub32_add32_both]

/-- C1. Clockwise winding is an invariant of `Triangle`: when no `int32` operation of
`NewTriangle` and of `orientation` on the stored vertices overflows, the stored vertices are
not counter-clockwise, they are clockwise when the three points are not colinear, and every
later `SetXY` leaves the value of `orientation` on the stored vertices unchanged. -/
theorem NewTriangle_clockwise_invariant (x y x2 y2 x3 y3 : Int)
    (hnew : NewTriangle.noOverflow x y x2 y2 x3 y3)
    (hor : orientation.noOverflow (NewTriangle x y x2 y2 x3 y3).X (NewTriangle x y x2 y2 x3 y3).Y
      (NewTriangle x y x2 y2 x3 y3).X2 (NewTriangle x y x2 y2 x3 y3).Y2
      (NewTriangle x y x2 y2 x3 y3).X3 (NewTriangle x y x2 y2 x3 y3).Y3) :
    (NewTriangle x y x2 y2 x3 y3).orientation ≠ counterclockwise ∧
    (cross x y x2 y2 x3 y3 ≠ 0 → (NewTriangle x y x2 y2 x3 y3).orientation = clockwise) ∧
    ∀ x' y' : Int,
      ((NewTriangle x y x2 y2 x3 y3).SetXY x' y').orientation =
        (NewTriangle x y x2 y2 x3 y3).orientation := by
  refine ⟨?_, ?_, fun x' y' => orientation_SetXY _ x' y'⟩
  all_goals
    unfold Triangle.orientation
    rw [orientation_exact hor]
    rw [NewTriangle_eq hnew]
    by_cases hs : cross x y x2 y2 x3 y3 ≥ 0
    · rw [if_pos hs]
      rcases eq_or_lt_of_le hs with h0 | hpos
      · rw [if_pos h0.symm]
        intros
        first
          | decide
          | exact absurd h0.symm (by assumption)
      · rw [if_neg hpos.ne', if_pos hpos]
        intros
        decide
    · rw [if_neg hs]
      have hneg : cross x y x2 y2 x3 y3 < 0 := not_le.mp hs
      have h1 : cross x y x3 y3 x2 y2 ≠ 0 := by rw [cross_swap]; omega
      have h2 : cross x y x3 y3 x2 y2 > 0 := by rw [cross_swap]; omega
      rw [if_neg h1, if_pos h2]
      intros
      decide

/-- Witness for C1 on the triangle `(5,5) (6,6) (4,6)` of the test suite. -/
theorem NewTriangle_clockwise_invariant_witness :
    (NewTriangle 5 5 6 6 4 6).orientation ≠ counterclockwise ∧
    (cross 5 5 6 6 4 6 ≠ 0 → (NewTriangle 5 5 6 6 4 6).orientation = clockwise) ∧
    ∀ x' y' : Int,
      ((NewTriangle 5 5 6 6 4 6).SetXY x' y').orientation =
        (NewTriangle 5 5 6 6 4 6).orientation :=
  NewTriangle_clockwise_invariant 5 5 6 6 4 6 (by decide) (by decide)

/-! ## Translation round trip -/

theorem add32_sub32_cancel {a d : Int} (h : inI32 a) : sub32 (add32 a d) d = a := by
  unfold inI32 at h
  unfold sub32 add32 wrap32
  omega

theorem add32_roundtrip {a b d : Int} (h : inI32 b) :
    add32 (add32 b (sub32 (add32 a d) a)) (sub32 (sub32 (add32 a d) d) (add32 a d)) = b := by
  unfold inI32 at h
  unfold sub32 add32 wrap32
  omega

/-- Translating by `SetXY` to `(X+dx, Y+dy)` and back by `(X-dx, Y-dy)` restores the
triangle, wrap-around included. -/
theorem SetXY_roundtrip (t : Triangle) (h : t.wf) (dx dy : Int) :
    ((t.SetXY (add32 t.X dx) (add32 t.Y dy)).SetXY
      (sub32 (t.SetXY (add32 t.X dx) (add32 t.Y dy)).X dx)
      (sub32 (t.SetXY (add32 t.X dx) (add32 t.Y dy)).Y dy)) = t := by
  obtain ⟨hX, hY, hX2, hY2, hX3, hY3⟩ := h
  cases t
  simp only [Triangle.SetXY, Triangle.mk.injEq]
  exact ⟨add32_sub32_cancel hX, add32_sub32_cancel hY, add32_roundtrip hX2, add32_roundtrip hY2,
    add32_roundtrip hX3, add32_roundtrip hY3⟩

/-- C5. `WouldBeColliding` leaves the triangle unchanged: for every triangle of `int32`
fields, every displacement (wrapping ones included) and every other shape that is a
Triangle, a Line or a Circle, the six coordinates after the call are those before it. -/
theorem WouldBeColliding_restores (t : Triangle) (h : t.wf) (other : Shape) (dx dy : Int) :
    (t.WouldBeColliding other dx dy).2 = t := by
  unfold Triangle.WouldBeColliding
  exact SetXY_roundtrip t h dx dy

/-- Witness for C5: a displacement that wraps around the `int32` range. -/
theorem WouldBeColliding_restores_witness :
    ((NewTriangle 10 10 18 18 2 18).WouldBeColliding (Shape.circle ⟨30, 30, 2⟩)
      2147483647 (-2147483648)).2 = NewTriangle 10 10 18 18 2 18 :=
  WouldBeColliding_restores (NewTriangle 10 10 18 18 2 18) (by decide)
    (Shape.circle ⟨30, 30, 2⟩) 2147483647 (-2147483648)

/-! ## Swept resolution: moves that are not blocked, and the returned displacement -/

theorem teleports_self (deltaX deltaY : Int) :
    Resolve.teleports deltaX deltaY deltaX deltaY = false := by
  have h0 : ∀ a : Int, sub32 a a = 0 := fun a => by
    unfold sub32 wrap32
    omega
  unfold Resolve.teleports
  rw [h0, h0]
  have hx : ¬ (2 * |(0 : Int)| > 3 * |deltaX|) := by
    have := abs_nonneg deltaX
    simp only [abs_zero, mul_zero, gt_iff_lt, not_lt]
    omega
  have hy : ¬ (2 * |(0 : Int)| > 3 * |deltaY|) := by
    have := abs_nonneg deltaY
    simp only [abs_zero, mul_zero, gt_iff_lt, not_lt]
    omega
  simp only [hx, hy, decide_False, Bool.or_self]

/-- C6. Unobstructed moves are returned unchanged: if the displacement is `(0,0)` or the
mover would not collide at `(dx,dy)`, `Resolve` returns (with any positive number of loop
tests allowed) `ShapeA = mover`, `ResolveX = dx`, `ResolveY = dy`, no `ShapeB` and
`Teleporting = false`, without executing the colliding branch. -/
theorem Resolve_unobstructed {σ : Type} (wbc : σ → σ → Int → Int → Bool) (fuel : Nat)
    (mover other : σ) (dx dy : Int)
    (h : (dx = 0 ∧ dy = 0) ∨ wbc mover other dx dy = false) :
    Resolve wbc (fuel + 1) mover other dx dy =
      some ({ ResolveX := dx, ResolveY := dy, Teleporting := false,
              ShapeA := mover, ShapeB := none }, 0) := by
  unfold Resolve
  by_cases h0 : dx = 0 ∧ dy = 0
  · rw [if_pos h0]
    rfl
  · rw [if_neg h0]
    have hw : wbc mover other dx dy = false := h.resolve_left h0
    have hl : Resolve.loop wbc mover other dx dy (fuel + 1) (Resolve.init mover dx dy) =
        some (Resolve.init mover dx dy) := by
      simp [Resolve.loop, Resolve.init, hw]
    rw [hl]
    simp [Resolve.init, teleports_self]

/-- Witness for C6: the move `(5, 0)` of the spec, with nothing in the way. -/
theorem Resolve_unobstructed_witness :
    Resolve (fun (_ _ : Unit) (_ _ : Int) => false) 1 () () 5 0 =
      some ({ ResolveX := 5, ResolveY := 0, Teleporting := false,
              ShapeA := (), ShapeB := none }, 0) :=
  Resolve_unobstructed (fun (_ _ : Unit) (_ _ : Int) => false) 0 () () 5 0 (Or.inr rfl)

/-- The loop of `Resolve` is left only at a displacement that does not collide. -/
theorem loop_result_free {σ : Type} (wbc : σ → σ → Int → Int → Bool) (mover other : σ)
    (dx dy : Int) (fuel : Nat) :
    ∀ s s' : ResolveState σ, Resolve.loop wbc mover other dx dy fuel s = some s' →
      wbc mover other s'.out.ResolveX s'.out.ResolveY = false := by
  induction fuel with
  | zero =>
    intro s s' h
    simp [Resolve.loop] at h
  | succ n ih =>
    intro s s' h
    unfold Resolve.loop at h
    by_cases hw : wbc mover other s.out.ResolveX s.out.ResolveY = true
    · rw [if_pos hw] at h
      exact ih _ _ h
    · rw [if_neg hw] at h
      have hs : s = s' := Option.some.inj h
      rw [← hs]
      simpa using hw

/-- C9. The resolved displacement is collision-free: for a displacement other than `(0,0)`,
whenever `Resolve` returns, the mover would not collide at the returned
`(ResolveX, ResolveY)`. -/
theorem Resolve_result_free {σ : Type} (wbc : σ → σ → Int → Int → Bool) (fuel : Nat)
    (mover other : σ) (dx dy : Int) (c : Collision σ) (n : Nat)
    (hne : ¬ (dx = 0 ∧ dy = 0))
    (hret : Resolve wbc fuel mover other dx dy = some (c, n)) :
    wbc mover other c.ResolveX c.ResolveY = false := by
  unfold Resolve at hret
  rw [if_neg hne] at hret
  cases hl : Resolve.loop wbc mover other dx dy fuel (Resolve.init mover dx dy) with
  | none =>
    rw [hl] at hret
    simp at hret
  | some s =>
    rw [hl] at hret
    have hc : c = { s.out with
        Teleporting := Resolve.teleports dx dy s.out.ResolveX s.out.ResolveY } := by
      have := Option.some.inj hret
      exact (congrArg Prod.fst this).symm
    rw [hc]
    exact loop_result_free wbc mover other dx dy fuel _ s hl

/-- Witness for C9: a mover blocked at every `x > 2` asks for `(5, 0)` and gets `(2, 0)`. -/
theorem Resolve_result_free_witness :
    (fun (_ _ : Unit) (x _ : Int) => decide (x > 2)) () () 2 0 = false :=
  Resolve_result_free (fun (_ _ : Unit) (x _ : Int) => decide (x > 2)) 10 () () 5 0
    { ResolveX := 2, ResolveY := 0, Teleporting := false, ShapeA := (), ShapeB := some () } 3
    (by decide) (by decide!)

/-! ## Exactness of `float32` on small integers -/

theorem log2F_spec (fuel : Nat) : ∀ n : Nat, n ≤ fuel → 0 < n →
    2 ^ log2F fuel n ≤ n ∧ n < 2 ^ (log2F fuel n + 1) := by
  induction fuel with
  | zero =>
    intro n h1 h2
    omega
  | succ f ih =>
    intro n h1 h2
    unfold log2F
    by_cases h : n < 2
    · rw [if_pos h]
      simp only [pow_zero, zero_add, pow_one]
      omega
    · rw [if_neg h]
      obtain ⟨ha, hb⟩ := ih (n / 2) (by omega) (by omega)
      rw [pow_succ, pow_succ]
      constructor <;> omega

theorem pow2_pos (e : Int) : 0 < pow2 e := by
  unfold pow2
  split_ifs <;> positivity

theorem roundNE_of_int_significand (p : Nat) (q : ℚ) (hq : q ≠ 0) (z : Int)
    (hz : |q| / pow2 (ilog2 q - (p - 1)) = (z : ℚ)) : roundNE p q = q := by
  unfold roundNE
  rw [if_neg hq]
  simp only [hz, Int.floor_intCast, sub_self]
  have hs := pow2_pos (ilog2 q - (p - 1))
  have habs : |q| = z * pow2 (ilog2 q - (p - 1)) := by
    rw [← hz]
    field_simp
  have hhalf : (0 : ℚ) < 1 / 2 := by norm_num
  rw [if_pos hhalf]
  by_cases hneg : q < 0
  · rw [if_pos hneg, mul_assoc, ← habs, abs_of_neg hneg]
    ring
  · rw [if_neg hneg, mul_assoc, ← habs, abs_of_nonneg (not_lt.mp hneg)]
    ring

theorem ilog2_intCast (n : Int) (hn : n ≠ 0) :
    ilog2 (n : ℚ) = (log2F n.natAbs n.natAbs : Int) := by
  have hpos : 0 < n.natAbs := Int.natAbs_pos.mpr hn
  obtain ⟨ha, -⟩ := log2F_spec n.natAbs n.natAbs le_rfl hpos
  unfold ilog2
  simp only [Rat.num_intCast, Rat.den_intCast]
  have h1 : log2F 1 1 = 0 := by decide
  rw [h1]
  simp only [mul_one, pow_zero, Nat.cast_zero, sub_zero]
  rw [if_pos ha]

theorem significand_of_small (m a : Nat) (ha : a ≤ 23) :
    (m : ℚ) / pow2 ((a : Int) - ((24 : Nat) - 1)) = (((m * 2 ^ (23 - a) : Nat) : Int) : ℚ) := by
  interval_cases a <;> simp only [pow2, Int.toNat] <;> norm_num <;> ring

theorem f32_intCast (n : Int) (h : |n| ≤ 16777216) : f32 (n : ℚ) = n := by
  unfold f32
  by_cases hn : n = 0
  · subst hn
    simp [roundNE]
  · have hq : (n : ℚ) ≠ 0 := by exact_mod_cast hn
    have hpos : 0 < n.natAbs := Int.natAbs_pos.mpr hn
    obtain ⟨ha, hb⟩ := log2F_spec n.natAbs n.natAbs le_rfl hpos
    have hle : n.natAbs ≤ 16777216 := by
      have := Int.abs_eq_natAbs n
      omega
    have habs : |(n : ℚ)| = (n.natAbs : ℚ) := by
      rw [← Int.cast_abs, Int.abs_eq_natAbs, Int.cast_natCast]
    have ha24 : log2F n.natAbs n.natAbs ≤ 24 := by
      by_contra hc
      have : 2 ^ 25 ≤ 2 ^ log2F n.natAbs n.natAbs := Nat.pow_le_pow_right (by norm_num) (by omega)
      omega
    by_cases h24 : log2F n.natAbs n.natAbs = 24
    · rw [h24] at ha
      have hval : n.natAbs = 16777216 := by omega
      apply roundNE_of_int_significand 24 _ hq 8388608
      rw [ilog2_intCast n hn, h24, habs, hval]
      norm_num [pow2]
    · have hlt : log2F n.natAbs n.natAbs ≤ 23 := by omega
      apply roundNE_of_int_significand 24 _ hq
        ((n.natAbs * 2 ^ (23 - log2F n.natAbs n.natAbs) : Nat) : Int)
      rw [ilog2_intCast n hn, habs]
      exact significand_of_small n.natAbs _ hlt

theorem toInt32_intCast (n : Int) (h : inI32 n) : toInt32 (n : ℚ) = n := by
  unfold inI32 at h
  unfold toInt32
  have hf : (if (n : ℚ) < 0 then -⌊-(n : ℚ)⌋ else ⌊(n : ℚ)⌋) = n := by
    split_ifs
    · rw [← Int.cast_neg, Int.floor_intCast]
      ring
    · exact Int.floor_intCast n
  simp only [hf]
  rw [if_pos h]

theorem abs_primary (dx dy : Int) : |Resolve.primary dx dy| = max |dx| |dy| := by
  unfold Resolve.primary Resolve.primeX
  by_cases h : |dy| > |dx|
  · simp only [h, if_true]
    simp [max_eq_right h.le]
  · simp only [h, if_false]
    simp [max_eq_left (not_lt.mp h)]

theorem primary_ne_zero (dx dy : Int) (h : ¬ (dx = 0 ∧ dy = 0)) : Resolve.primary dx dy ≠ 0 := by
  intro h0
  have := abs_primary dx dy
  rw [h0, abs_zero] at this
  have hx := abs_nonneg dx
  have hy := abs_nonneg dy
  have h1 : |dx| ≤ 0 := by rw [this]; exact le_max_left _ _
  have h2 : |dy| ≤ 0 := by rw [this]; exact le_max_right _ _
  exact h ⟨abs_eq_zero.mp (le_antisymm h1 hx), abs_eq_zero.mp (le_antisymm h2 hy)⟩

/-- One execution of the colliding branch moves the primary component by exactly one unit
toward zero, as long as the values are integers of magnitude at most `2^24`. -/
theorem reduce_primary {σ : Type} (other : σ) (dx dy : Int) (s : ResolveState σ) (v : Int)
    (hP : Resolve.primary dx dy ≠ 0)
    (hv : s.primaryF dx dy = (v : ℚ))
    (hb : |v - Int.sign (Resolve.primary dx dy)| ≤ 16777216) :
    (Resolve.reduce other dx dy s).primaryF dx dy =
        ((v - Int.sign (Resolve.primary dx dy) : Int) : ℚ) ∧
      Resolve.primaryOf dx dy (Resolve.reduce other dx dy s).out.ResolveX
        (Resolve.reduce other dx dy s).out.ResolveY = v - Int.sign (Resolve.primary dx dy) ∧
      (Resolve.reduce other dx dy s).out.ShapeB = some other ∧
      (Resolve.reduce other dx dy s).iters = s.iters + 1 := by
  have hin : inI32 (v - Int.sign (Resolve.primary dx dy)) := by
    unfold inI32
    have := abs_le.mp hb
    omega
  have key : ∀ d : Int, d ≠ 0 → |v - Int.sign d| ≤ 16777216 → ∀ w : ℚ, w = (v : ℚ) →
      (if d > 0 then f32 (w - 1) else if d < 0 then f32 (w + 1) else w) =
        ((v - Int.sign d : Int) : ℚ) := by
    intro d hd hbd w hw
    subst hw
    rcases lt_or_gt_of_ne hd with hneg | hpos
    · have hs : Int.sign d = -1 := Int.sign_eq_neg_one_of_neg hneg
      rw [if_neg (by omega), if_pos hneg]
      rw [hs] at hbd ⊢
      have : (v : ℚ) + 1 = ((v - -1 : Int) : ℚ) := by push_cast; ring
      rw [this]
      exact f32_intCast _ hbd
    · have hs : Int.sign d = 1 := Int.sign_eq_one_of_pos hpos
      rw [if_pos hpos]
      rw [hs] at hbd ⊢
      have : (v : ℚ) - 1 = ((v - 1 : Int) : ℚ) := by push_cast; ring
      rw [this]
      exact f32_intCast _ hbd
  by_cases hpx : Resolve.primeX dx dy = true
  · have hPx : Resolve.primary dx dy = dx := by simp [Resolve.primary, hpx]
    rw [hPx] at hP hb hin ⊢
    have hx : s.x = (v : ℚ) := by simpa [ResolveState.primaryF, hpx] using hv
    have hnew := key dx hP hb s.x hx
    simp only [Resolve.reduce, ResolveState.primaryF, Resolve.primaryOf, hpx, if_true, hnew,
      toInt32_intCast _ hin, and_self]
  · have hpx' : Resolve.primeX dx dy = false := by simpa using hpx
    have hPy : Resolve.primary dx dy = dy := by simp [Resolve.primary, hpx']
    rw [hPy] at hP hb hin ⊢
    have hy : s.y = (v : ℚ) := by simpa [ResolveState.primaryF, hpx'] using hv
    have hnew := key dy hP hb s.y hy
    simp only [Resolve.reduce, ResolveState.primaryF, Resolve.primaryOf, hpx',
      Bool.false_eq_true, if_false, hnew, toInt32_intCast _ hin, and_self]

theorem sign_abs_cases (P : Int) (hP : P ≠ 0) :
    (Int.sign P = 1 ∧ |P| = P ∧ 0 < P) ∨ (Int.sign P = -1 ∧ |P| = -P ∧ P < 0) := by
  rcases lt_or_gt_of_ne hP with h | h
  · exact Or.inr ⟨Int.sign_eq_neg_one_of_neg h, abs_of_neg h, h⟩
  · exact Or.inl ⟨Int.sign_eq_one_of_pos h, abs_of_pos h, h⟩

/-! ## Accuracy of `float32` rounding -/

theorem pow2_eq_zpow (e : Int) : pow2 e = (2 : ℚ) ^ e := by
  unfold pow2
  by_cases h : 0 ≤ e
  · rw [if_pos h]
    push_cast
    rw [← zpow_natCast, Int.toNat_of_nonneg h]
  · rw [if_neg h]
    push_cast
    have h2 : 0 ≤ -e := by omega
    rw [← zpow_natCast, Int.toNat_of_nonneg h2, zpow_neg]
    simp

/-- The power of two that `ilog2` names is at most the magnitude of the number. -/
theorem pow2_ilog2_le (q : ℚ) (hq : q ≠ 0) : pow2 (ilog2 q) ≤ |q| := by
  have hn : 0 < q.num.natAbs := Int.natAbs_pos.mpr (Rat.num_ne_zero.mpr hq)
  have hd : 0 < q.den := q.den_pos
  obtain ⟨ha, -⟩ := log2F_spec q.num.natAbs q.num.natAbs le_rfl hn
  obtain ⟨-, hb⟩ := log2F_spec q.den q.den le_rfl hd
  have habs : |q| = (q.num.natAbs : ℚ) / (q.den : ℚ) := by
    conv_lhs => rw [← Rat.num_div_den q]
    rw [abs_div, Nat.abs_cast, ← Int.cast_abs, Int.abs_eq_natAbs, Int.cast_natCast]
  have hdq : (0 : ℚ) < q.den := by exact_mod_cast hd
  rw [habs, pow2_eq_zpow]
  unfold ilog2
  simp only []
  generalize log2F q.num.natAbs q.num.natAbs = a at ha
  generalize log2F q.den q.den = b at hb
  generalize q.num.natAbs = n at ha hn
  generalize q.den = d at hb hd hdq
  rw [le_div_iff₀ hdq]
  by_cases hc : 2 ^ a * d ≤ n * 2 ^ b
  · rw [if_pos hc, zpow_sub₀ (by norm_num), zpow_natCast, zpow_natCast, div_mul_eq_mul_div,
      div_le_iff₀ (by positivity)]
    exact_mod_cast hc
  · rw [if_neg hc]
    have e1 : (a : Int) - b - 1 = a - ((b + 1 : Nat) : Int) := by push_cast; ring
    rw [e1, zpow_sub₀ (by norm_num), zpow_natCast, zpow_natCast, div_mul_eq_mul_div,
      div_le_iff₀ (by positivity)]
    have : 2 ^ a * d ≤ n * 2 ^ (b + 1) := Nat.mul_le_mul ha hb.le
    exact_mod_cast this

/-- Rounding to `float32` changes a number by at most `2^-24` of its magnitude. -/
theorem f32_err (q : ℚ) : |f32 q - q| ≤ |q| / 16777216 := by
  unfold f32 roundNE
  by_cases hq : q = 0
  · subst hq
    simp
  · rw [if_neg hq]
    simp only []
    have hs := pow2_pos (ilog2 q - ((24 : Nat) - 1))
    have hle := pow2_ilog2_le q hq
    have hsL : pow2 (ilog2 q - ((24 : Nat) - 1)) * 8388608 = pow2 (ilog2 q) := by
      rw [pow2_eq_zpow, pow2_eq_zpow]
      have : ((24 : Nat) : Int) - 1 = 23 := by norm_num
      rw [this, zpow_sub₀ (by norm_num)]
      norm_num
    generalize pow2 (ilog2 q - ((24 : Nat) - 1)) = s at hs hsL
    have hm : |q| = |q| / s * s := by field_simp
    have hfl := Int.floor_le (|q| / s)
    have hfl2 := Int.lt_floor_add_one (|q| / s)
    generalize hmdef : |q| / s = m at hm hfl hfl2
    generalize hfdef : (⌊m⌋ : Int) = f at hfl hfl2
    have key : ∀ k : ℚ, |k - m| ≤ 1 / 2 →
        |(if q < 0 then -1 else 1) * k * s - q| ≤ |q| / 16777216 := by
      intro k hk
      have e : (if q < 0 then (-1 : ℚ) else 1) * k * s - q =
          (if q < 0 then (-1 : ℚ) else 1) * ((k - m) * s) := by
        by_cases hneg : q < 0
        · rw [if_pos hneg]
          have : q = -(m * s) := by rw [← hm, abs_of_neg hneg]; ring
          rw [this]; ring
        · rw [if_neg hneg]
          have : q = m * s := by rw [← hm, abs_of_nonneg (not_lt.mp hneg)]
          rw [this]; ring
      rw [e, abs_mul, abs_mul, abs_of_pos hs]
      have e2 : |(if q < 0 then (-1 : ℚ) else 1)| = 1 := by
        split_ifs <;> simp
      rw [e2, one_mul]
      have : |k - m| * s ≤ 1 / 2 * s := mul_le_mul_of_nonneg_right hk hs.le
      have h3 : 1 / 2 * s = pow2 (ilog2 q) / 16777216 := by
        rw [← hsL]; ring
      have h4 : pow2 (ilog2 q) / 16777216 ≤ |q| / 16777216 :=
        div_le_div_of_nonneg_right hle (by norm_num)
      linarith
    refine key _ ?_
    split_ifs <;> push_cast <;> rw [abs_le] <;> constructor <;> linarith

/-- One rounded subtraction keeps a value within a slowly growing distance of its ideal. -/
theorem drift_step (A B t m c d : ℚ) (hB1 : B ≤ 1) (ht : |t| ≤ A)
    (hm : |m - c - t| ≤ B + d) (hd1 : d ≤ 1 / 16777216) :
    |f32 (m - c) - t| ≤ B + (A + 3) / 16777216 := by
  have h1 := f32_err (m - c)
  have h2 : |m - c| ≤ A + 2 := by
    have : m - c = (m - c - t) + t := by ring
    rw [this]
    have h3 := abs_add (m - c - t) t
    have : d ≤ 1 := by linarith
    linarith
  have h4 : f32 (m - c) - t = (f32 (m - c) - (m - c)) + (m - c - t) := by ring
  rw [h4]
  have h5 := abs_add (f32 (m - c) - (m - c)) (m - c - t)
  have h6 : |m - c| / 16777216 ≤ (A + 2) / 16777216 :=
    div_le_div_of_nonneg_right h2 (by norm_num)
  have h7 : (A + 3) / 16777216 = (A + 2) / 16777216 + 1 / 16777216 := by ring
  linarith

/-- The minor component after one execution of the colliding branch, for a request whose
components have the same sign: it stays within `(k+1)(|M|+3)/2^24` of the point of the
requested line. -/
theorem minor_next (M P : Int) (hM : M ≠ 0) (hMP : 0 ≤ M * P)
    (hle : |M| ≤ |P|) (k : Nat) (hk : (k : Int) + 1 ≤ |P|)
    (hD : |P| * (|M| + 3) < 16777216) (m : ℚ)
    (hm : |m - (M : ℚ) * ((|P| : Int) - k) / (|P| : Int)| ≤ k * ((|M| : Int) + 3) / 16777216) :
    |(if M > 0 then f32 (m - f32 ((M : ℚ) / P)) else if M < 0 then f32 (m + f32 ((M : ℚ) / P))
        else m) - (M : ℚ) * ((|P| : Int) - (k + 1 : Nat)) / (|P| : Int)| ≤
      (k + 1 : Nat) * ((|M| : Int) + 3) / 16777216 := by
  have hP0 : P ≠ 0 := by
    intro h
    rw [h, abs_zero] at hle
    exact hM (abs_eq_zero.mp (le_antisymm hle (abs_nonneg M)))
  have hPa : (0 : Int) < |P| := abs_pos.mpr hP0
  have hMa : (0 : Int) < |M| := abs_pos.mpr hM
  have hPq : (0 : ℚ) < ((|P| : Int) : ℚ) := by exact_mod_cast hPa
  have hMq : (0 : ℚ) < ((|M| : Int) : ℚ) := by exact_mod_cast hMa
  have hleq : ((|M| : Int) : ℚ) ≤ ((|P| : Int) : ℚ) := by exact_mod_cast hle
  have hkq : ((k : Nat) : ℚ) + 1 ≤ ((|P| : Int) : ℚ) := by exact_mod_cast hk
  have hk0 : (0 : ℚ) ≤ (k : ℚ) := Nat.cast_nonneg k
  have hDq : ((|P| : Int) : ℚ) * (((|M| : Int) : ℚ) + 3) < 16777216 := by exact_mod_cast hD
  -- the slope and its error
  have hratio : (M : ℚ) / P = ((|M| : Int) : ℚ) / ((|P| : Int) : ℚ) := by
    rcases lt_or_gt_of_ne hM with hn | hp
    · have hPn : P < 0 := by
        by_contra hc
        have : 0 < P := lt_of_le_of_ne (not_lt.mp hc) (Ne.symm hP0)
        nlinarith
      rw [abs_of_neg hn, abs_of_neg hPn]
      push_cast
      rw [neg_div_neg_eq]
    · have hPp : 0 < P := by
        by_contra hc
        have : P < 0 := lt_of_le_of_ne (not_lt.mp hc) hP0
        nlinarith
      rw [abs_of_pos hp, abs_of_pos hPp]
  have hρ0 : (0 : ℚ) < (M : ℚ) / P := by rw [hratio]; positivity
  have hρ1 : (M : ℚ) / P ≤ 1 := by rw [hratio]; exact (div_le_one hPq).mpr hleq
  have herr := f32_err ((M : ℚ) / P)
  rw [abs_of_pos hρ0] at herr
  have hd : |f32 ((M : ℚ) / P) - (M : ℚ) / P| ≤ 1 / 16777216 := by
    have : (M : ℚ) / P / 16777216 ≤ 1 / 16777216 := div_le_div_of_nonneg_right hρ1 (by norm_num)
    linarith
  have hB1 : (k : ℚ) * (((|M| : Int) : ℚ) + 3) / 16777216 ≤ 1 := by
    rw [div_le_one (by norm_num)]
    nlinarith
  have hbound : (k : ℚ) * (((|M| : Int) : ℚ) + 3) / 16777216 + (((|M| : Int) : ℚ) + 3) / 16777216 =
      ((k + 1 : Nat) : ℚ) * (((|M| : Int) : ℚ) + 3) / 16777216 := by
    push_cast; ring
  have hk1 : ((k + 1 : Nat) : ℚ) = (k : ℚ) + 1 := by push_cast; ring
  rw [← hbound]
  rcases lt_or_gt_of_ne hM with hn | hp
  · rw [if_neg (by omega), if_pos hn]
    have hMabs : ((|M| : Int) : ℚ) = -(M : ℚ) := by rw [abs_of_neg hn]; push_cast; ring
    have e : m + f32 ((M : ℚ) / P) = m - -f32 ((M : ℚ) / P) := by ring
    rw [e]
    apply drift_step ((|M| : Int) : ℚ) _ _ m _ (|f32 ((M : ℚ) / P) - (M : ℚ) / P|) hB1
    · rw [abs_div, abs_mul, abs_of_pos hPq]
      rw [div_le_iff₀ hPq]
      have h1 : |(M : ℚ)| = ((|M| : Int) : ℚ) := (Int.cast_abs).symm
      have h2 : |(((|P| : Int) : ℚ)) - ((k + 1 : Nat) : ℚ)| ≤ ((|P| : Int) : ℚ) := by
        rw [hk1, abs_le]; constructor <;> linarith
      rw [h1]
      exact mul_le_mul_of_nonneg_left h2 hMq.le
    · have e2 : m - -f32 ((M : ℚ) / P) - (M : ℚ) * (((|P| : Int) : ℚ) - ((k + 1 : Nat) : ℚ)) /
          ((|P| : Int) : ℚ) =
          (m - (M : ℚ) * (((|P| : Int) : ℚ) - k) / ((|P| : Int) : ℚ)) +
            (f32 ((M : ℚ) / P) - (M : ℚ) / P) := by
        rw [hratio, hk1, hMabs]
        field_simp
        ring
      rw [e2]
      exact le_trans (abs_add _ _) (add_le_add hm le_rfl)
    · exact hd
  · rw [if_pos hp]
    have hMabs : ((|M| : Int) : ℚ) = (M : ℚ) := by rw [abs_of_pos hp]
    apply drift_step ((|M| : Int) : ℚ) _ _ m _ (|f32 ((M : ℚ) / P) - (M : ℚ) / P|) hB1
    · rw [abs_div, abs_mul, abs_of_pos hPq]
      rw [div_le_iff₀ hPq]
      have h1 : |(M : ℚ)| = ((|M| : Int) : ℚ) := (Int.cast_abs).symm
      have h2 : |(((|P| : Int) : ℚ)) - ((k + 1 : Nat) : ℚ)| ≤ ((|P| : Int) : ℚ) := by
        rw [hk1, abs_le]; constructor <;> linarith
      rw [h1]
      exact mul_le_mul_of_nonneg_left h2 hMq.le
    · have e2 : m - f32 ((M : ℚ) / P) - (M : ℚ) * (((|P| : Int) : ℚ) - ((k + 1 : Nat) : ℚ)) /
          ((|P| : Int) : ℚ) =
          (m - (M : ℚ) * (((|P| : Int) : ℚ) - k) / ((|P| : Int) : ℚ)) -
            (f32 ((M : ℚ) / P) - (M : ℚ) / P) := by
        rw [hratio, hk1, hMabs]
        field_simp
        ring
      rw [e2]
      have := abs_sub (m - (M : ℚ) * (((|P| : Int) : ℚ) - k) / ((|P| : Int) : ℚ))
        (f32 ((M : ℚ) / P) - (M : ℚ) / P)
      exact le_trans this (add_le_add hm le_rfl)
    · exact hd

/-! ## Swept resolution: the run of the loop -/

theorem abs_minor_le (dx dy : Int) : |Resolve.minor dx dy| ≤ |Resolve.primary dx dy| := by
  unfold Resolve.minor Resolve.primary Resolve.primeX
  by_cases h : |dy| > |dx|
  · simp only [h, if_true]
    simpa using h.le
  · simp only [h, if_false]
    simpa using not_lt.mp h

theorem minor_mul_primary (dx dy : Int) :
    Resolve.minor dx dy * Resolve.primary dx dy = dx * dy := by
  unfold Resolve.minor Resolve.primary
  split_ifs <;> ring

theorem toInt32_small (q : ℚ) (h : |q| < 1) : toInt32 q = 0 := by
  obtain ⟨h1, h2⟩ := abs_lt.mp h
  unfold toInt32
  have hf : (if q < 0 then -⌊-q⌋ else ⌊q⌋) = 0 := by
    split_ifs with hq
    · have : ⌊-q⌋ = 0 := by
        rw [Int.floor_eq_iff]
        constructor <;> push_cast <;> linarith
      rw [this]; rfl
    · rw [Int.floor_eq_iff]
      constructor <;> push_cast <;> linarith
  simp only [hf]
  decide

/-- One execution of the colliding branch on the axis that is not the primary one. -/
theorem reduce_minor {σ : Type} (other : σ) (dx dy : Int) (s : ResolveState σ)
    (hN : max |dx| |dy| ≤ 16777216) :
    (Resolve.reduce other dx dy s).minorF dx dy =
        (if Resolve.minor dx dy > 0 then
          f32 (s.minorF dx dy - f32 ((Resolve.minor dx dy : ℚ) / (Resolve.primary dx dy : ℚ)))
        else if Resolve.minor dx dy < 0 then
          f32 (s.minorF dx dy + f32 ((Resolve.minor dx dy : ℚ) / (Resolve.primary dx dy : ℚ)))
        else s.minorF dx dy) ∧
      Resolve.minorOf dx dy (Resolve.reduce other dx dy s).out.ResolveX
        (Resolve.reduce other dx dy s).out.ResolveY =
        toInt32 ((Resolve.reduce other dx dy s).minorF dx dy) := by
  have hx : |dx| ≤ 16777216 := le_trans (le_max_left _ _) hN
  have hy : |dy| ≤ 16777216 := le_trans (le_max_right _ _) hN
  have fx := f32_intCast dx hx
  have fy := f32_intCast dy hy
  by_cases hpx : |dy| > |dx|
  · have hdy : dy ≠ 0 := by
      intro h
      rw [h, abs_zero] at hpx
      exact absurd hpx (not_lt.mpr (abs_nonneg dx))
    simp only [Resolve.reduce, ResolveState.minorF, Resolve.minor, Resolve.minorOf,
      Resolve.primary, Resolve.primeX, Resolve.slope, hpx, if_true, Bool.false_eq_true, if_false,
      fx, fy, and_true]
    by_cases h0 : dx = 0
    · subst h0
      simp
    · simp only [hdy, h0, ne_eq, not_false_eq_true, and_self, if_true]
  · have hle := not_lt.mp hpx
    simp only [Resolve.reduce, ResolveState.minorF, Resolve.minor, Resolve.minorOf,
      Resolve.primary, Resolve.primeX, Resolve.slope, hpx, if_true, if_false, fx, fy, and_true]
    by_cases h0 : dy = 0
    · subst h0
      simp
    · have hdx : dx ≠ 0 := by
        intro h
        rw [h, abs_zero] at hle
        exact h0 (abs_eq_zero.mp (le_antisymm hle (abs_nonneg dy)))
      simp only [hdx, h0, ne_eq, not_false_eq_true, and_self, if_true]

/-- When the requested components are at most `2^24` in magnitude and not of opposite sign,
the drift of the minor component stays below one, and the mover is free at `(0,0)`, the loop
of `Resolve` ends within `|primary|` executions of the colliding branch: the primary
component moves by one unit toward zero in each, and when it reaches zero the trial
displacement is `(0,0)`. -/
theorem loop_home {σ : Type} (wbc : σ → σ → Int → Int → Bool) (mover other : σ)
    (dx dy : Int) (hne : ¬ (dx = 0 ∧ dy = 0)) (hN : max |dx| |dy| ≤ 16777216)
    (hsame : 0 ≤ dx * dy)
    (hD : Resolve.minor dx dy = 0 ∨
      |Resolve.primary dx dy| * (|Resolve.minor dx dy| + 3) < 16777216)
    (hfree : wbc mover other 0 0 = false) :
    ∀ (j k : Nat) (s : ResolveState σ), (k : Int) + j = |Resolve.primary dx dy| →
      s.iters = k →
      s.primaryF dx dy = ((Resolve.primary dx dy - Int.sign (Resolve.primary dx dy) * k : Int) : ℚ) →
      Resolve.primaryOf dx dy s.out.ResolveX s.out.ResolveY =
        Resolve.primary dx dy - Int.sign (Resolve.primary dx dy) * k →
      (0 < k → s.out.ShapeB = some other) →
      (Resolve.minor dx dy = 0 → s.minorF dx dy = 0) →
      (Resolve.minor dx dy ≠ 0 →
        |s.minorF dx dy - (Resolve.minor dx dy : ℚ) * ((|Resolve.primary dx dy| : Int) - k) /
          (|Resolve.primary dx dy| : Int)| ≤ k * ((|Resolve.minor dx dy| : Int) + 3) / 16777216) →
      (0 < k → Resolve.minorOf dx dy s.out.ResolveX s.out.ResolveY = toInt32 (s.minorF dx dy)) →
      ∀ fuel : Nat, j + 1 ≤ fuel →
        ∃ s' : ResolveState σ, Resolve.loop wbc mover other dx dy fuel s = some s' ∧
          k ≤ s'.iters ∧ (s'.iters : Int) ≤ |Resolve.primary dx dy| ∧
          Resolve.primaryOf dx dy s'.out.ResolveX s'.out.ResolveY =
            Resolve.primary dx dy - Int.sign (Resolve.primary dx dy) * s'.iters ∧
          (0 < s'.iters → s'.out.ShapeB = some other) ∧
          (wbc mover other s.out.ResolveX s.out.ResolveY = true → k < s'.iters) := by
  have hP := primary_ne_zero dx dy hne
  have hN' : |Resolve.primary dx dy| ≤ 16777216 := by rw [abs_primary]; exact hN
  have hPa : (0 : Int) < |Resolve.primary dx dy| := abs_pos.mpr hP
  have hMP : 0 ≤ Resolve.minor dx dy * Resolve.primary dx dy := by
    rw [minor_mul_primary]; exact hsame
  have hMle := abs_minor_le dx dy
  intro j
  induction j with
  | zero =>
    intro k s hk hit hF hR hB hM0 hM1 hO fuel hfuel
    obtain ⟨f, rfl⟩ : ∃ f, fuel = f + 1 := ⟨fuel - 1, by omega⟩
    have hkpos : 0 < k := by omega
    have hzero : Resolve.primaryOf dx dy s.out.ResolveX s.out.ResolveY = 0 := by
      rw [hR]
      rcases sign_abs_cases _ hP with ⟨h1, h2, -⟩ | ⟨h1, h2, -⟩ <;> rw [h1] <;> omega
    have hmz : Resolve.minorOf dx dy s.out.ResolveX s.out.ResolveY = 0 := by
      rw [hO hkpos]
      by_cases hM : Resolve.minor dx dy = 0
      · rw [hM0 hM]
        exact toInt32_intCast 0 (by decide)
      · apply toInt32_small
        have hb := hM1 hM
        have hkP : ((|Resolve.primary dx dy| : Int) : ℚ) = (k : ℚ) := by
          have : |Resolve.primary dx dy| = (k : Int) := by omega
          rw [this]; simp
        rw [hkP, sub_self, mul_zero, zero_div, sub_zero] at hb
        have hDq : (k : ℚ) * (((|Resolve.minor dx dy| : Int) : ℚ) + 3) < 16777216 := by
          rcases hD with h | h
          · exact absurd h hM
          · rw [← hkP]; exact_mod_cast h
        have : (k : ℚ) * (((|Resolve.minor dx dy| : Int) : ℚ) + 3) / 16777216 < 1 := by
          rw [div_lt_one (by norm_num)]; exact hDq
        exact lt_of_le_of_lt hb this
    have hxy : s.out.ResolveX = 0 ∧ s.out.ResolveY = 0 := by
      unfold Resolve.primaryOf at hzero
      unfold Resolve.minorOf at hmz
      split_ifs at hzero hmz
      · exact ⟨hzero, hmz⟩
      · exact ⟨hmz, hzero⟩
    have hw : wbc mover other s.out.ResolveX s.out.ResolveY = false := by
      rw [hxy.1, hxy.2]; exact hfree
    refine ⟨s, ?_, by omega, by omega, by rw [hit]; exact hR, by rw [hit]; exact hB, ?_⟩
    · simp [Resolve.loop, hw]
    · intro h
      rw [hw] at h
      exact absurd h (by decide)
  | succ j ih =>
    intro k s hk hit hF hR hB hM0 hM1 hO fuel hfuel
    obtain ⟨f, rfl⟩ : ∃ f, fuel = f + 1 := ⟨fuel - 1, by omega⟩
    by_cases hw : wbc mover other s.out.ResolveX s.out.ResolveY = true
    · have hb : |(Resolve.primary dx dy - Int.sign (Resolve.primary dx dy) * k) -
          Int.sign (Resolve.primary dx dy)| ≤ 16777216 := by
        rcases sign_abs_cases _ hP with ⟨h1, h2, h3⟩ | ⟨h1, h2, h3⟩
        · rw [h1, abs_le]
          omega
        · rw [h1, abs_le]
          omega
      obtain ⟨r1, r2, r3, r4⟩ := reduce_primary other dx dy s _ hP hF hb
      obtain ⟨m1, m2⟩ := reduce_minor other dx dy s hN
      have hstep : (Resolve.primary dx dy - Int.sign (Resolve.primary dx dy) * k) -
          Int.sign (Resolve.primary dx dy) =
          Resolve.primary dx dy - Int.sign (Resolve.primary dx dy) * ((k + 1 : Nat) : Int) := by
        push_cast
        ring
      rw [hstep] at r1 r2
      obtain ⟨s', e1, e2, e3, e4, e5, -⟩ := ih (k + 1) (Resolve.reduce other dx dy s)
        (by push_cast; omega) (by rw [r4, hit]) r1 r2 (fun _ => r3)
        (by
          intro hM
          rw [m1, hM, hM0 hM]
          simp)
        (by
          intro hM
          rw [m1]
          have hD' : |Resolve.primary dx dy| * (|Resolve.minor dx dy| + 3) < 16777216 := by
            rcases hD with h | h
            · exact absurd h hM
            · exact h
          exact minor_next _ _ hM hMP hMle k (by omega) hD' _ (hM1 hM))
        (fun _ => m2) f (by omega)
      refine ⟨s', ?_, by omega, e3, e4, e5, fun _ => by omega⟩
      unfold Resolve.loop
      rw [if_pos hw]
      exact e1
    · refine ⟨s, ?_, by omega, ?_, by rw [hit]; exact hR, by rw [hit]; exact hB, ?_⟩
      · unfold Resolve.loop
        rw [if_neg hw]
      · rw [hit]
        have := Int.ofNat_nonneg j
        omega
      · intro h
        exact absurd h hw

/-- The loop of `Resolve` started from the state on entry, under the hypotheses of
`loop_home`. -/
theorem loop_home_init {σ : Type} (wbc : σ → σ → Int → Int → Bool) (mover other : σ)
    (dx dy : Int) (hne : ¬ (dx = 0 ∧ dy = 0)) (hN : max |dx| |dy| ≤ 16777216)
    (hsame : 0 ≤ dx * dy)
    (hD : Resolve.minor dx dy = 0 ∨
      |Resolve.primary dx dy| * (|Resolve.minor dx dy| + 3) < 16777216)
    (hfree : wbc mover other 0 0 = false)
    (fuel : Nat) (hfuel : max |dx| |dy| + 1 ≤ fuel) :
    ∃ s' : ResolveState σ,
      Resolve.loop wbc mover other dx dy fuel (Resolve.init mover dx dy) = some s' ∧
      (s'.iters : Int) ≤ max |dx| |dy| ∧
      Resolve.primaryOf dx dy s'.out.ResolveX s'.out.ResolveY =
        Resolve.primary dx dy - Int.sign (Resolve.primary dx dy) * s'.iters ∧
      (0 < s'.iters → s'.out.ShapeB = some other) ∧
      (wbc mover other dx dy = true → 0 < s'.iters) := by
  have hx : |dx| ≤ 16777216 := le_trans (le_max_left _ _) hN
  have hy : |dy| ≤ 16777216 := le_trans (le_max_right _ _) hN
  have hnn : 0 ≤ |Resolve.primary dx dy| := abs_nonneg _
  have hP := primary_ne_zero dx dy hne
  have hPq : ((|Resolve.primary dx dy| : Int) : ℚ) ≠ 0 := by
    have : |Resolve.primary dx dy| ≠ 0 := abs_ne_zero.mpr hP
    exact_mod_cast this
  have hF : (Resolve.init mover dx dy).primaryF dx dy =
      ((Resolve.primary dx dy - Int.sign (Resolve.primary dx dy) * ((0 : Nat) : Int) : Int) : ℚ) := by
    simp only [Nat.cast_zero, mul_zero, sub_zero]
    unfold ResolveState.primaryF Resolve.primary Resolve.init
    split_ifs
    · exact f32_intCast dx hx
    · exact f32_intCast dy hy
  have hMF : (Resolve.init mover dx dy).minorF dx dy = (Resolve.minor dx dy : ℚ) := by
    unfold ResolveState.minorF Resolve.minor Resolve.init
    split_ifs
    · exact f32_intCast dy hy
    · exact f32_intCast dx hx
  have hR : Resolve.primaryOf dx dy (Resolve.init mover dx dy).out.ResolveX
      (Resolve.init mover dx dy).out.ResolveY =
      Resolve.primary dx dy - Int.sign (Resolve.primary dx dy) * ((0 : Nat) : Int) := by
    simp only [Nat.cast_zero, mul_zero, sub_zero]
    rfl
  obtain ⟨s', e1, -, e3, e4, e5, e6⟩ := loop_home wbc mover other dx dy hne hN hsame hD hfree
    |Resolve.primary dx dy|.toNat 0 (Resolve.init mover dx dy)
    (by rw [Int.toNat_of_nonneg hnn]; simp) rfl hF hR (fun h => absurd h (lt_irrefl 0))
    (by
      intro hM
      rw [hMF, hM]
      simp)
    (by
      intro _
      rw [hMF]
      simp only [Nat.cast_zero, sub_zero, zero_mul, zero_div]
      rw [mul_div_assoc, div_self hPq, mul_one, sub_self, abs_zero])
    (fun h => absurd h (lt_irrefl 0)) fuel
    (by
      have := abs_primary dx dy
      omega)
  refine ⟨s', e1, ?_, e4, e5, e6⟩
  rw [← abs_primary]
  exact e3

theorem abs_minor (dx dy : Int) : |Resolve.minor dx dy| = min |dx| |dy| := by
  unfold Resolve.minor Resolve.primeX
  by_cases h : |dy| > |dx|
  · simp only [h, if_true]
    simp [min_eq_left h.le]
  · simp only [h, if_false]
    simp [min_eq_right (not_lt.mp h)]

/-- The drift condition in terms of the primary and the minor axis. -/
theorem drift_cond (dx dy : Int)
    (hD : min |dx| |dy| = 0 ∨ max |dx| |dy| * (min |dx| |dy| + 3) < 16777216) :
    Resolve.minor dx dy = 0 ∨
      |Resolve.primary dx dy| * (|Resolve.minor dx dy| + 3) < 16777216 := by
  rw [abs_primary, abs_minor]
  rcases hD with h | h
  · left
    rw [← abs_minor] at h
    exact abs_eq_zero.mp h
  · exact Or.inr h

/-- C8 (amended). When `|dx|` and `|dy|` are at most `2^24`, `dx` and `dy` are not of opposite
sign, one of them is `0` or `max(|dx|,|dy|) * (min(|dx|,|dy|) + 3) < 2^24`, and the mover is
free at `(0,0)`, `Resolve` returns, and its loop has executed the colliding branch at most
`max(|dx|,|dy|)` times. -/
theorem Resolve_terminates_bounded {σ : Type} (wbc : σ → σ → Int → Int → Bool)
    (mover other : σ) (dx dy : Int)
    (hN : max |dx| |dy| ≤ 16777216) (hsame : 0 ≤ dx * dy)
    (hD : min |dx| |dy| = 0 ∨ max |dx| |dy| * (min |dx| |dy| + 3) < 16777216)
    (hfree : wbc mover other 0 0 = false)
    (fuel : Nat) (hfuel : max |dx| |dy| + 1 ≤ fuel) :
    ∃ (c : Collision σ) (n : Nat),
      Resolve wbc fuel mover other dx dy = some (c, n) ∧ (n : Int) ≤ max |dx| |dy| := by
  by_cases hne : dx = 0 ∧ dy = 0
  · refine ⟨(Resolve.init mover dx dy).out, 0, ?_, ?_⟩
    · unfold Resolve
      rw [if_pos hne]
    · exact le_trans (abs_nonneg dx) (le_max_left _ _)
  · obtain ⟨s', e1, e2, -⟩ := loop_home_init wbc mover other dx dy hne hN hsame
      (drift_cond dx dy hD) hfree fuel hfuel
    refine ⟨{ s'.out with
      Teleporting := Resolve.teleports dx dy s'.out.ResolveX s'.out.ResolveY }, s'.iters, ?_, e2⟩
    unfold Resolve
    rw [if_neg hne, e1]

/-- C7 (amended). When `|dx|` and `|dy|` are at most `2^24`, `dx` and `dy` are not of opposite
sign, one of them is `0` or `max(|dx|,|dy|) * (min(|dx|,|dy|) + 3) < 2^24`, and the mover
would collide at `(dx,dy)` but not at `(0,0)`, `Resolve` returns with `ShapeB = other` and a
displacement whose primary-axis component is strictly smaller in magnitude than the
requested one. -/
theorem Resolve_blocked_shrinks {σ : Type} (wbc : σ → σ → Int → Int → Bool)
    (mover other : σ) (dx dy : Int)
    (hN : max |dx| |dy| ≤ 16777216) (hsame : 0 ≤ dx * dy)
    (hD : min |dx| |dy| = 0 ∨ max |dx| |dy| * (min |dx| |dy| + 3) < 16777216)
    (hcol : wbc mover other dx dy = true) (hfree : wbc mover other 0 0 = false)
    (fuel : Nat) (hfuel : max |dx| |dy| + 1 ≤ fuel) :
    ∃ (c : Collision σ) (n : Nat),
      Resolve wbc fuel mover other dx dy = some (c, n) ∧ c.ShapeB = some other ∧
      |Resolve.primaryOf dx dy c.ResolveX c.ResolveY| < |Resolve.primary dx dy| := by
  have hne : ¬ (dx = 0 ∧ dy = 0) := by
    rintro ⟨rfl, rfl⟩
    rw [hfree] at hcol
    exact absurd hcol (by decide)
  obtain ⟨s', e1, e2, e3, e4, e5⟩ := loop_home_init wbc mover other dx dy hne hN hsame
    (drift_cond dx dy hD) hfree fuel hfuel
  have hpos := e5 hcol
  refine ⟨{ s'.out with
    Teleporting := Resolve.teleports dx dy s'.out.ResolveX s'.out.ResolveY }, s'.iters, ?_,
    e4 hpos, ?_⟩
  · unfold Resolve
    rw [if_neg hne, e1]
  · show |Resolve.primaryOf dx dy s'.out.ResolveX s'.out.ResolveY| < _
    rw [e3]
    rw [← abs_primary] at e2
    rcases sign_abs_cases _ (primary_ne_zero dx dy hne) with ⟨h1, h2, h3⟩ | ⟨h1, h2, h3⟩
    · rw [h1, h2, abs_lt]
      omega
    · rw [h1, h2, abs_lt]
      omega

/-- Witness for C8 (amended): the diagonal request `(-3, -5)` of a mover that is free only
at `(0,0)` ends within five reductions. -/
theorem Resolve_terminates_bounded_witness :
    ∃ (c : Collision Unit) (n : Nat),
      Resolve blockedUnlessHome 6 () () (-3) (-5) = some (c, n) ∧ (n : Int) ≤ max |(-3)| |(-5)| :=
  Resolve_terminates_bounded blockedUnlessHome () () (-3) (-5) (by decide) (by decide)
    (by decide) rfl 6 (by decide)

/-- Witness for C7 (amended): the request `(5, 3)` of a mover that is free only at `(0,0)`
is shortened. -/
theorem Resolve_blocked_shrinks_witness :
    ∃ (c : Collision Unit) (n : Nat),
      Resolve blockedUnlessHome 6 () () 5 3 = some (c, n) ∧ c.ShapeB = some () ∧
      |Resolve.primaryOf 5 3 c.ResolveX c.ResolveY| < |Resolve.primary 5 3| :=
  Resolve_blocked_shrinks blockedUnlessHome () () 5 3 (by decide) (by decide) (by decide)
    rfl rfl 6 (by decide)

/-! ## Swept resolution: requests on which the loop does not end -/

theorem f32_stuck : f32 ((33554432 : ℚ) - 1) = 33554432 := by decide!

theorem loop_stuck (fuel : Nat) : ∀ s : ResolveState Unit,
    s.x = 33554432 → s.y = 0 → s.out.ResolveX = 33554432 → s.out.ResolveY = 0 →
    Resolve.loop blockedUnlessHome () () 33554432 0 fuel s = none := by
  induction fuel with
  | zero =>
    intro s _ _ _ _
    rfl
  | succ n ih =>
    intro s hx hy hX hY
    unfold Resolve.loop
    have hw : blockedUnlessHome () () s.out.ResolveX s.out.ResolveY = true := by
      rw [hX, hY]
      rfl
    rw [if_pos hw]
    have hp : Resolve.primeX 33554432 0 = true := by decide
    have h1 : (Resolve.reduce () 33554432 0 s).x = 33554432 := by
      simp only [Resolve.reduce, hp, if_true, hx]
      rw [if_pos (by decide)]
      exact f32_stuck
    have h2 : (Resolve.reduce () 33554432 0 s).y = 0 := by
      simp only [Resolve.reduce, hp, if_true, hy]
      rw [if_neg (by decide), if_neg (by decide)]
    apply ih
    · exact h1
    · exact h2
    · show toInt32 (Resolve.reduce () 33554432 0 s).x = 33554432
      rw [h1]
      exact toInt32_intCast 33554432 (by decide)
    · show toInt32 (Resolve.reduce () 33554432 0 s).y = 0
      rw [h2]
      exact toInt32_intCast 0 (by decide)

/-- The magnitude of a number is below the next power of two after the one `ilog2` names. -/
theorem lt_pow2_ilog2 (q : ℚ) (hq : q ≠ 0) : |q| < pow2 (ilog2 q + 1) := by
  have hn : 0 < q.num.natAbs := Int.natAbs_pos.mpr (Rat.num_ne_zero.mpr hq)
  have hd : 0 < q.den := q.den_pos
  obtain ⟨-, ha⟩ := log2F_spec q.num.natAbs q.num.natAbs le_rfl hn
  obtain ⟨hb, -⟩ := log2F_spec q.den q.den le_rfl hd
  have habs : |q| = (q.num.natAbs : ℚ) / (q.den : ℚ) := by
    conv_lhs => rw [← Rat.num_div_den q]
    rw [abs_div, Nat.abs_cast, ← Int.cast_abs, Int.abs_eq_natAbs, Int.cast_natCast]
  have hdq : (0 : ℚ) < q.den := by exact_mod_cast hd
  rw [habs, pow2_eq_zpow]
  unfold ilog2
  simp only []
  generalize log2F q.num.natAbs q.num.natAbs = a at ha
  generalize log2F q.den q.den = b at hb
  generalize q.num.natAbs = n at ha hn
  generalize q.den = d at hb hd hdq
  rw [div_lt_iff₀ hdq]
  by_cases hc : 2 ^ a * d ≤ n * 2 ^ b
  · rw [if_pos hc]
    have e1 : (a : Int) - b + 1 = ((a + 1 : Nat) : Int) - (b : Int) := by push_cast; ring
    rw [e1, zpow_sub₀ (by norm_num), zpow_natCast, zpow_natCast, div_mul_eq_mul_div,
      lt_div_iff₀ (by positivity)]
    have h1 : n * 2 ^ b < 2 ^ (a + 1) * 2 ^ b :=
      Nat.mul_lt_mul_of_pos_right ha (Nat.pow_pos (by norm_num))
    have h2 : 2 ^ (a + 1) * 2 ^ b ≤ 2 ^ (a + 1) * d := Nat.mul_le_mul_left _ hb
    have : n * 2 ^ b < 2 ^ (a + 1) * d := lt_of_lt_of_le h1 h2
    exact_mod_cast this
  · rw [if_neg hc]
    have e1 : (a : Int) - b - 1 + 1 = (a : Int) - (b : Int) := by ring
    rw [e1, zpow_sub₀ (by norm_num), zpow_natCast, zpow_natCast, div_mul_eq_mul_div,
      lt_div_iff₀ (by positivity)]
    have : n * 2 ^ b < 2 ^ a * d := not_le.mp hc
    exact_mod_cast this

/-- The value of `ilog2` on a number whose magnitude lies between two consecutive powers of
two. -/
theorem ilog2_eq (q : ℚ) (L : Int) (h1 : (2 : ℚ) ^ L ≤ |q|) (h2 : |q| < (2 : ℚ) ^ (L + 1)) :
    ilog2 q = L := by
  have hq : q ≠ 0 := by
    intro h
    rw [h, abs_zero] at h1
    exact absurd h1 (not_le.mpr (by positivity))
  have a1 := pow2_ilog2_le q hq
  have a2 := lt_pow2_ilog2 q hq
  rw [pow2_eq_zpow] at a1 a2
  have b1 : (2 : ℚ) ^ L < (2 : ℚ) ^ (ilog2 q + 1) := lt_of_le_of_lt h1 a2
  have b2 : (2 : ℚ) ^ (ilog2 q) < (2 : ℚ) ^ (L + 1) := lt_of_le_of_lt a1 h2
  rw [zpow_lt_zpow_iff_right₀ (by norm_num)] at b1 b2
  omega

/-- Halfway between two `float32` values in `[4096, 8192)`, the subtraction of `4033/4096`
rounds to the even significand: from an even multiple `Y` of `1/2048` it takes `2016/2048`
and not `2016.5/2048`. -/
theorem f32_tie (Y : Int) (hev : Y % 2 = 0) (h1 : 8390626 ≤ Y) (h2 : Y ≤ 16777216) :
    f32 ((Y : ℚ) / 2048 - 4033 / 4096) = ((Y - 2016 : Int) : ℚ) / 2048 := by
  have hY1 : (8390626 : ℚ) ≤ (Y : ℚ) := by exact_mod_cast h1
  have hY2 : (Y : ℚ) ≤ 16777216 := by exact_mod_cast h2
  have hpos : (0 : ℚ) < (Y : ℚ) / 2048 - 4033 / 4096 := by linarith
  have ha : ilog2 ((Y : ℚ) / 2048 - 4033 / 4096) = 12 := by
    apply ilog2_eq
    · rw [abs_of_pos hpos]
      norm_num
      linarith
    · rw [abs_of_pos hpos]
      norm_num
      linarith
  have hs : pow2 (12 - (((24 : Nat) : Int) - 1)) = 1 / 2048 := by
    simp only [pow2, Int.toNat]
    norm_num
  have hm : |(Y : ℚ) / 2048 - 4033 / 4096| / (1 / 2048) = ((Y - 2017 : Int) : ℚ) + 1 / 2 := by
    rw [abs_of_pos hpos]
    push_cast
    ring
  have hfl : ⌊((Y - 2017 : Int) : ℚ) + 1 / 2⌋ = Y - 2017 := by
    rw [Int.floor_eq_iff]
    constructor <;> norm_num
  have hodd : ¬ ((Y - 2017) % 2 = 0) := by omega
  unfold f32 roundNE
  rw [if_neg hpos.ne']
  simp only []
  rw [ha, hs, hm, hfl]
  have e1 : ((Y - 2017 : Int) : ℚ) + 1 / 2 - ((Y - 2017 : Int) : ℚ) = 1 / 2 := by ring
  rw [e1, if_neg (lt_irrefl _), if_neg (lt_irrefl _), if_neg hodd, if_neg (not_lt.mpr hpos.le)]
  push_cast
  ring

theorem significand_of_dyadic (n : Nat) (a : Int) (h1 : -12 ≤ a) (h2 : a ≤ 11) :
    (n : ℚ) / 4096 / pow2 (a - (((24 : Nat) : Int) - 1)) =
      (((n * 2 ^ (11 - a).toNat : Nat) : Int) : ℚ) := by
  interval_cases a <;> simp only [pow2, Int.toNat] <;> norm_num <;> ring

/-- A multiple of `2^-12` of magnitude at most `2^12` is a `float32`. -/
theorem f32_dyadic (N : Int) (h : |N| ≤ 16777216) : f32 ((N : ℚ) / 4096) = (N : ℚ) / 4096 := by
  unfold f32
  by_cases hN : N = 0
  · subst hN
    simp [roundNE]
  · have hq : (N : ℚ) / 4096 ≠ 0 := by
      have : (N : ℚ) ≠ 0 := by exact_mod_cast hN
      exact div_ne_zero this (by norm_num)
    have hpos : 0 < N.natAbs := Int.natAbs_pos.mpr hN
    have hle : N.natAbs ≤ 16777216 := by
      have := Int.abs_eq_natAbs N
      omega
    have habs : |(N : ℚ) / 4096| = (N.natAbs : ℚ) / 4096 := by
      rw [abs_div, ← Int.cast_abs, Int.abs_eq_natAbs, Int.cast_natCast]
      norm_num
    have a1 := pow2_ilog2_le _ hq
    have a2 := lt_pow2_ilog2 _ hq
    rw [pow2_eq_zpow, habs] at a1 a2
    have hn1 : (1 : ℚ) ≤ (N.natAbs : ℚ) := by exact_mod_cast hpos
    have hn2 : (N.natAbs : ℚ) ≤ 16777216 := by exact_mod_cast hle
    have hup : ilog2 ((N : ℚ) / 4096) ≤ 12 := by
      have : (2 : ℚ) ^ ilog2 ((N : ℚ) / 4096) < (2 : ℚ) ^ (13 : Int) := by
        refine lt_of_le_of_lt a1 ?_
        norm_num
        linarith
      rw [zpow_lt_zpow_iff_right₀ (by norm_num)] at this
      omega
    have hlo : -12 ≤ ilog2 ((N : ℚ) / 4096) := by
      have : (2 : ℚ) ^ (-12 : Int) < (2 : ℚ) ^ (ilog2 ((N : ℚ) / 4096) + 1) := by
        refine lt_of_le_of_lt ?_ a2
        norm_num
        linarith
      rw [zpow_lt_zpow_iff_right₀ (by norm_num)] at this
      omega
    by_cases h12 : ilog2 ((N : ℚ) / 4096) = 12
    · rw [h12] at a1
      have hval : N.natAbs = 16777216 := by
        have : (16777216 : ℚ) ≤ (N.natAbs : ℚ) := by
          norm_num at a1
          linarith
        have : 16777216 ≤ N.natAbs := by exact_mod_cast this
        omega
      apply roundNE_of_int_significand 24 _ hq 8388608
      rw [h12, habs, hval]
      simp only [pow2, Int.toNat]
      norm_num
    · apply roundNE_of_int_significand 24 _ hq
        ((N.natAbs * 2 ^ (11 - ilog2 ((N : ℚ) / 4096)).toNat : Nat) : Int)
      rw [habs]
      exact significand_of_dyadic _ _ hlo (by omega)

/-- The minor component of the request `(8257, 8130)` while it is at least `4096`: every
subtraction of the slope is a tie and loses `1/4096`. -/
theorem drift_high (k : Nat) (hk : k ≤ 4098) :
    (fun y : ℚ => f32 (y - 4033 / 4096))^[k] 8130 = ((16650240 - 2016 * (k : Int) : Int) : ℚ) / 2048 := by
  induction k with
  | zero => norm_num
  | succ k ih =>
    rw [Function.iterate_succ_apply', ih (by omega)]
    rw [f32_tie _ (by omega) (by omega) (by omega)]
    push_cast
    ring

/-- The minor component of the request `(8257, 8130)` below `4096`: every subtraction of the
slope is exact. -/
theorem drift_low (j : Nat) (hj : j ≤ 4159) :
    (fun y : ℚ => f32 (y - 4033 / 4096))^[j] (131073 / 32) =
      ((16777344 - 4033 * (j : Int) : Int) : ℚ) / 4096 := by
  induction j with
  | zero => norm_num
  | succ j ih =>
    rw [Function.iterate_succ_apply', ih (by omega)]
    have e : ((16777344 - 4033 * (j : Int) : Int) : ℚ) / 4096 - 4033 / 4096 =
        ((16777344 - 4033 * ((j + 1 : Nat) : Int) : Int) : ℚ) / 4096 := by
      push_cast
      ring
    rw [e]
    apply f32_dyadic
    rw [abs_le]
    constructor <;> push_cast <;> omega

theorem drift_total :
    (fun y : ℚ => f32 (y - 4033 / 4096))^[8257] 8130 = 4097 / 4096 := by
  have e : (8257 : Nat) = 4159 + 4098 := by norm_num
  rw [e, Function.iterate_add_apply, drift_high 4098 le_rfl]
  have e2 : ((16650240 - 2016 * ((4098 : Nat) : Int) : Int) : ℚ) / 2048 = 131073 / 32 := by
    norm_num
  rw [e2, drift_low 4159 le_rfl]
  norm_num

theorem slope_drift : Resolve.slope 8257 8130 = 4033 / 4096 := by decide!

theorem drift_end : toInt32 (4097 / 4096) = 1 := by decide!

theorem f32_floor : f32 ((-16777216 : ℚ) - 1) = -16777216 := by decide!

/-- The colliding branch for the request `(8257, 8130)`. -/
theorem reduce_drift (s : ResolveState Unit) :
    (Resolve.reduce () 8257 8130 s).x = f32 (s.x - 1) ∧
      (Resolve.reduce () 8257 8130 s).y = f32 (s.y - 4033 / 4096) ∧
      (Resolve.reduce () 8257 8130 s).out.ResolveX = toInt32 (f32 (s.x - 1)) ∧
      (Resolve.reduce () 8257 8130 s).out.ResolveY = toInt32 (f32 (s.y - 4033 / 4096)) := by
  have hp : Resolve.primeX 8257 8130 = true := by decide
  have h1 : (8257 : Int) > 0 := by decide
  have h2 : (8130 : Int) > 0 := by decide
  simp only [Resolve.reduce, hp, if_true, h1, h2, slope_drift, and_self]

/-- After the trial displacement of the request `(8257, 8130)` has passed `(0, 1)`, or while
it is on its way there, the mover that is free only at `(0,0)` stays blocked. -/
theorem loop_drift (fuel : Nat) : ∀ s : ResolveState Unit,
    ((∃ k : Nat, k < 8257 ∧ s.x = ((8257 - (k : Int) : Int) : ℚ) ∧
        s.y = (fun y : ℚ => f32 (y - 4033 / 4096))^[k] 8130 ∧
        s.out.ResolveX = 8257 - (k : Int)) ∨
      (s.x = 0 ∧ s.out.ResolveX = 0 ∧ s.out.ResolveY = 1) ∨
      (∃ v : Int, -16777216 ≤ v ∧ v ≤ -1 ∧ s.x = (v : ℚ) ∧ s.out.ResolveX = v)) →
    Resolve.loop blockedUnlessHome () () 8257 8130 fuel s = none := by
  induction fuel with
  | zero =>
    intro s _
    rfl
  | succ n ih =>
    intro s hs
    obtain ⟨r1, r2, r3, r4⟩ := reduce_drift s
    unfold Resolve.loop
    rcases hs with ⟨k, hk, hx, hy, hX⟩ | ⟨hx, hX, hY⟩ | ⟨v, hv1, hv2, hx, hX⟩
    · have hw : blockedUnlessHome () () s.out.ResolveX s.out.ResolveY = true := by
        have : s.out.ResolveX ≠ 0 := by omega
        simp [blockedUnlessHome, this]
      rw [if_pos hw]
      apply ih
      have hx' : f32 (s.x - 1) = ((8257 - ((k + 1 : Nat) : Int) : Int) : ℚ) := by
        have : s.x - 1 = ((8257 - ((k + 1 : Nat) : Int) : Int) : ℚ) := by
          rw [hx]; push_cast; ring
        rw [this]
        apply f32_intCast
        rw [abs_le]
        constructor <;> omega
      have hy' : f32 (s.y - 4033 / 4096) = (fun y : ℚ => f32 (y - 4033 / 4096))^[k + 1] 8130 := by
        rw [Function.iterate_succ_apply', ← hy]
      by_cases hlast : k + 1 = 8257
      · right; left
        have hx0 : f32 (s.x - 1) = 0 := by
          rw [hx', hlast]; norm_num
        refine ⟨by rw [r1, hx0], ?_, ?_⟩
        · rw [r3, hx0]
          exact toInt32_intCast 0 (by decide)
        · rw [r4, hy', hlast, drift_total]
          exact drift_end
      · left
        refine ⟨k + 1, by omega, by rw [r1, hx'], by rw [r2, hy'], ?_⟩
        rw [r3, hx']
        rw [toInt32_intCast _ (by unfold inI32; omega)]
    · have hw : blockedUnlessHome () () s.out.ResolveX s.out.ResolveY = true := by
        rw [hX, hY]; rfl
      rw [if_pos hw]
      apply ih
      right; right
      have hx' : f32 (s.x - 1) = ((-1 : Int) : ℚ) := by
        have : s.x - 1 = ((-1 : Int) : ℚ) := by rw [hx]; norm_num
        rw [this]
        exact f32_intCast _ (by decide)
      refine ⟨-1, by decide, by decide, by rw [r1, hx'], ?_⟩
      rw [r3, hx']
      exact toInt32_intCast _ (by decide)
    · have hw : blockedUnlessHome () () s.out.ResolveX s.out.ResolveY = true := by
        have : s.out.ResolveX ≠ 0 := by omega
        simp [blockedUnlessHome, this]
      rw [if_pos hw]
      apply ih
      right; right
      by_cases hfl : v = -16777216
      · have hx' : f32 (s.x - 1) = ((-16777216 : Int) : ℚ) := by
          rw [hx, hfl]
          have := f32_floor
          push_cast
          exact this
        refine ⟨-16777216, by decide, by decide, by rw [r1, hx'], ?_⟩
        rw [r3, hx']
        exact toInt32_intCast _ (by decide)
      · have hx' : f32 (s.x - 1) = ((v - 1 : Int) : ℚ) := by
          have : s.x - 1 = ((v - 1 : Int) : ℚ) := by rw [hx]; push_cast; ring
          rw [this]
          apply f32_intCast
          rw [abs_le]
          constructor <;> omega
        refine ⟨v - 1, by omega, by omega, by rw [r1, hx'], ?_⟩
        rw [r3, hx']
        exact toInt32_intCast _ (by unfold inI32; omega)

/-- The request `(8257, 8130)` of a mover that is free only at `(0,0)`: `Resolve` never
returns, the trial displacement passing `(0, 1)` instead of `(0, 0)`. -/
theorem Resolve_drift_none (fuel : Nat) :
    Resolve blockedUnlessHome fuel () () 8257 8130 = none := by
  unfold Resolve
  rw [if_neg (by decide)]
  have hl := loop_drift fuel (Resolve.init () 8257 8130) (Or.inl ⟨0, by decide, by
      show f32 ((8257 : Int) : ℚ) = _
      rw [f32_intCast _ (by decide)]
      norm_num, by
      show f32 ((8130 : Int) : ℚ) = _
      rw [f32_intCast _ (by decide)]
      simp, by
      show (8257 : Int) = _
      norm_num⟩)
  rw [hl]

/-- The request `(2^25, 0)` of a mover that is free only at `(0,0)`: `Resolve` never returns,
`2^25 - 1` rounding back to `2^25` in `float32`. -/
theorem Resolve_stuck_none (fuel : Nat) :
    Resolve blockedUnlessHome fuel () () 33554432 0 = none := by
  unfold Resolve
  rw [if_neg (by decide)]
  have hl := loop_stuck fuel (Resolve.init () 33554432 0) (by
      show f32 ((33554432 : Int) : ℚ) = 33554432
      decide!) (by
      show f32 ((0 : Int) : ℚ) = 0
      decide!) rfl rfl
  rw [hl]

/-- C8 (counterexample). A mover that already overlaps the other shape asks for `(5, 0)`:
the colliding branch runs 15 times, more than `max(|5|,|0|) = 5`.  A mover that is free at
`(0,0)` and nowhere else asks for `(2^25, 0)`, or for `(8257, 8130)`, whose components have
the same sign and are below `2^24`: the loop never reaches its `break`, because `2^25 - 1`
rounds back to `2^25`, and because the rounded minor component is `4097/4096` when the
primary one reaches `0`, so that the trial displacement passes `(0, 1)`. -/
theorem Resolve_iterations_exceed_bound :
    ((Resolve overlappingAtStart 100 () () 5 0).map Prod.snd = some 15 ∧
        ¬ ((15 : Int) ≤ max |5| |0|)) ∧
      (blockedUnlessHome () () 0 0 = false ∧
        ∀ fuel : Nat, Resolve blockedUnlessHome fuel () () 33554432 0 = none) ∧
      ((0 : Int) ≤ 8257 * 8130 ∧ max |(8257 : Int)| |8130| ≤ 16777216 ∧
        ∀ fuel : Nat, Resolve blockedUnlessHome fuel () () 8257 8130 = none) := by
  refine ⟨by decide!, ⟨rfl, Resolve_stuck_none⟩, by decide, by decide, Resolve_drift_none⟩

/-- C7 (counterexample). The mover collides everywhere but at `(0,0)`.  Asked for
`(2^25, 0)`, `Resolve` never returns: `2^25 - 1` rounds back to `2^25` in `float32`, so the
trial displacement does not move.  Asked for `(8257, 8130)`, whose components have the same
sign and are below `2^24`, it never returns either: the `float32` minor component has
drifted to `4097/4096` when the primary one reaches `0`, so the trial displacement passes
`(0, 1)` and not `(0, 0)`. -/
theorem Resolve_blocked_never_returns :
    blockedUnlessHome () () 0 0 = false ∧
      (blockedUnlessHome () () 33554432 0 = true ∧
        ¬ ∃ (fuel : Nat) (c : Collision Unit) (n : Nat),
          Resolve blockedUnlessHome fuel () () 33554432 0 = some (c, n)) ∧
      (blockedUnlessHome () () 8257 8130 = true ∧ (0 : Int) ≤ 8257 * 8130 ∧
        max |(8257 : Int)| |8130| ≤ 16777216 ∧
        ¬ ∃ (fuel : Nat) (c : Collision Unit) (n : Nat),
          Resolve blockedUnlessHome fuel () () 8257 8130 = some (c, n)) := by
  refine ⟨rfl, ⟨rfl, ?_⟩, rfl, by decide, by decide, ?_⟩
  · rintro ⟨fuel, c, n, h⟩
    rw [Resolve_stuck_none] at h
    exact absurd h (by simp)
  · rintro ⟨fuel, c, n, h⟩
    rw [Resolve_drift_none] at h
    exact absurd h (by simp)

/-! ## Concrete runs -/

/-- C15 (failing input). `Resolve` is asked for `(2, -1)` and the mover collides there: after
one reduction the trial displacement is `(1, -3/2)`, which is not on the line through
`(2, -1)`: for components of opposite sign the minor component moves away from zero. -/
theorem Resolve_trial_leaves_line :
    (Resolve.reduce () 2 (-1) (Resolve.init () 2 (-1))).x = 1 ∧
      (Resolve.reduce () 2 (-1) (Resolve.init () 2 (-1))).y = -3 / 2 ∧
      (Resolve.reduce () 2 (-1) (Resolve.init () 2 (-1))).x * (-1 : Int) ≠
        (Resolve.reduce () 2 (-1) (Resolve.init () 2 (-1))).y * (2 : Int) := by
  decide!

/-- C14 (failing input). The point `(2,0)` is colinear with `(0,0)` and `(4,0)` and strictly
between them, and `ColinearPointsOnSegment` returns false: on a horizontal segment no `cy`
is strictly between `ay` and `by`. -/
theorem ColinearPointsOnSegment_horizontal :
    cross 0 0 4 0 2 0 = 0 ∧ (0 : Int) < 2 ∧ (2 : Int) < 4 ∧
      ColinearPointsOnSegment 0 0 4 0 2 0 = false := by
  decide

/-- C2 (failing input). The triangle `(2,2) (2,3) (3,2)` lies inside `(0,0) (0,10) (10,0)`:
the large one reports the collision and the small one does not. -/
theorem IsColliding_not_symmetric :
    (NewTriangle 2 2 2 3 3 2).IsColliding (Shape.triangle (NewTriangle 0 0 0 10 10 0)) = false ∧
      (NewTriangle 0 0 0 10 10 0).IsColliding (Shape.triangle (NewTriangle 2 2 2 3 3 2)) = true := by
  decide

/-! ## The sign of a bitwise or -/

theorem testBit_31_of_ge {u : Nat} (h1 : 2147483648 ≤ u) (h2 : u < 4294967296) :
    u.testBit 31 = true := by
  obtain ⟨r, rfl⟩ : ∃ r, u = 2 ^ 31 + r := ⟨u - 2147483648, by omega⟩
  rw [Nat.testBit_two_pow_add_eq, Nat.testBit_lt_two_pow (by omega)]
  rfl

theorem lor_lt_iff (u v : Nat) (hu : u < 4294967296) (hv : v < 4294967296) :
    u ||| v < 2147483648 ↔ u < 2147483648 ∧ v < 2147483648 := by
  constructor
  · intro h
    have hb : (u ||| v).testBit 31 = false := Nat.testBit_lt_two_pow (by simpa using h)
    rw [Nat.testBit_or, Bool.or_eq_false_iff] at hb
    constructor
    · by_contra hc
      have := testBit_31_of_ge (not_lt.mp hc) hu
      rw [hb.1] at this
      exact absurd this (by decide)
    · by_contra hc
      have := testBit_31_of_ge (not_lt.mp hc) hv
      rw [hb.2] at this
      exact absurd this (by decide)
  · rintro ⟨h1, h2⟩
    have : u ||| v < 2 ^ 31 := Nat.or_lt_two_pow (by simpa using h1) (by simpa using h2)
    simpa using this

/-- The sign bit of `a | b` is set exactly when the sign bit of `a` or of `b` is. -/
theorem or32_nonneg_iff (a b : Int) (ha : inI32 a) (hb : inI32 b) :
    0 ≤ or32 a b ↔ 0 ≤ a ∧ 0 ≤ b := by
  unfold inI32 at ha hb
  have hua : (a % 4294967296).toNat < 4294967296 := by omega
  have hub : (b % 4294967296).toNat < 4294967296 := by omega
  have hn : (a % 4294967296).toNat ||| (b % 4294967296).toNat < 4294967296 := by
    have : (a % 4294967296).toNat ||| (b % 4294967296).toNat < 2 ^ 32 :=
      Nat.or_lt_two_pow (by simpa using hua) (by simpa using hub)
    simpa using this
  have hl := lor_lt_iff _ _ hua hub
  unfold or32 wrap32
  generalize (a % 4294967296).toNat ||| (b % 4294967296).toNat = n at hn hl
  have e1 : (a % 4294967296).toNat < 2147483648 ↔ 0 ≤ a := by omega
  have e2 : (b % 4294967296).toNat < 2147483648 ↔ 0 ≤ b := by omega
  rw [e1, e2] at hl
  rw [← hl]
  omega

theorem or32_inI32 (a b : Int) : inI32 (or32 a b) := inI32_wrap32 _

/-- For `int32` values the test `a | b | c >= 0` is the conjunction of the three sign tests. -/
theorem or32_three_nonneg_iff (a b c : Int) (ha : inI32 a) (hb : inI32 b) (hc : inI32 c) :
    or32 (or32 a b) c ≥ 0 ↔ a ≥ 0 ∧ b ≥ 0 ∧ c ≥ 0 := by
  rw [ge_iff_le, or32_nonneg_iff _ _ (or32_inI32 a b) hc, or32_nonneg_iff a b ha hb]
  exact and_assoc

/-! ## A circle centred in the triangle -/

/-- The circle test returns true when the or of the three cross products is non-negative. -/
theorem collidesCircle_of_stage2 (t : Triangle) (b : Circle)
    (h : or32 (or32 (sub32 (mul32 (sub32 t.Y2 t.Y) (sub32 b.X t.X))
          (mul32 (sub32 t.X2 t.X) (sub32 b.Y t.Y)))
        (sub32 (mul32 (sub32 t.Y3 t.Y2) (sub32 b.X t.X2))
          (mul32 (sub32 t.X3 t.X2) (sub32 b.Y t.Y2))))
      (sub32 (mul32 (sub32 t.Y t.Y3) (sub32 b.X t.X3))
        (mul32 (sub32 t.X t.X3) (sub32 b.Y t.Y3))) ≥ 0) :
    t.collidesCircle b = true := by
  unfold Triangle.collidesCircle
  simp only []
  split_ifs <;> rfl

/-- In a clockwise triangle a convex combination of the vertices is on the non-negative side
of every edge. -/
theorem cross_nonneg_of_inClosedTriangle {px py qx qy rx ry cx cy : Int}
    (hcw : 0 < cross px py qx qy rx ry)
    (hin : inClosedTriangle px py qx qy rx ry cx cy) :
    0 ≤ (qy - py) * (cx - px) - (qx - px) * (cy - py) ∧
    0 ≤ (ry - qy) * (cx - qx) - (rx - qx) * (cy - qy) ∧
    0 ≤ (py - ry) * (cx - rx) - (px - rx) * (cy - ry) := by
  obtain ⟨a, b, c, ha, hb, hc, hsum, hx, hy⟩ := hin
  have hcw' : (0 : ℚ) < (cross px py qx qy rx ry : Int) := by exact_mod_cast hcw
  have ha' : a = 1 - b - c := by linarith
  have e1 : (((qy - py) * (cx - px) - (qx - px) * (cy - py) : Int) : ℚ) =
      c * (cross px py qx qy rx ry : Int) := by
    unfold cross
    push_cast
    rw [hx, hy, ha']
    ring
  have e2 : (((ry - qy) * (cx - qx) - (rx - qx) * (cy - qy) : Int) : ℚ) =
      a * (cross px py qx qy rx ry : Int) := by
    unfold cross
    push_cast
    rw [hx, hy]
    have hb' : b = 1 - a - c := by linarith
    rw [hb']
    ring
  have e3 : (((py - ry) * (cx - rx) - (px - rx) * (cy - ry) : Int) : ℚ) =
      b * (cross px py qx qy rx ry : Int) := by
    unfold cross
    push_cast
    rw [hx, hy]
    have hc' : c = 1 - a - b := by linarith
    rw [hc']
    ring
  refine ⟨?_, ?_, ?_⟩
  · have : (0 : ℚ) ≤ (((qy - py) * (cx - px) - (qx - px) * (cy - py) : Int) : ℚ) := by
      rw [e1]; positivity
    exact_mod_cast this
  · have : (0 : ℚ) ≤ (((ry - qy) * (cx - qx) - (rx - qx) * (cy - qy) : Int) : ℚ) := by
      rw [e2]; positivity
    exact_mod_cast this
  · have : (0 : ℚ) ≤ (((py - ry) * (cx - rx) - (px - rx) * (cy - ry) : Int) : ℚ) := by
      rw [e3]; positivity
    exact_mod_cast this

theorem inClosedTriangle_swap {px py qx qy rx ry cx cy : Int}
    (h : inClosedTriangle px py qx qy rx ry cx cy) :
    inClosedTriangle px py rx ry qx qy cx cy := by
  obtain ⟨a, b, c, ha, hb, hc, hsum, hx, hy⟩ := h
  exact ⟨a, c, b, ha, hc, hb, by linarith, by rw [hx]; ring, by rw [hy]; ring⟩

theorem inI32_sub32 (a b : Int) : inI32 (sub32 a b) := inI32_wrap32 _

/-- A circle whose centre is in a clockwise stored triangle passes the second stage. -/
theorem collidesCircle_of_centre_inside (t : Triangle) (b : Circle)
    (hcw : 0 < cross t.X t.Y t.X2 t.Y2 t.X3 t.Y3)
    (hno : t.stage2NoOverflow b)
    (hin : inClosedTriangle t.X t.Y t.X2 t.Y2 t.X3 t.Y3 b.X b.Y) :
    t.collidesCircle b = true := by
  apply collidesCircle_of_stage2
  refine (or32_three_nonneg_iff _ _ _ (inI32_sub32 _ _) (inI32_sub32 _ _)
    (inI32_sub32 _ _)).mpr ?_
  obtain ⟨h1, h2, h3, h4, h5, h6, h7, h8, h9, h10, h11, h12, h13, h14, h15, h16, h17, h18,
    h19, h20, h21⟩ := hno
  rw [sub32_exact h1, sub32_exact h2, sub32_exact h3, sub32_exact h4, sub32_exact h5,
    sub32_exact h6, sub32_exact h7, sub32_exact h8, sub32_exact h9, sub32_exact h10,
    sub32_exact h11, sub32_exact h12, mul32_exact h13, mul32_exact h14, sub32_exact h15,
    mul32_exact h16, mul32_exact h17, sub32_exact h18, mul32_exact h19, mul32_exact h20,
    sub32_exact h21]
  exact cross_nonneg_of_inClosedTriangle hcw hin

/-- C10. A circle centred in the triangle collides whatever the supplied vertex order: for
three non-colinear points and a circle whose centre is a convex combination of them,
`IsColliding` is true on `NewTriangle(p,q,r)` and on `NewTriangle(p,r,q)`, when no `int32`
operation of `NewTriangle` and of the cross products of the circle test overflows. -/
theorem circle_centred_collides (px py qx qy rx ry : Int) (b : Circle)
    (hnc : cross px py qx qy rx ry ≠ 0)
    (hin : inClosedTriangle px py qx qy rx ry b.X b.Y)
    (h1 : NewTriangle.noOverflow px py qx qy rx ry)
    (h2 : NewTriangle.noOverflow px py rx ry qx qy)
    (h3 : (NewTriangle px py qx qy rx ry).stage2NoOverflow b)
    (h4 : (NewTriangle px py rx ry qx qy).stage2NoOverflow b) :
    (NewTriangle px py qx qy rx ry).IsColliding (Shape.circle b) = true ∧
      (NewTriangle px py rx ry qx qy).IsColliding (Shape.circle b) = true := by
  have e1 := NewTriangle_eq h1
  have e2 := NewTriangle_eq h2
  rw [cross_swap] at e2
  unfold Triangle.IsColliding
  by_cases hs : cross px py qx qy rx ry ≥ 0
  · have hpos : 0 < cross px py qx qy rx ry := lt_of_le_of_ne hs (Ne.symm hnc)
    have hneg : ¬ (-cross px py qx qy rx ry ≥ 0) := by omega
    rw [if_pos hs] at e1
    rw [if_neg hneg] at e2
    rw [e1] at h3 ⊢
    rw [e2] at h4 ⊢
    exact ⟨collidesCircle_of_centre_inside _ b hpos h3 hin,
      collidesCircle_of_centre_inside _ b hpos h4 hin⟩
  · have hpos : 0 < cross px py rx ry qx qy := by rw [cross_swap]; omega
    have hnn : -cross px py qx qy rx ry ≥ 0 := by omega
    rw [if_neg hs] at e1
    rw [if_pos hnn] at e2
    rw [e1] at h3 ⊢
    rw [e2] at h4 ⊢
    exact ⟨collidesCircle_of_centre_inside _ b hpos h3 (inClosedTriangle_swap hin),
      collidesCircle_of_centre_inside _ b hpos h4 (inClosedTriangle_swap hin)⟩

/-- Witness for C10: the triangle and the inner circle of the test suite, both vertex
orders; the centre `(10,14)` is `1/2 (10,10) + 1/4 (18,18) + 1/4 (2,18)`. -/
theorem circle_centred_collides_witness :
    (NewTriangle 10 10 18 18 2 18).IsColliding (Shape.circle ⟨10, 14, 1⟩) = true ∧
      (NewTriangle 10 10 2 18 18 18).IsColliding (Shape.circle ⟨10, 14, 1⟩) = true :=
  circle_centred_collides 10 10 18 18 2 18 ⟨10, 14, 1⟩ (by decide)
    ⟨1 / 2, 1 / 4, 1 / 4, by norm_num, by norm_num, by norm_num, by norm_num, by norm_num,
      by norm_num⟩
    (by decide) (by decide) (by decide) (by decide)

/-- C18 (amended). The or shortcut is the per-edge sign check: for all `int32` values
`a`, `b`, `c` the test `int32(a | b | c) >= 0` holds exactly when `a >= 0`, `b >= 0` and
`c >= 0`. -/
theorem orShortcut_iff_signChecks (a b c : Int) (ha : inI32 a) (hb : inI32 b) (hc : inI32 c) :
    or32 (or32 a b) c ≥ 0 ↔ a ≥ 0 ∧ b ≥ 0 ∧ c ≥ 0 :=
  or32_three_nonneg_iff a b c ha hb hc

/-- Witness for C18 (amended): one negative value among three. -/
theorem orShortcut_iff_signChecks_witness :
    or32 (or32 (-1) 2) 3 ≥ 0 ↔ (-1 : Int) ≥ 0 ∧ (2 : Int) ≥ 0 ∧ (3 : Int) ≥ 0 :=
  orShortcut_iff_signChecks (-1) 2 3 (by decide) (by decide) (by decide)

/-- C18 (counterexample). No `int32` values `a`, `b`, `c` make the test `a | b | c >= 0`
differ from the conjunction of the three sign tests. -/
theorem orShortcut_never_differs :
    ¬ ∃ a b c : Int, inI32 a ∧ inI32 b ∧ inI32 c ∧
      ¬ (or32 (or32 a b) c ≥ 0 ↔ a ≥ 0 ∧ b ≥ 0 ∧ c ≥ 0) := by
  rintro ⟨a, b, c, ha, hb, hc, h⟩
  exact h (or32_three_nonneg_iff a b c ha hb hc)

/-- C19 (failing input). The circle of radius 5 centred at `(196,-1)` reaches one unit
below the edge from `(0,0)` to `(1000,0)` of the triangle `(0,0) (1000,0) (0,1000)`, with all
values in `[-1000, 1000]`: the test over unbounded integers reports the collision and the
`int32` test does not, the products `c3sqr*lng` and `k*k` of the third stage wrapping. -/
theorem circle_test_wraps_at_pixel_scale :
    (NewTriangle 0 0 1000 0 0 1000).collidesCircleExact ⟨196, -1, 5⟩ = true ∧
      (NewTriangle 0 0 1000 0 0 1000).IsColliding (Shape.circle ⟨196, -1, 5⟩) = false ∧
      mul32 646392 1000000 = 2146905600 ∧ mul32 804000 804000 = -2124061696 := by
  decide

/-! ## Accuracy of the `float64` operations of `PointOnLine` -/

theorem isqrtAux_spec (k : Nat) : ∀ r n : Nat, r * r ≤ n → n < (r + 2 ^ k) * (r + 2 ^ k) →
    isqrtAux k r n * isqrtAux k r n ≤ n ∧
      n < (isqrtAux k r n + 1) * (isqrtAux k r n + 1) := by
  induction k with
  | zero =>
    intro r n h1 h2
    simpa [isqrtAux] using ⟨h1, h2⟩
  | succ k ih =>
    intro r n h1 h2
    unfold isqrtAux
    by_cases h : (r + 2 ^ k) * (r + 2 ^ k) ≤ n
    · rw [if_pos h]
      apply ih _ _ h
      have : r + 2 ^ k + 2 ^ k = r + 2 ^ (k + 1) := by rw [pow_succ]; ring
      rw [this]
      exact h2
    · rw [if_neg h]
      exact ih _ _ h1 (not_le.mp h)

theorem isqrt_spec (n : Nat) (h : n < 2 ^ 128) :
    isqrt n * isqrt n ≤ n ∧ n < (isqrt n + 1) * (isqrt n + 1) := by
  unfold isqrt
  apply isqrtAux_spec 64 0 n (by simp)
  calc n < 2 ^ 128 := h
    _ = (0 + 2 ^ 64) * (0 + 2 ^ 64) := by norm_num

/-- Rounding to 53 bits moves a number below `2^70` by at most `2^17`. -/
theorem roundF64_near (n : Nat) (h : n < 2 ^ 70) :
    roundF64 n ≤ n + 131072 ∧ n ≤ roundF64 n + 131072 := by
  unfold roundF64
  simp only []
  by_cases hs : log2F n n < 53
  · rw [if_pos hs]
    omega
  · rw [if_neg hs]
    have hn : 0 < n := by
      rcases Nat.eq_zero_or_pos n with h0 | h0
      · subst h0
        exact absurd (by decide : log2F 0 0 < 53) hs
      · exact h0
    obtain ⟨ha, hb⟩ := log2F_spec n n le_rfl hn
    have hL : log2F n n ≤ 69 := by
      by_contra hc
      have : 2 ^ 70 ≤ 2 ^ log2F n n := Nat.pow_le_pow_right (by norm_num) (by omega)
      omega
    have hsh : log2F n n - 52 ≤ 17 := by omega
    have hpow : 2 ^ (log2F n n - 52) ≤ 131072 := by
      calc 2 ^ (log2F n n - 52) ≤ 2 ^ 17 := Nat.pow_le_pow_right (by norm_num) hsh
        _ = 131072 := by norm_num
    have hpos : 0 < 2 ^ (log2F n n - 52) := Nat.pow_pos (by norm_num)
    have hdiv := Nat.div_add_mod n (2 ^ (log2F n n - 52))
    have hmod := Nat.mod_lt n hpos
    generalize 2 ^ (log2F n n - 52) = P at *
    generalize n / P = q at *
    generalize n % P = r at *
    have e1 : P * q = q * P := Nat.mul_comm _ _
    have e2 : (q + 1) * P = q * P + P := by ring
    split_ifs <;> omega

theorem sqrt_round_near (n e m K r : Nat) (he : e ≤ 15) (hK : K = n * 4 ^ (52 - e))
    (hm1 : m * m ≤ K) (hm2 : K < (m + 1) * (m + 1)) (hr : r = m ∨ r = m + 1) :
    |((r * 2 ^ e : Nat) : ℝ) - 2 ^ 52 * Real.sqrt n| ≤ 32768 := by
  have hsK : Real.sqrt (K : ℝ) = 2 ^ (52 - e) * Real.sqrt n := by
    rw [hK]
    push_cast
    have h4 : ((4 : ℝ) ^ (52 - e)) = (2 ^ (52 - e)) ^ 2 := by
      rw [← pow_mul, mul_comm, pow_mul]; norm_num
    rw [h4, mul_comm, Real.sqrt_mul (by positivity), Real.sqrt_sq (by positivity)]
  have hlow : (m : ℝ) ≤ Real.sqrt K := by
    apply Real.le_sqrt_of_sq_le
    have : ((m * m : Nat) : ℝ) ≤ (K : ℝ) := by exact_mod_cast hm1
    push_cast at this
    nlinarith
  have hhigh : Real.sqrt K < (m : ℝ) + 1 := by
    rw [Real.sqrt_lt' (by positivity)]
    have : ((K : Nat) : ℝ) < (((m + 1) * (m + 1) : Nat) : ℝ) := by exact_mod_cast hm2
    push_cast at this
    nlinarith
  have hpe : (2 : ℝ) ^ 52 = 2 ^ e * 2 ^ (52 - e) := by
    rw [← pow_add]
    congr 1
    omega
  have hpe15 : (2 : ℝ) ^ e ≤ 32768 := by
    calc (2 : ℝ) ^ e ≤ 2 ^ 15 := pow_le_pow_right₀ (by norm_num) he
      _ = 32768 := by norm_num
  have hpos : (0 : ℝ) < 2 ^ e := by positivity
  have hrr : |(r : ℝ) - Real.sqrt K| ≤ 1 := by
    rw [abs_le]
    rcases hr with rfl | rfl
    · constructor <;> linarith
    · push_cast
      constructor <;> linarith
  have : ((r * 2 ^ e : Nat) : ℝ) - 2 ^ 52 * Real.sqrt n = 2 ^ e * ((r : ℝ) - Real.sqrt K) := by
    rw [hsK, hpe]
    push_cast
    ring
  rw [this, abs_mul, abs_of_pos hpos]
  calc 2 ^ e * |(r : ℝ) - Real.sqrt K| ≤ 2 ^ e * 1 := by
        apply mul_le_mul_of_nonneg_left hrr hpos.le
    _ ≤ 32768 := by rw [mul_one]; exact hpe15

/-- The correctly rounded square root is within `2^15` units of `2^-52` of the real one. -/
theorem sqrtF64_near (n : Nat) (h : n ≤ 2 ^ 31) :
    |(sqrtF64 n : ℝ) - 2 ^ 52 * Real.sqrt n| ≤ 32768 := by
  unfold sqrtF64
  by_cases h0 : n = 0
  · subst h0
    simp
  · rw [if_neg h0]
    simp only []
    have hn : 0 < n := Nat.pos_of_ne_zero h0
    obtain ⟨ha, hb⟩ := log2F_spec n n le_rfl hn
    have hL : log2F n n ≤ 31 := by
      by_contra hc
      have : 2 ^ 32 ≤ 2 ^ log2F n n := Nat.pow_le_pow_right (by norm_num) (by omega)
      omega
    generalize log2F n n = L at ha hb hL
    have he15 : L / 2 ≤ 15 := by omega
    have hup : n < 4 ^ (L / 2 + 1) := by
      have h4 : (4 : Nat) ^ (L / 2 + 1) = 2 ^ (2 * (L / 2 + 1)) := by
        rw [pow_mul]; norm_num
      rw [h4]
      exact lt_of_lt_of_le hb (Nat.pow_le_pow_right (by norm_num) (by omega))
    have hKlt : n * 4 ^ (52 - L / 2) < 2 ^ 128 := by
      have : n * 4 ^ (52 - L / 2) < 4 ^ (L / 2 + 1) * 4 ^ (52 - L / 2) :=
        Nat.mul_lt_mul_of_pos_right hup (Nat.pow_pos (by norm_num))
      rw [← pow_add] at this
      have h53 : L / 2 + 1 + (52 - L / 2) = 53 := by omega
      rw [h53] at this
      exact lt_trans this (by norm_num)
    obtain ⟨hm1, hm2⟩ := isqrt_spec _ hKlt
    generalize isqrt (n * 4 ^ (52 - L / 2)) = m at hm1 hm2
    split_ifs
    · exact sqrt_round_near n (L / 2) m _ m he15 rfl hm1 hm2 (Or.inl rfl)
    · exact sqrt_round_near n (L / 2) m _ (m + 1) he15 rfl hm1 hm2 (Or.inr rfl)

/-- Without overflow `fDistance` is the rounded square root of the squared distance, within
`2^15` units of the real distance. -/
theorem fDistance_near {x y x2 y2 : Int} (h : fDistance.noOverflow x y x2 y2) :
    |(fDistance x y x2 y2 : ℝ) -
      2 ^ 52 * Real.sqrt (((x - x2) * (x - x2) + (y - y2) * (y - y2) : Int) : ℝ)| ≤ 32768 := by
  obtain ⟨h1, h2, h3, h4, h5⟩ := h
  unfold fDistance
  simp only [sub32_exact h1, sub32_exact h2, mul32_exact h3, mul32_exact h4, add32_exact h5]
  have hnn : 0 ≤ (x - x2) * (x - x2) + (y - y2) * (y - y2) := by nlinarith
  have hle : ((x - x2) * (x - x2) + (y - y2) * (y - y2)).natAbs ≤ 2 ^ 31 := by
    unfold inI32 at h5
    omega
  have hcast : ((((x - x2) * (x - x2) + (y - y2) * (y - y2)).natAbs : Nat) : ℝ) =
      (((x - x2) * (x - x2) + (y - y2) * (y - y2) : Int) : ℝ) := by
    rw [Nat.cast_natAbs, abs_of_nonneg hnn]
  have := sqrtF64_near _ hle
  rw [hcast] at this
  exact this

/-- On a closed segment the two distances to the endpoints add up to its length. -/
theorem sqrt_add_of_onSegment {px py ax ay bx «by» : Int}
    (h : onSegment px py ax ay bx «by») :
    Real.sqrt (((px - ax) * (px - ax) + (py - ay) * (py - ay) : Int) : ℝ) +
      Real.sqrt (((px - bx) * (px - bx) + (py - «by») * (py - «by») : Int) : ℝ) =
    Real.sqrt (((ax - bx) * (ax - bx) + (ay - «by») * (ay - «by») : Int) : ℝ) := by
  obtain ⟨hc, hx1, hx2, hy1, hy2⟩ := h
  unfold cross at hc
  have hdx : 0 ≤ (px - ax) * (bx - px) := by
    rcases le_total ax bx with hab | hab
    · rw [min_eq_left hab] at hx1
      rw [max_eq_right hab] at hx2
      exact mul_nonneg (by omega) (by omega)
    · rw [min_eq_right hab] at hx1
      rw [max_eq_left hab] at hx2
      exact mul_nonneg_of_nonpos_of_nonpos (by omega) (by omega)
  have hdy : 0 ≤ (py - ay) * («by» - py) := by
    rcases le_total ay «by» with hab | hab
    · rw [min_eq_left hab] at hy1
      rw [max_eq_right hab] at hy2
      exact mul_nonneg (by omega) (by omega)
    · rw [min_eq_right hab] at hy1
      rw [max_eq_left hab] at hy2
      exact mul_nonneg_of_nonpos_of_nonpos (by omega) (by omega)
  set A : ℝ := (((px - ax) * (px - ax) + (py - ay) * (py - ay) : Int) : ℝ) with hA
  set B : ℝ := (((px - bx) * (px - bx) + (py - «by») * (py - «by») : Int) : ℝ) with hB
  set C : ℝ := (((ax - bx) * (ax - bx) + (ay - «by») * (ay - «by») : Int) : ℝ) with hC
  set D : ℝ := (((px - ax) * (bx - px) + (py - ay) * («by» - py) : Int) : ℝ) with hD
  have hA0 : 0 ≤ A := by rw [hA]; exact_mod_cast (by nlinarith)
  have hB0 : 0 ≤ B := by rw [hB]; exact_mod_cast (by nlinarith)
  have hD0 : 0 ≤ D := by rw [hD]; exact_mod_cast (by linarith)
  have hlag : D * D = A * B := by
    rw [hA, hB, hD]
    have : ((px - ax) * (bx - px) + (py - ay) * («by» - py)) *
        ((px - ax) * (bx - px) + (py - ay) * («by» - py)) =
        ((px - ax) * (px - ax) + (py - ay) * (py - ay)) *
        ((px - bx) * (px - bx) + (py - «by») * (py - «by»)) := by
      linear_combination (-(((«by» - ay) * (px - bx) - (bx - ax) * (py - «by»)))) * hc
    exact_mod_cast this
  have hsum : C = A + B + 2 * D := by
    rw [hA, hB, hC, hD]
    push_cast
    ring
  have hDs : D = Real.sqrt A * Real.sqrt B := by
    rw [← Real.sqrt_mul hA0, ← hlag, Real.sqrt_mul_self hD0]
  have hsq : C = (Real.sqrt A + Real.sqrt B) ^ 2 := by
    rw [hsum, hDs, add_sq, Real.sq_sqrt hA0, Real.sq_sqrt hB0]
    ring
  rw [hsq, Real.sqrt_sq (by positivity)]

theorem roundF64_small (n : Nat) (h : n < 2 ^ 53) : roundF64 n = n := by
  unfold roundF64
  simp only []
  have hs : log2F n n < 53 := by
    rcases Nat.eq_zero_or_pos n with h0 | h0
    · subst h0
      decide
    · obtain ⟨ha, -⟩ := log2F_spec n n le_rfl h0
      by_contra hc
      have : 2 ^ 53 ≤ 2 ^ log2F n n := Nat.pow_le_pow_right (by norm_num) (by omega)
      omega
  rw [if_pos hs]

theorem roundF64Int_small (v : Int) (h : |v| < 2 ^ 53) : roundF64Int v = v := by
  unfold roundF64Int
  have hn : v.natAbs < 2 ^ 53 := by
    have := Int.abs_eq_natAbs v
    omega
  rw [roundF64_small _ hn]
  split_ifs with hv
  · omega
  · omega

theorem sqrt_le_of_inI32 {v : Int} (h : inI32 v) : Real.sqrt (v : ℝ) ≤ 46341 := by
  rw [Real.sqrt_le_left (by norm_num)]
  unfold inI32 at h
  have : (v : ℝ) ≤ 2147483647 := by exact_mod_cast h.2
  linarith

/-- Without overflow, `PointOnLine` is true for every point of the closed segment: the
rounding errors of the three square roots, of the sum and of the difference amount to less
than `2^18` units of `2^-52`, far below the tolerance. -/
theorem PointOnLine_of_onSegment {x y ax ay bx «by» : Int}
    (hno : PointOnLine.noOverflow x y ax ay bx «by») (hon : onSegment x y ax ay bx «by») :
    PointOnLine x y ax ay bx «by» = true := by
  obtain ⟨n1, n2, n3⟩ := hno
  have d1 := abs_le.mp (fDistance_near n1)
  have d2 := abs_le.mp (fDistance_near n2)
  have d3 := abs_le.mp (fDistance_near n3)
  have hadd := sqrt_add_of_onSegment hon
  have b1 := sqrt_le_of_inI32 n1.2.2.2.2
  have b2 := sqrt_le_of_inI32 n2.2.2.2.2
  have s1 := Real.sqrt_nonneg (((x - ax) * (x - ax) + (y - ay) * (y - ay) : Int) : ℝ)
  have s2 := Real.sqrt_nonneg (((x - bx) * (x - bx) + (y - «by») * (y - «by») : Int) : ℝ)
  have s3 := Real.sqrt_nonneg (((ax - bx) * (ax - bx) + (ay - «by») * (ay - «by») : Int) : ℝ)
  unfold PointOnLine
  simp only []
  generalize fDistance x y ax ay = S1 at d1
  generalize fDistance x y bx «by» = S2 at d2
  generalize fDistance ax ay bx «by» = S3 at d3
  have hsum_lt : S1 + S2 < 2 ^ 70 := by
    have : ((S1 + S2 : Nat) : ℝ) < ((2 ^ 70 : Nat) : ℝ) := by
      push_cast
      nlinarith
    exact_mod_cast this
  obtain ⟨r1, r2⟩ := roundF64_near (S1 + S2) hsum_lt
  have hup : (S1 + S2 : ℝ) ≤ S3 + 98304 := by linarith
  have hlo : (S3 : ℝ) ≤ S1 + S2 + 98304 := by linarith
  have hup' : S1 + S2 ≤ S3 + 98304 := by exact_mod_cast hup
  have hlo' : S3 ≤ S1 + S2 + 98304 := by exact_mod_cast hlo
  generalize roundF64 (S1 + S2) = R at r1 r2
  have hv : |(R : Int) - (S3 : Int)| < 2 ^ 53 := by
    rw [abs_lt]
    constructor <;> omega
  rw [roundF64Int_small _ hv]
  unfold tolerance66
  rw [decide_eq_true_iff]
  omega

/-! ## Boundary exclusion -/

/-- C4. Boundary exclusion: for every triangle and every integer point that lies on one of
its three closed edges, `pointCollides` returns false, when no `int32` operation of the
distances to that edge overflows. -/
theorem pointCollides_false_on_edge (t : Triangle) (x y : Int)
    (h : (onSegment x y t.X t.Y t.X2 t.Y2 ∧ PointOnLine.noOverflow x y t.X t.Y t.X2 t.Y2) ∨
      (onSegment x y t.X2 t.Y2 t.X3 t.Y3 ∧ PointOnLine.noOverflow x y t.X2 t.Y2 t.X3 t.Y3) ∨
      (onSegment x y t.X3 t.Y3 t.X t.Y ∧ PointOnLine.noOverflow x y t.X3 t.Y3 t.X t.Y)) :
    t.pointCollides x y = false := by
  unfold Triangle.pointCollides Triangle.pointOnEdge
  simp only []
  rcases h with ⟨hon, hno⟩ | ⟨hon, hno⟩ | ⟨hon, hno⟩
  · rw [PointOnLine_of_onSegment hno hon]
    simp
  · rw [PointOnLine_of_onSegment hno hon]
    simp
  · rw [PointOnLine_of_onSegment hno hon]
    simp

/-- Witness for C4: the midpoint `(5,10)` of the edge from `(10,10)` to `(0,10)`. -/
theorem pointCollides_false_on_edge_witness :
    (NewTriangle 5 5 10 10 0 10).pointCollides 5 10 = false :=
  pointCollides_false_on_edge (NewTriangle 5 5 10 10 0 10) 5 10
    (Or.inr (Or.inl ⟨by decide, by decide⟩))

/-- A true `PointOnLine` bounds the real excess of the two distances over the length. -/
theorem excess_le_of_PointOnLine {x y ax ay bx «by» : Int}
    (hno : PointOnLine.noOverflow x y ax ay bx «by»)
    (h : PointOnLine x y ax ay bx «by» = true) :
    Real.sqrt (((x - ax) * (x - ax) + (y - ay) * (y - ay) : Int) : ℝ) +
      Real.sqrt (((x - bx) * (x - bx) + (y - «by») * (y - «by») : Int) : ℝ) -
      Real.sqrt (((ax - bx) * (ax - bx) + (ay - «by») * (ay - «by») : Int) : ℝ) ≤
    1 / 10000 + 1 / 1000000000 := by
  obtain ⟨n1, n2, n3⟩ := hno
  have d1 := abs_le.mp (fDistance_near n1)
  have d2 := abs_le.mp (fDistance_near n2)
  have d3 := abs_le.mp (fDistance_near n3)
  have b1 := sqrt_le_of_inI32 n1.2.2.2.2
  have b2 := sqrt_le_of_inI32 n2.2.2.2.2
  have s1 := Real.sqrt_nonneg (((x - ax) * (x - ax) + (y - ay) * (y - ay) : Int) : ℝ)
  have s2 := Real.sqrt_nonneg (((x - bx) * (x - bx) + (y - «by») * (y - «by») : Int) : ℝ)
  unfold PointOnLine at h
  simp only [] at h
  generalize fDistance x y ax ay = S1 at d1 h
  generalize fDistance x y bx «by» = S2 at d2 h
  generalize fDistance ax ay bx «by» = S3 at d3 h
  have hsum_lt : S1 + S2 < 2 ^ 69 := by
    have : ((S1 + S2 : Nat) : ℝ) < ((2 ^ 69 : Nat) : ℝ) := by
      push_cast
      nlinarith
    exact_mod_cast this
  obtain ⟨r1, r2⟩ := roundF64_near (S1 + S2) (lt_trans hsum_lt (by norm_num))
  generalize roundF64 (S1 + S2) = R at r1 r2 h
  rw [decide_eq_true_iff] at h
  unfold tolerance66 at h
  have hv : (R : Int) - (S3 : Int) ≤ 450360093809 := by
    by_contra hc
    have hpos : ¬ ((R : Int) - (S3 : Int) < 0) := by omega
    unfold roundF64Int at h
    rw [if_neg hpos] at h
    have hlt : ((R : Int) - (S3 : Int)).natAbs < 2 ^ 70 := by omega
    obtain ⟨q1, q2⟩ := roundF64_near _ hlt
    omega
  have hvr : ((R : ℝ)) - (S3 : ℝ) ≤ 450360093809 := by exact_mod_cast hv
  have hS : ((S1 + S2 : Nat) : ℝ) ≤ (R : ℝ) + 131072 := by exact_mod_cast r2
  push_cast at hS
  nlinarith

/-- Without overflow, `PointOnLine` is true whenever the two distances exceed the length of
the segment by at most `0.0001 - 10^-9`: the rounding errors amount to less than `2^18`
units of `2^-52`, and `10^-9` is more than `2^22` of them. -/
theorem PointOnLine_of_excess_le {x y ax ay bx «by» : Int}
    (hno : PointOnLine.noOverflow x y ax ay bx «by»)
    (hex : Real.sqrt (((x - ax) * (x - ax) + (y - ay) * (y - ay) : Int) : ℝ) +
      Real.sqrt (((x - bx) * (x - bx) + (y - «by») * (y - «by») : Int) : ℝ) -
      Real.sqrt (((ax - bx) * (ax - bx) + (ay - «by») * (ay - «by») : Int) : ℝ) ≤
      1 / 10000 - 1 / 1000000000) :
    PointOnLine x y ax ay bx «by» = true := by
  obtain ⟨n1, n2, n3⟩ := hno
  have d1 := abs_le.mp (fDistance_near n1)
  have d2 := abs_le.mp (fDistance_near n2)
  have d3 := abs_le.mp (fDistance_near n3)
  have b1 := sqrt_le_of_inI32 n1.2.2.2.2
  have b2 := sqrt_le_of_inI32 n2.2.2.2.2
  have s1 := Real.sqrt_nonneg (((x - ax) * (x - ax) + (y - ay) * (y - ay) : Int) : ℝ)
  have s2 := Real.sqrt_nonneg (((x - bx) * (x - bx) + (y - «by») * (y - «by») : Int) : ℝ)
  unfold PointOnLine
  simp only []
  generalize fDistance x y ax ay = S1 at d1
  generalize fDistance x y bx «by» = S2 at d2
  generalize fDistance ax ay bx «by» = S3 at d3
  have hsum_lt : S1 + S2 < 2 ^ 70 := by
    have : ((S1 + S2 : Nat) : ℝ) < ((2 ^ 70 : Nat) : ℝ) := by
      push_cast
      nlinarith
    exact_mod_cast this
  obtain ⟨r1, r2⟩ := roundF64_near (S1 + S2) hsum_lt
  have hup : (S1 + S2 : ℝ) ≤ S3 + 450355557442 := by nlinarith
  have hup' : S1 + S2 ≤ S3 + 450355557442 := by exact_mod_cast hup
  generalize roundF64 (S1 + S2) = R at r1 r2
  rw [decide_eq_true_iff]
  unfold tolerance66
  by_cases hneg : (R : Int) - (S3 : Int) < 0
  · unfold roundF64Int
    rw [if_pos hneg]
    have := Int.ofNat_nonneg (roundF64 ((R : Int) - (S3 : Int)).natAbs)
    omega
  · have hv : |(R : Int) - (S3 : Int)| < 2 ^ 53 := by
      rw [abs_lt]
      constructor <;> omega
    rw [roundF64Int_small _ hv]
    omega

/-- C13 (amended). For integer points whose squared distances do not overflow `int32`,
`PointOnLine(p,a,b)` is true whenever `p` lies on the closed segment from `a` to `b`, and
whenever the two distances from `p` exceed the length of the segment by at most
`0.0001 - 10^-9`; when it is true they exceed it by at most `0.0001 + 10^-9`. -/
theorem PointOnLine_sound_within_tolerance (x y ax ay bx «by» : Int)
    (hno : PointOnLine.noOverflow x y ax ay bx «by») :
    (onSegment x y ax ay bx «by» → PointOnLine x y ax ay bx «by» = true) ∧
    (Real.sqrt (((x - ax) * (x - ax) + (y - ay) * (y - ay) : Int) : ℝ) +
        Real.sqrt (((x - bx) * (x - bx) + (y - «by») * (y - «by») : Int) : ℝ) -
        Real.sqrt (((ax - bx) * (ax - bx) + (ay - «by») * (ay - «by») : Int) : ℝ) ≤
      1 / 10000 - 1 / 1000000000 → PointOnLine x y ax ay bx «by» = true) ∧
    (PointOnLine x y ax ay bx «by» = true →
      Real.sqrt (((x - ax) * (x - ax) + (y - ay) * (y - ay) : Int) : ℝ) +
        Real.sqrt (((x - bx) * (x - bx) + (y - «by») * (y - «by») : Int) : ℝ) -
        Real.sqrt (((ax - bx) * (ax - bx) + (ay - «by») * (ay - «by») : Int) : ℝ) ≤
      1 / 10000 + 1 / 1000000000) :=
  ⟨PointOnLine_of_onSegment hno, PointOnLine_of_excess_le hno, excess_le_of_PointOnLine hno⟩

/-- Witness for C13 (amended): the midpoint `(2,0)` of the segment from `(0,0)` to `(4,0)`. -/
theorem PointOnLine_sound_within_tolerance_witness :
    (onSegment 2 0 0 0 4 0 → PointOnLine 2 0 0 0 4 0 = true) ∧
    (Real.sqrt ((((2 : Int) - 0) * (2 - 0) + (0 - 0) * (0 - 0) : Int) : ℝ) +
        Real.sqrt ((((2 : Int) - 4) * (2 - 4) + (0 - 0) * (0 - 0) : Int) : ℝ) -
        Real.sqrt ((((0 : Int) - 4) * (0 - 4) + (0 - 0) * (0 - 0) : Int) : ℝ) ≤
      1 / 10000 - 1 / 1000000000 → PointOnLine 2 0 0 0 4 0 = true) ∧
    (PointOnLine 2 0 0 0 4 0 = true →
      Real.sqrt ((((2 : Int) - 0) * (2 - 0) + (0 - 0) * (0 - 0) : Int) : ℝ) +
        Real.sqrt ((((2 : Int) - 4) * (2 - 4) + (0 - 0) * (0 - 0) : Int) : ℝ) -
        Real.sqrt ((((0 : Int) - 4) * (0 - 4) + (0 - 0) * (0 - 0) : Int) : ℝ) ≤
      1 / 10000 + 1 / 1000000000) :=
  PointOnLine_sound_within_tolerance 2 0 0 0 4 0 (by decide)

/-- C13 (counterexample). The integer point `(15000, 1)` is not on the segment from `(0,0)`
to `(30000,0)`, no squared distance overflows, and `PointOnLine` is true: the excess of
the two distances over the length is about `0.000067`, also with exact square roots. -/
theorem PointOnLine_accepts_off_segment :
    PointOnLine.noOverflow 15000 1 0 0 30000 0 ∧ ¬ onSegment 15000 1 0 0 30000 0 ∧
      PointOnLine 15000 1 0 0 30000 0 = true ∧
      Real.sqrt 225000001 + Real.sqrt 225000001 - Real.sqrt 900000000 ≤ 1 / 10000 := by
  refine ⟨by decide, by decide, by decide, ?_⟩
  have h1 : Real.sqrt 225000001 ≤ 15000 + 1 / 30000 := by
    rw [Real.sqrt_le_left (by norm_num)]
    norm_num
  have h2 : Real.sqrt 900000000 = 30000 := by
    rw [show (900000000 : ℝ) = 30000 ^ 2 by norm_num]
    exact Real.sqrt_sq (by norm_num)
  rw [h2]
  linarith

/-! ## Point containment -/

theorem herons_exact {x1 y1 x2 y2 x3 y3 : Int} (h : herons.noOverflow x1 y1 x2 y2 x3 y3) :
    herons x1 y1 x2 y2 x3 y3 = (area2 x1 y1 x2 y2 x3 y3).natAbs := by
  obtain ⟨h1, h2, h3, h4, h5, h6, h7⟩ := h
  unfold herons area2
  rw [sub32_exact h1, sub32_exact h2, mul32_exact h3, sub32_exact h4, sub32_exact h5,
    mul32_exact h6, sub32_exact h7]

theorem area2_split (x y x1 y1 x2 y2 x3 y3 : Int) :
    area2 x y x2 y2 x3 y3 + area2 x1 y1 x y x3 y3 + area2 x1 y1 x2 y2 x y =
      area2 x1 y1 x2 y2 x3 y3 := by
  unfold area2
  ring

/-- Without overflow the area test of `pointCollides` compares `|E1| + |E2| + |E3|` with
`|E1 + E2 + E3|` for the exact signed areas. -/
theorem areas_eq_iff (t : Triangle) (x y : Int) (h : t.areasNoOverflow x y) :
    (herons x y t.X2 t.Y2 t.X3 t.Y3 + herons t.X t.Y x y t.X3 t.Y3 +
        herons t.X t.Y t.X2 t.Y2 x y = t.Area) ↔
      ((0 ≤ area2 x y t.X2 t.Y2 t.X3 t.Y3 ∧ 0 ≤ area2 t.X t.Y x y t.X3 t.Y3 ∧
          0 ≤ area2 t.X t.Y t.X2 t.Y2 x y) ∨
        (area2 x y t.X2 t.Y2 t.X3 t.Y3 ≤ 0 ∧ area2 t.X t.Y x y t.X3 t.Y3 ≤ 0 ∧
          area2 t.X t.Y t.X2 t.Y2 x y ≤ 0)) := by
  obtain ⟨h1, h2, h3, h4⟩ := h
  unfold Triangle.Area
  rw [herons_exact h1, herons_exact h2, herons_exact h3, herons_exact h4,
    ← area2_split x y t.X t.Y t.X2 t.Y2 t.X3 t.Y3]
  omega

theorem pointCollides_eq_true_iff (t : Triangle) (x y : Int) :
    t.pointCollides x y = true ↔
      (herons x y t.X2 t.Y2 t.X3 t.Y3 + herons t.X t.Y x y t.X3 t.Y3 +
          herons t.X t.Y t.X2 t.Y2 x y = t.Area) ∧
        PointOnLine x y t.X t.Y t.X2 t.Y2 = false ∧
        PointOnLine x y t.X2 t.Y2 t.X3 t.Y3 = false ∧
        PointOnLine x y t.X3 t.Y3 t.X t.Y = false := by
  unfold Triangle.pointCollides Triangle.pointOnEdge
  simp only [Bool.and_eq_true, decide_eq_true_eq, Bool.not_eq_true', Bool.or_eq_false_iff,
    and_assoc]

/-- A point whose three signed areas have one sign and sum to a non-zero area is a convex
combination of the vertices. -/
theorem inClosedTriangle_of_areas (t : Triangle) (x y : Int)
    (hA : area2 t.X t.Y t.X2 t.Y2 t.X3 t.Y3 ≠ 0)
    (hs : (0 ≤ area2 x y t.X2 t.Y2 t.X3 t.Y3 ∧ 0 ≤ area2 t.X t.Y x y t.X3 t.Y3 ∧
          0 ≤ area2 t.X t.Y t.X2 t.Y2 x y) ∨
        (area2 x y t.X2 t.Y2 t.X3 t.Y3 ≤ 0 ∧ area2 t.X t.Y x y t.X3 t.Y3 ≤ 0 ∧
          area2 t.X t.Y t.X2 t.Y2 x y ≤ 0)) :
    inClosedTriangle t.X t.Y t.X2 t.Y2 t.X3 t.Y3 x y := by
  have hsplit := area2_split x y t.X t.Y t.X2 t.Y2 t.X3 t.Y3
  set E1 := area2 x y t.X2 t.Y2 t.X3 t.Y3 with hE1
  set E2 := area2 t.X t.Y x y t.X3 t.Y3 with hE2
  set E3 := area2 t.X t.Y t.X2 t.Y2 x y with hE3
  set E := area2 t.X t.Y t.X2 t.Y2 t.X3 t.Y3 with hE
  have hEq : (E : ℚ) ≠ 0 := by exact_mod_cast hA
  have hsum : (E1 : ℚ) + E2 + E3 = E := by exact_mod_cast hsplit
  have hx : (E : ℚ) * x = E1 * t.X + E2 * t.X2 + E3 * t.X3 := by
    have : E * x = E1 * t.X + E2 * t.X2 + E3 * t.X3 := by
      rw [hE, hE1, hE2, hE3]
      unfold area2
      ring
    exact_mod_cast this
  have hy : (E : ℚ) * y = E1 * t.Y + E2 * t.Y2 + E3 * t.Y3 := by
    have : E * y = E1 * t.Y + E2 * t.Y2 + E3 * t.Y3 := by
      rw [hE, hE1, hE2, hE3]
      unfold area2
      ring
    exact_mod_cast this
  have hnn : 0 ≤ (E1 : ℚ) / E ∧ 0 ≤ (E2 : ℚ) / E ∧ 0 ≤ (E3 : ℚ) / E := by
    rcases hs with ⟨p1, p2, p3⟩ | ⟨p1, p2, p3⟩
    · have q1 : (0 : ℚ) ≤ E1 := by exact_mod_cast p1
      have q2 : (0 : ℚ) ≤ E2 := by exact_mod_cast p2
      have q3 : (0 : ℚ) ≤ E3 := by exact_mod_cast p3
      have qE : (0 : ℚ) ≤ E := by linarith
      exact ⟨div_nonneg q1 qE, div_nonneg q2 qE, div_nonneg q3 qE⟩
    · have q1 : (E1 : ℚ) ≤ 0 := by exact_mod_cast p1
      have q2 : (E2 : ℚ) ≤ 0 := by exact_mod_cast p2
      have q3 : (E3 : ℚ) ≤ 0 := by exact_mod_cast p3
      have qE : (E : ℚ) ≤ 0 := by linarith
      exact ⟨div_nonneg_of_nonpos q1 qE, div_nonneg_of_nonpos q2 qE,
        div_nonneg_of_nonpos q3 qE⟩
  refine ⟨(E1 : ℚ) / E, (E2 : ℚ) / E, (E3 : ℚ) / E, hnn.1, hnn.2.1, hnn.2.2, ?_, ?_, ?_⟩
  · field_simp
    linarith
  · field_simp
    linarith
  · field_simp
    linarith

/-- C16. `pointCollides` has no false positives: for a triangle of non-zero area, when no
`int32` operation of the areas and of the edge distances overflows, a true `pointCollides`
means that the point is in the triangle and on none of its three closed edges. -/
theorem pointCollides_sound (t : Triangle) (x y : Int)
    (hA : t.Area ≠ 0) (hno : t.areasNoOverflow x y) (hed : t.edgesNoOverflow x y)
    (h : t.pointCollides x y = true) :
    inClosedTriangle t.X t.Y t.X2 t.Y2 t.X3 t.Y3 x y ∧
      ¬ onSegment x y t.X t.Y t.X2 t.Y2 ∧ ¬ onSegment x y t.X2 t.Y2 t.X3 t.Y3 ∧
      ¬ onSegment x y t.X3 t.Y3 t.X t.Y := by
  obtain ⟨har, p1, p2, p3⟩ := (pointCollides_eq_true_iff t x y).mp h
  obtain ⟨e1, e2, e3⟩ := hed
  have hA' : area2 t.X t.Y t.X2 t.Y2 t.X3 t.Y3 ≠ 0 := by
    intro h0
    apply hA
    unfold Triangle.Area
    rw [herons_exact hno.2.2.2, h0]
    rfl
  refine ⟨inClosedTriangle_of_areas t x y hA' ((areas_eq_iff t x y hno).mp har), ?_, ?_, ?_⟩
  · intro hon
    rw [PointOnLine_of_onSegment e1 hon] at p1
    exact absurd p1 (by decide)
  · intro hon
    rw [PointOnLine_of_onSegment e2 hon] at p2
    exact absurd p2 (by decide)
  · intro hon
    rw [PointOnLine_of_onSegment e3 hon] at p3
    exact absurd p3 (by decide)

/-- Witness for C16: the point `(5,8)` inside the triangle `(5,5) (10,10) (0,10)`. -/
theorem pointCollides_sound_witness :
    inClosedTriangle (NewTriangle 5 5 10 10 0 10).X (NewTriangle 5 5 10 10 0 10).Y
        (NewTriangle 5 5 10 10 0 10).X2 (NewTriangle 5 5 10 10 0 10).Y2
        (NewTriangle 5 5 10 10 0 10).X3 (NewTriangle 5 5 10 10 0 10).Y3 5 8 ∧
      ¬ onSegment 5 8 (NewTriangle 5 5 10 10 0 10).X (NewTriangle 5 5 10 10 0 10).Y
        (NewTriangle 5 5 10 10 0 10).X2 (NewTriangle 5 5 10 10 0 10).Y2 ∧
      ¬ onSegment 5 8 (NewTriangle 5 5 10 10 0 10).X2 (NewTriangle 5 5 10 10 0 10).Y2
        (NewTriangle 5 5 10 10 0 10).X3 (NewTriangle 5 5 10 10 0 10).Y3 ∧
      ¬ onSegment 5 8 (NewTriangle 5 5 10 10 0 10).X3 (NewTriangle 5 5 10 10 0 10).Y3
        (NewTriangle 5 5 10 10 0 10).X (NewTriangle 5 5 10 10 0 10).Y :=
  pointCollides_sound (NewTriangle 5 5 10 10 0 10) 5 8 (by decide) (by decide) (by decide)
    (by decide)

/-- C17 (counterexample). The vertices `(0,0) (1,0) (2,0)` are colinear, the area is `0`,
and `pointCollides` is true at `(5,0)`: all four areas are `0` and the point is beyond the
tolerance of every edge. -/
theorem degenerate_contains_point :
    (NewTriangle 0 0 1 0 2 0).Area = 0 ∧ (NewTriangle 0 0 1 0 2 0).pointCollides 5 0 = true := by
  decide

/-- C17 (amended). A triangle of area `0` reports no collision at a query point that forms
a triangle of non-zero area with two of its vertices, nor at a point of one of its closed
edges (no `int32` operation of the area, or of the distances, concerned overflowing). -/
theorem degenerate_pointCollides_false (t : Triangle) (x y : Int) (hdeg : t.Area = 0)
    (h : (area2 x y t.X2 t.Y2 t.X3 t.Y3 ≠ 0 ∧ herons.noOverflow x y t.X2 t.Y2 t.X3 t.Y3) ∨
      (area2 t.X t.Y x y t.X3 t.Y3 ≠ 0 ∧ herons.noOverflow t.X t.Y x y t.X3 t.Y3) ∨
      (area2 t.X t.Y t.X2 t.Y2 x y ≠ 0 ∧ herons.noOverflow t.X t.Y t.X2 t.Y2 x y) ∨
      (onSegment x y t.X t.Y t.X2 t.Y2 ∧ PointOnLine.noOverflow x y t.X t.Y t.X2 t.Y2) ∨
      (onSegment x y t.X2 t.Y2 t.X3 t.Y3 ∧ PointOnLine.noOverflow x y t.X2 t.Y2 t.X3 t.Y3) ∨
      (onSegment x y t.X3 t.Y3 t.X t.Y ∧ PointOnLine.noOverflow x y t.X3 t.Y3 t.X t.Y)) :
    t.pointCollides x y = false := by
  rw [← Bool.not_eq_true, pointCollides_eq_true_iff, hdeg]
  rintro ⟨har, p1, p2, p3⟩
  rcases h with ⟨hne, hno⟩ | ⟨hne, hno⟩ | ⟨hne, hno⟩ | ⟨hon, hno⟩ | ⟨hon, hno⟩ | ⟨hon, hno⟩
  · rw [herons_exact hno] at har
    omega
  · rw [herons_exact hno] at har
    omega
  · rw [herons_exact hno] at har
    omega
  · rw [PointOnLine_of_onSegment hno hon] at p1
    exact absurd p1 (by decide)
  · rw [PointOnLine_of_onSegment hno hon] at p2
    exact absurd p2 (by decide)
  · rw [PointOnLine_of_onSegment hno hon] at p3
    exact absurd p3 (by decide)

/-- Witness for C17 (amended): the point `(5,1)` is off the line of `(0,0) (1,0) (2,0)`. -/
theorem degenerate_pointCollides_false_witness :
    (NewTriangle 0 0 1 0 2 0).pointCollides 5 1 = false :=
  degenerate_pointCollides_false (NewTriangle 0 0 1 0 2 0) 5 1 (by decide)
    (Or.inl ⟨by decide, by decide⟩)

/-! ## Segment intersection -/

/-- The ways in which `LinesIntersect` returns true. -/
theorem LinesIntersect_true_cases {p1x p1y q1x q1y p2x p2y q2x q2y : Int}
    (h : LinesIntersect p1x p1y q1x q1y p2x p2y q2x q2y = true) :
    (orientation p1x p1y q1x q1y p2x p2y ≠ orientation p1x p1y q1x q1y q2x q2y ∧
      orientation p2x p2y q2x q2y p1x p1y ≠ orientation p2x p2y q2x q2y q1x q1y) ∨
    (orientation p1x p1y q1x q1y p2x p2y = colinear ∧
      ColinearPointsOnSegment p1x p1y q1x q1y p2x p2y = true) ∨
    (orientation p1x p1y q1x q1y q2x q2y = colinear ∧
      ColinearPointsOnSegment p1x p1y q1x q1y q2x q2y = true) ∨
    (orientation p2x p2y q2x q2y p1x p1y = colinear ∧
      ColinearPointsOnSegment p2x p2y q2x q2y p1x p1y = true) ∨
    (orientation p2x p2y q2x q2y q1x q1y = colinear ∧
      ColinearPointsOnSegment p2x p2y q2x q2y q1x q1y = true) := by
  unfold LinesIntersect at h
  simp only [] at h
  split_ifs at h with h1 h2 h3 h4 h5 h6
  · exact Or.inl h1
  · exact Or.inr (Or.inl h3)
  · exact Or.inr (Or.inr (Or.inl h4))
  · exact Or.inr (Or.inr (Or.inr (Or.inl h5)))
  · exact Or.inr (Or.inr (Or.inr (Or.inr h6)))

theorem sign_classes_of_ne {a b : Int}
    (h : (if a = 0 then colinear else if a > 0 then clockwise else counterclockwise) ≠
      (if b = 0 then colinear else if b > 0 then clockwise else counterclockwise)) :
    (0 ≤ a ∧ b ≤ 0 ∨ a ≤ 0 ∧ 0 ≤ b) ∧ a ≠ b := by
  unfold colinear clockwise counterclockwise at h
  split_ifs at h <;> first | (exact absurd rfl h) | (constructor <;> omega)

theorem ratio_mem {a b : Int} (h : (0 ≤ a ∧ b ≤ 0 ∨ a ≤ 0 ∧ 0 ≤ b) ∧ a ≠ b) :
    0 ≤ (a : ℚ) / (a - b) ∧ (a : ℚ) / (a - b) ≤ 1 := by
  obtain ⟨hs, hne⟩ := h
  rcases hs with ⟨ha, hb⟩ | ⟨ha, hb⟩
  · have hD : (0 : ℚ) < (a : ℚ) - b := by
      have : 0 < a - b := by omega
      exact_mod_cast this
    have ha' : (0 : ℚ) ≤ a := by exact_mod_cast ha
    have hb' : (b : ℚ) ≤ 0 := by exact_mod_cast hb
    exact ⟨div_nonneg ha' hD.le, (div_le_one hD).mpr (by linarith)⟩
  · have hD : (a : ℚ) - b < 0 := by
      have : a - b < 0 := by omega
      exact_mod_cast this
    have ha' : (a : ℚ) ≤ 0 := by exact_mod_cast ha
    have hb' : (0 : ℚ) ≤ b := by exact_mod_cast hb
    exact ⟨div_nonneg_of_nonpos ha' hD.le, (div_le_one_of_neg hD).mpr (by linarith)⟩

/-- Two segments whose endpoints are on different sides of each other's line meet. -/
theorem segmentsMeet_of_sides {p1x p1y q1x q1y p2x p2y q2x q2y : Int}
    (h12 : (0 ≤ cross p1x p1y q1x q1y p2x p2y ∧ cross p1x p1y q1x q1y q2x q2y ≤ 0 ∨
        cross p1x p1y q1x q1y p2x p2y ≤ 0 ∧ 0 ≤ cross p1x p1y q1x q1y q2x q2y) ∧
      cross p1x p1y q1x q1y p2x p2y ≠ cross p1x p1y q1x q1y q2x q2y)
    (h34 : (0 ≤ cross p2x p2y q2x q2y p1x p1y ∧ cross p2x p2y q2x q2y q1x q1y ≤ 0 ∨
        cross p2x p2y q2x q2y p1x p1y ≤ 0 ∧ 0 ≤ cross p2x p2y q2x q2y q1x q1y) ∧
      cross p2x p2y q2x q2y p1x p1y ≠ cross p2x p2y q2x q2y q1x q1y) :
    segmentsMeet p1x p1y q1x q1y p2x p2y q2x q2y := by
  obtain ⟨t0, t1⟩ := ratio_mem h12
  obtain ⟨s0, s1⟩ := ratio_mem h34
  set d1 := cross p1x p1y q1x q1y p2x p2y with hd1
  set d2 := cross p1x p1y q1x q1y q2x q2y with hd2
  set d3 := cross p2x p2y q2x q2y p1x p1y with hd3
  set d4 := cross p2x p2y q2x q2y q1x q1y with hd4
  have hD : (d3 : ℚ) - d4 = -((d1 : ℚ) - d2) := by
    have : d3 - d4 = -(d1 - d2) := by
      rw [hd1, hd2, hd3, hd4]
      unfold cross
      ring
    exact_mod_cast this
  have hDne : (d1 : ℚ) - d2 ≠ 0 := by
    have : d1 - d2 ≠ 0 := sub_ne_zero.mpr h12.2
    exact_mod_cast this
  have hDne' : (d3 : ℚ) - d4 ≠ 0 := by rw [hD]; exact neg_ne_zero.mpr hDne
  have ht : (d1 : ℚ) / (d1 - d2) * (d1 - d2) = d1 := div_mul_cancel₀ _ hDne
  have hs : (d3 : ℚ) / (d3 - d4) * (d1 - d2) = -d3 := by
    have h1 : (d3 : ℚ) / (d3 - d4) * (d3 - d4) = d3 := div_mul_cancel₀ _ hDne'
    have h2 : (d1 : ℚ) - d2 = -((d3 : ℚ) - d4) := by rw [hD]; ring
    rw [h2, mul_neg, h1]
  have kx : ((d1 : ℚ) - d2) * (p2x - p1x) + d1 * (q2x - p2x) + d3 * (q1x - p1x) = 0 := by
    have : (d1 - d2) * (p2x - p1x) + d1 * (q2x - p2x) + d3 * (q1x - p1x) = 0 := by
      rw [hd1, hd2, hd3]
      unfold cross
      ring
    exact_mod_cast this
  have ky : ((d1 : ℚ) - d2) * (p2y - p1y) + d1 * (q2y - p2y) + d3 * (q1y - p1y) = 0 := by
    have : (d1 - d2) * (p2y - p1y) + d1 * (q2y - p2y) + d3 * (q1y - p1y) = 0 := by
      rw [hd1, hd2, hd3]
      unfold cross
      ring
    exact_mod_cast this
  refine ⟨(d3 : ℚ) / (d3 - d4), (d1 : ℚ) / (d1 - d2), s0, s1, t0, t1, ?_, ?_⟩
  · apply mul_right_cancel₀ hDne
    linear_combination ((q1x : ℚ) - p1x) * hs - ((q2x : ℚ) - p2x) * ht - kx
  · apply mul_right_cancel₀ hDne
    linear_combination ((q1y : ℚ) - p1y) * hs - ((q2y : ℚ) - p2y) * ht - ky

/-- A point colinear with `a` and `b` and strictly between them on the `x` axis is
`a + s (b - a)` for some `s` in `[0,1]`. -/
theorem param_of_colinear_between {ax ay bx «by» cx cy : Int}
    (hc : cross ax ay bx «by» cx cy = 0)
    (hx : ColinearPointsOnSegment ax ay bx «by» cx cy = true) :
    ∃ s : ℚ, 0 ≤ s ∧ s ≤ 1 ∧ (ax : ℚ) + s * (bx - ax) = cx ∧ (ay : ℚ) + s * («by» - ay) = cy := by
  unfold ColinearPointsOnSegment max32 min32 at hx
  have hb : (ax < cx ∧ cx < bx) ∨ (bx < cx ∧ cx < ax) := by
    split_ifs at hx <;> omega
  have hr : (0 ≤ cx - ax ∧ cx - bx ≤ 0 ∨ cx - ax ≤ 0 ∧ 0 ≤ cx - bx) ∧ cx - ax ≠ cx - bx := by
    rcases hb with ⟨h1, h2⟩ | ⟨h1, h2⟩
    · exact ⟨Or.inl ⟨by omega, by omega⟩, by omega⟩
    · exact ⟨Or.inr ⟨by omega, by omega⟩, by omega⟩
  obtain ⟨s0, s1⟩ := ratio_mem hr
  have hne : (bx : ℚ) - ax ≠ 0 := by
    have : bx - ax ≠ 0 := by omega
    exact_mod_cast this
  have hden : (((cx - ax : Int) : ℚ)) - ((cx - bx : Int) : ℚ) = (bx : ℚ) - ax := by
    push_cast
    ring
  rw [hden] at s0 s1
  have hs : (((cx - ax : Int) : ℚ)) / ((bx : ℚ) - ax) * (bx - ax) = cx - ax := by
    rw [div_mul_cancel₀ _ hne]
    push_cast
    ring
  have hcq : ((«by» : ℚ) - ay) * (cx - ax) = (bx - ax) * (cy - ay) := by
    have : («by» - ay) * (cx - ax) = (bx - ax) * (cy - ay) := by
      unfold cross at hc
      linear_combination hc
    exact_mod_cast this
  refine ⟨((cx - ax : Int) : ℚ) / ((bx : ℚ) - ax), s0, s1, by linarith, ?_⟩
  apply mul_right_cancel₀ hne
  linear_combination ((«by» : ℚ) - ay) * hs + hcq

theorem cross_eq_zero_of_colinear {px py qx qy rx ry : Int}
    (hno : orientation.noOverflow px py qx qy rx ry)
    (h : orientation px py qx qy rx ry = colinear) : cross px py qx qy rx ry = 0 := by
  rw [orientation_exact hno] at h
  unfold colinear clockwise counterclockwise at h
  by_contra h0
  rw [if_neg h0] at h
  split_ifs at h

/-- C20. `LinesIntersect` has no false positives: when no `int32` operation of its four
orientation tests overflows and it returns true, the two closed segments have a point in
common. -/
theorem LinesIntersect_sound (p1x p1y q1x q1y p2x p2y q2x q2y : Int)
    (hno : LinesIntersect.noOverflow p1x p1y q1x q1y p2x p2y q2x q2y)
    (h : LinesIntersect p1x p1y q1x q1y p2x p2y q2x q2y = true) :
    segmentsMeet p1x p1y q1x q1y p2x p2y q2x q2y := by
  obtain ⟨n1, n2, n3, n4⟩ := hno
  rcases LinesIntersect_true_cases h with ⟨g1, g2⟩ | ⟨c, b⟩ | ⟨c, b⟩ | ⟨c, b⟩ | ⟨c, b⟩
  · rw [orientation_exact n1, orientation_exact n2] at g1
    rw [orientation_exact n3, orientation_exact n4] at g2
    exact segmentsMeet_of_sides (sign_classes_of_ne g1) (sign_classes_of_ne g2)
  · obtain ⟨s, s0, s1, ex, ey⟩ := param_of_colinear_between (cross_eq_zero_of_colinear n1 c) b
    exact ⟨s, 0, s0, s1, le_refl 0, zero_le_one, by rw [ex]; ring, by rw [ey]; ring⟩
  · obtain ⟨s, s0, s1, ex, ey⟩ := param_of_colinear_between (cross_eq_zero_of_colinear n2 c) b
    exact ⟨s, 1, s0, s1, zero_le_one, le_refl 1, by rw [ex]; ring, by rw [ey]; ring⟩
  · obtain ⟨t, t0, t1, ex, ey⟩ := param_of_colinear_between (cross_eq_zero_of_colinear n3 c) b
    exact ⟨0, t, le_refl 0, zero_le_one, t0, t1, by rw [ex]; ring, by rw [ey]; ring⟩
  · obtain ⟨t, t0, t1, ex, ey⟩ := param_of_colinear_between (cross_eq_zero_of_colinear n4 c) b
    exact ⟨1, t, zero_le_one, le_refl 1, t0, t1, by rw [ex]; ring, by rw [ey]; ring⟩

/-- Witness for C20: the crossing edges `(5,6)-(6,5)` and `(6,6)-(5,5)` of the two triangles
of the test suite. -/
theorem LinesIntersect_sound_witness : segmentsMeet 5 6 6 5 6 6 5 5 :=
  LinesIntersect_sound 5 6 6 5 6 6 5 5 (by decide) (by decide)

/-! ## Contact at an endpoint -/

theorem zero_of_antiparallel {a b x y : Int} (h : a * y = b * x) (hxy : x * y ≤ 0)
    (hab : 0 < a * b) : x = 0 ∧ y = 0 := by
  have h1 : a * b * (y * y) = b * b * (x * y) := by linear_combination b * y * h
  have h2 : a * b * (x * x) = a * a * (x * y) := by linear_combination (-(a * x)) * h
  have hy : y * y ≤ 0 := by
    by_contra hc
    have : 0 < a * b * (y * y) := mul_pos hab (not_le.mp hc)
    nlinarith [mul_self_nonneg b]
  have hx : x * x ≤ 0 := by
    by_contra hc
    have : 0 < a * b * (x * x) := mul_pos hab (not_le.mp hc)
    nlinarith [mul_self_nonneg a]
  constructor
  · nlinarith [mul_self_nonneg x]
  · nlinarith [mul_self_nonneg y]

/-- The point `c` lies on the closed segment from `a` to `b`, and `a`, `b`, `c`, `e` are not
all on one line: then `e` is off the line of `a` and `b`, and `a` and `b` are not strictly
on the same side of the line of `c` and `e`. -/
theorem touch_core {ax ay bx «by» cx cy ex ey : Int}
    (hon : onSegment cx cy ax ay bx «by»)
    (hnc : ¬ (cross ax ay bx «by» cx cy = 0 ∧ cross ax ay bx «by» ex ey = 0 ∧
      cross cx cy ex ey ax ay = 0 ∧ cross cx cy ex ey bx «by» = 0)) :
    cross ax ay bx «by» ex ey ≠ 0 ∧
      cross cx cy ex ey ax ay * cross cx cy ex ey bx «by» ≤ 0 ∧
      ¬ (cross cx cy ex ey ax ay = 0 ∧ cross cx cy ex ey bx «by» = 0) := by
  obtain ⟨hc, hx1, hx2, hy1, hy2⟩ := hon
  have hux : (ax - cx) * (bx - cx) ≤ 0 := by
    rcases le_total ax bx with hab | hab
    · rw [min_eq_left hab] at hx1
      rw [max_eq_right hab] at hx2
      exact mul_nonpos_of_nonpos_of_nonneg (by omega) (by omega)
    · rw [min_eq_right hab] at hx1
      rw [max_eq_left hab] at hx2
      exact mul_nonpos_of_nonneg_of_nonpos (by omega) (by omega)
  have huy : (ay - cy) * («by» - cy) ≤ 0 := by
    rcases le_total ay «by» with hab | hab
    · rw [min_eq_left hab] at hy1
      rw [max_eq_right hab] at hy2
      exact mul_nonpos_of_nonpos_of_nonneg (by omega) (by omega)
    · rw [min_eq_right hab] at hy1
      rw [max_eq_left hab] at hy2
      exact mul_nonpos_of_nonneg_of_nonpos (by omega) (by omega)
  have hd2 : cross ax ay bx «by» ex ey =
      cross cx cy ex ey ax ay - cross cx cy ex ey bx «by» := by
    have : cross ax ay bx «by» cx cy - cross ax ay bx «by» ex ey =
        -(cross cx cy ex ey ax ay - cross cx cy ex ey bx «by») := by
      unfold cross
      ring
    rw [hc] at this
    omega
  have hpx : cross cx cy ex ey ax ay * (bx - cx) = cross cx cy ex ey bx «by» * (ax - cx) := by
    unfold cross at hc ⊢
    linear_combination (-(ex - cx)) * hc
  have hpy : cross cx cy ex ey ax ay * («by» - cy) = cross cx cy ex ey bx «by» * (ay - cy) := by
    unfold cross at hc ⊢
    linear_combination (-(ey - cy)) * hc
  have hprod : cross cx cy ex ey ax ay * cross cx cy ex ey bx «by» ≤ 0 := by
    by_contra hpos
    have hpos' : 0 < cross cx cy ex ey ax ay * cross cx cy ex ey bx «by» := not_le.mp hpos
    obtain ⟨x0, x1⟩ := zero_of_antiparallel hpx hux hpos'
    obtain ⟨y0, y1⟩ := zero_of_antiparallel hpy huy hpos'
    have hz : cross cx cy ex ey ax ay = 0 := by
      have e1 : ax = cx := by omega
      have e2 : ay = cy := by omega
      rw [e1, e2]
      unfold cross
      ring
    rw [hz, zero_mul] at hpos'
    exact lt_irrefl 0 hpos'
  have hne2 : cross ax ay bx «by» ex ey ≠ 0 := by
    intro h0
    have heq : cross cx cy ex ey ax ay = cross cx cy ex ey bx «by» := by omega
    have hz : cross cx cy ex ey ax ay = 0 := by
      by_contra hnz
      rw [← heq] at hprod
      have : 0 < cross cx cy ex ey ax ay * cross cx cy ex ey ax ay :=
        mul_self_pos.mpr hnz
      omega
    exact hnc ⟨hc, h0, hz, by omega⟩
  refine ⟨hne2, hprod, ?_⟩
  rintro ⟨z1, z2⟩
  apply hne2
  omega

theorem cross_flip (px py qx qy rx ry : Int) :
    cross qx qy px py rx ry = - cross px py qx qy rx ry := by
  unfold cross
  ring

theorem classes_ne {a b : Int} (h : a * b ≤ 0) (h0 : ¬ (a = 0 ∧ b = 0)) :
    (if a = 0 then colinear else if a > 0 then clockwise else counterclockwise) ≠
      (if b = 0 then colinear else if b > 0 then clockwise else counterclockwise) := by
  unfold colinear clockwise counterclockwise
  rcases lt_trichotomy a 0 with ha | ha | ha <;> rcases lt_trichotomy b 0 with hb | hb | hb
  · exact absurd (mul_pos_of_neg_of_neg ha hb) (not_lt.mpr h)
  · rw [if_neg ha.ne, if_neg (not_lt.mpr ha.le), if_pos hb]
    decide
  · rw [if_neg ha.ne, if_neg (not_lt.mpr ha.le), if_neg hb.ne', if_pos hb]
    decide
  · rw [if_pos ha, if_neg hb.ne, if_neg (not_lt.mpr hb.le)]
    decide
  · exact absurd ⟨ha, hb⟩ h0
  · rw [if_pos ha, if_neg hb.ne', if_pos hb]
    decide
  · rw [if_neg ha.ne', if_pos ha, if_neg hb.ne, if_neg (not_lt.mpr hb.le)]
    decide
  · rw [if_neg ha.ne', if_pos ha, if_pos hb]
    decide
  · exact absurd (mul_pos ha hb) (not_lt.mpr h)

theorem LinesIntersect_false_of_general {p1x p1y q1x q1y p2x p2y q2x q2y : Int}
    (g1 : orientation p1x p1y q1x q1y p2x p2y ≠ orientation p1x p1y q1x q1y q2x q2y)
    (g2 : orientation p2x p2y q2x q2y p1x p1y ≠ orientation p2x p2y q2x q2y q1x q1y)
    (hp : PointOnLine p1x p1y p2x p2y q2x q2y = true ∨
      PointOnLine q1x q1y p2x p2y q2x q2y = true ∨
      PointOnLine p2x p2y p1x p1y q1x q1y = true ∨
      PointOnLine q2x q2y p1x p1y q1x q1y = true) :
    LinesIntersect p1x p1y q1x q1y p2x p2y q2x q2y = false := by
  unfold LinesIntersect
  simp only []
  rw [if_pos ⟨g1, g2⟩]
  rcases hp with h | h | h | h <;> simp [h]

/-- C12. Endpoint touching is not an intersection: for two segments whose four endpoints
are not all on one line, if an endpoint of one lies on the other closed segment (a shared
endpoint included), `LinesIntersect` returns false, when no `int32` operation of the
orientation tests and of the distances of the touching endpoint overflows. -/
theorem LinesIntersect_false_of_touch (p1x p1y q1x q1y p2x p2y q2x q2y : Int)
    (hno : LinesIntersect.noOverflow p1x p1y q1x q1y p2x p2y q2x q2y)
    (hnc : ¬ (cross p1x p1y q1x q1y p2x p2y = 0 ∧ cross p1x p1y q1x q1y q2x q2y = 0 ∧
      cross p2x p2y q2x q2y p1x p1y = 0 ∧ cross p2x p2y q2x q2y q1x q1y = 0))
    (ht : (onSegment p1x p1y p2x p2y q2x q2y ∧ PointOnLine.noOverflow p1x p1y p2x p2y q2x q2y) ∨
      (onSegment q1x q1y p2x p2y q2x q2y ∧ PointOnLine.noOverflow q1x q1y p2x p2y q2x q2y) ∨
      (onSegment p2x p2y p1x p1y q1x q1y ∧ PointOnLine.noOverflow p2x p2y p1x p1y q1x q1y) ∨
      (onSegment q2x q2y p1x p1y q1x q1y ∧ PointOnLine.noOverflow q2x q2y p1x p1y q1x q1y)) :
    LinesIntersect p1x p1y q1x q1y p2x p2y q2x q2y = false := by
  obtain ⟨n1, n2, n3, n4⟩ := hno
  have f1 := cross_flip p1x p1y q1x q1y p2x p2y
  have f2 := cross_flip p1x p1y q1x q1y q2x q2y
  have f3 := cross_flip p2x p2y q2x q2y p1x p1y
  have f4 := cross_flip p2x p2y q2x q2y q1x q1y
  rcases ht with ⟨hon, hpn⟩ | ⟨hon, hpn⟩ | ⟨hon, hpn⟩ | ⟨hon, hpn⟩
  · obtain ⟨a, b, c⟩ := @touch_core _ _ _ _ _ _ q1x q1y hon (fun h => hnc ⟨h.2.2.1, h.2.2.2, h.1, h.2.1⟩)
    have hz := hon.1
    apply LinesIntersect_false_of_general
    · rw [orientation_exact n1, orientation_exact n2]
      exact classes_ne b c
    · rw [orientation_exact n3, orientation_exact n4]
      exact classes_ne (by rw [hz, zero_mul]) (fun h => a h.2)
    · exact Or.inl (PointOnLine_of_onSegment hpn hon)
  · obtain ⟨a, b, c⟩ := @touch_core _ _ _ _ _ _ p1x p1y hon (fun h => hnc
      ⟨by have := h.2.2.2; omega, by have := h.2.2.1; omega, h.2.1, h.1⟩)
    have hz := hon.1
    apply LinesIntersect_false_of_general
    · rw [orientation_exact n1, orientation_exact n2]
      exact classes_ne (by rw [f1, f2] at b; linarith) (fun h => c ⟨by omega, by omega⟩)
    · rw [orientation_exact n3, orientation_exact n4]
      exact classes_ne (by rw [hz, mul_zero]) (fun h => a h.1)
    · exact Or.inr (Or.inl (PointOnLine_of_onSegment hpn hon))
  · obtain ⟨a, b, c⟩ := @touch_core _ _ _ _ _ _ q2x q2y hon hnc
    have hz := hon.1
    apply LinesIntersect_false_of_general
    · rw [orientation_exact n1, orientation_exact n2]
      exact classes_ne (by rw [hz, zero_mul]) (fun h => a h.2)
    · rw [orientation_exact n3, orientation_exact n4]
      exact classes_ne b c
    · exact Or.inr (Or.inr (Or.inl (PointOnLine_of_onSegment hpn hon)))
  · obtain ⟨a, b, c⟩ := @touch_core _ _ _ _ _ _ p2x p2y hon (fun h => hnc
      ⟨h.2.1, h.1, by have := h.2.2.1; omega, by have := h.2.2.2; omega⟩)
    have hz := hon.1
    apply LinesIntersect_false_of_general
    · rw [orientation_exact n1, orientation_exact n2]
      exact classes_ne (by rw [hz, mul_zero]) (fun h => a h.1)
    · rw [orientation_exact n3, orientation_exact n4]
      exact classes_ne (by rw [f3, f4] at b; linarith) (fun h => c ⟨by omega, by omega⟩)
    · exact Or.inr (Or.inr (Or.inr (PointOnLine_of_onSegment hpn hon)))

/-- Witness for C12: the segments `(5,5)-(5,6)` and `(4,6)-(6,6)`, the first ending on the
second. -/
theorem LinesIntersect_false_of_touch_witness : LinesIntersect 5 5 5 6 4 6 6 6 = false :=
  LinesIntersect_false_of_touch 5 5 5 6 4 6 6 6 (by decide) (by decide)
    (Or.inr (Or.inl ⟨by decide, by decide⟩))

/-! ## The circle test and the geometry of disk and triangle -/

theorem if_chain_eq (p1 p2 p3 p4 p5 p6 p7 : Prop) [Decidable p1] [Decidable p2] [Decidable p3]
    [Decidable p4] [Decidable p5] [Decidable p6] [Decidable p7] :
    (if p1 then true else if p2 then true else if p3 then true else if p4 then true
      else if p5 then true else if p6 then true else if p7 then true else false) =
    (decide (p1 ∨ p2 ∨ p3) || decide p4 || decide p5 || decide p6 || decide p7) := by
  by_cases h1 : p1 <;> by_cases h2 : p2 <;> by_cases h3 : p3 <;> by_cases h4 : p4 <;>
    by_cases h5 : p5 <;> by_cases h6 : p6 <;> by_cases h7 : p7 <;> simp [*]

/-- Without overflow the `int32` circle test is the test over unbounded integers. -/
theorem collidesCircle_eq_exact (t : Triangle) (b : Circle) (hno : t.circleNoOverflow b) :
    t.collidesCircle b = t.collidesCircleExact b := by
  obtain ⟨h1, h2, h3, h4, h5, h6, h7, h8, h9, h10, h11, h12, h13, h14, h15, h16, h17, h18, h19, h20, h21, h22, h23, h24, h25, h26, h27, h28, h29, h30, h31, h32, h33, h34, h35, h36, h37, h38, h39, h40, h41, h42, h43, h44, h45, h46, h47, h48, h49, h50, h51, h52, h53, h54, h55, h56, h57, h58⟩ := hno
  unfold Triangle.collidesCircle Triangle.collidesCircleExact
  simp only [sub32, add32, mul32, wrap32_of_inI32 h1, wrap32_of_inI32 h2, wrap32_of_inI32 h3, wrap32_of_inI32 h4, wrap32_of_inI32 h5, wrap32_of_inI32 h6, wrap32_of_inI32 h7, wrap32_of_inI32 h8, wrap32_of_inI32 h9, wrap32_of_inI32 h10, wrap32_of_inI32 h11, wrap32_of_inI32 h12, wrap32_of_inI32 h13, wrap32_of_inI32 h14, wrap32_of_inI32 h15, wrap32_of_inI32 h16, wrap32_of_inI32 h17, wrap32_of_inI32 h18, wrap32_of_inI32 h19, wrap32_of_inI32 h20, wrap32_of_inI32 h21, wrap32_of_inI32 h22, wrap32_of_inI32 h23, wrap32_of_inI32 h24, wrap32_of_inI32 h25, wrap32_of_inI32 h26, wrap32_of_inI32 h27, wrap32_of_inI32 h28, wrap32_of_inI32 h29, wrap32_of_inI32 h30, wrap32_of_inI32 h31, wrap32_of_inI32 h32, wrap32_of_inI32 h33, wrap32_of_inI32 h34, wrap32_of_inI32 h35, wrap32_of_inI32 h36, wrap32_of_inI32 h37, wrap32_of_inI32 h38, wrap32_of_inI32 h39, wrap32_of_inI32 h40, wrap32_of_inI32 h41, wrap32_of_inI32 h42, wrap32_of_inI32 h43, wrap32_of_inI32 h44, wrap32_of_inI32 h45, wrap32_of_inI32 h46, wrap32_of_inI32 h47, wrap32_of_inI32 h48, wrap32_of_inI32 h49, wrap32_of_inI32 h50, wrap32_of_inI32 h51, wrap32_of_inI32 h52, wrap32_of_inI32 h53, wrap32_of_inI32 h54, wrap32_of_inI32 h55, wrap32_of_inI32 h56, wrap32_of_inI32 h57, wrap32_of_inI32 h58]
  simp only [or32_three_nonneg_iff _ _ _ h28 h31 h34]
  clear h1 h2 h3 h4 h5 h6 h7 h8 h9 h10 h11 h12 h13 h14 h15 h16 h17 h18 h19 h20 h21 h22 h23 h24 h25
    h26 h27 h28 h29 h30 h31 h32 h33 h34 h35 h36 h37 h38 h39 h40 h41 h42 h43 h44 h45 h46 h47 h48
    h49 h50 h51 h52 h53 h54 h55 h56 h57 h58
  exact if_chain_eq _ _ _ _ _ _ _

/-- On an edge whose two endpoints are outside the disk and which fails the projection test,
every point is outside the disk. `c` is the vector from the first endpoint to the centre,
`e` the edge vector. -/
theorem edge_far (cx cy ex ey r2 t : ℝ)
    (hA : 0 < cx * cx + cy * cy - r2)
    (hB : 0 < (cx - ex) * (cx - ex) + (cy - ey) * (cy - ey) - r2)
    (h3 : ¬ (cx * ex + cy * ey > 0 ∧ cx * ex + cy * ey < ex * ex + ey * ey ∧
      (cx * cx + cy * cy - r2) * (ex * ex + ey * ey) ≤ (cx * ex + cy * ey) * (cx * ex + cy * ey)))
    (t0 : 0 ≤ t) (t1 : t ≤ 1) :
    0 < (cx - t * ex) * (cx - t * ex) + (cy - t * ey) * (cy - t * ey) - r2 := by
  have hl : 0 ≤ ex * ex + ey * ey := by nlinarith [mul_self_nonneg ex, mul_self_nonneg ey]
  by_cases hk0 : cx * ex + cy * ey > 0
  · by_cases hk1 : cx * ex + cy * ey < ex * ex + ey * ey
    · have h4 : (cx * ex + cy * ey) * (cx * ex + cy * ey) <
          (cx * cx + cy * cy - r2) * (ex * ex + ey * ey) := by
        by_contra hc
        exact h3 ⟨hk0, hk1, not_lt.mp hc⟩
      have hlpos : 0 < ex * ex + ey * ey := lt_trans hk0 hk1
      have key : 0 < ((cx - t * ex) * (cx - t * ex) + (cy - t * ey) * (cy - t * ey) - r2) *
          (ex * ex + ey * ey) := by
        nlinarith [mul_self_nonneg (cx * ex + cy * ey - t * (ex * ex + ey * ey))]
      by_contra hx
      have := mul_nonpos_of_nonpos_of_nonneg (not_lt.mp hx) hl
      linarith
    · have hk1' : ex * ex + ey * ey ≤ cx * ex + cy * ey := not_lt.mp hk1
      nlinarith [mul_nonneg (sub_nonneg.mpr t1) hl, mul_nonneg t0 (sub_nonneg.mpr t1),
        mul_nonneg (sub_nonneg.mpr t1) (sub_nonneg.mpr hk1'),
        mul_nonneg (mul_nonneg t0 (sub_nonneg.mpr t1)) hl]
  · have hk0' : cx * ex + cy * ey ≤ 0 := not_lt.mp hk0
    nlinarith [mul_nonneg t0 (neg_nonneg.mpr hk0'), mul_nonneg (mul_nonneg t0 t0) hl]

/-- Moving from a point with a negative barycentric coordinate toward a point of the
triangle, one reaches a point of the triangle with a zero coordinate. -/
theorem exit_point (g1 g2 g3 p1 p2 p3 : ℝ) (hp1 : 0 ≤ p1) (hp2 : 0 ≤ p2) (hp3 : 0 ≤ p3)
    (hneg : g1 < 0 ∨ g2 < 0 ∨ g3 < 0) :
    ∃ τ : ℝ, 0 ≤ τ ∧ τ ≤ 1 ∧
      0 ≤ (1 - τ) * g1 + τ * p1 ∧ 0 ≤ (1 - τ) * g2 + τ * p2 ∧ 0 ≤ (1 - τ) * g3 + τ * p3 ∧
      ((1 - τ) * g1 + τ * p1 = 0 ∨ (1 - τ) * g2 + τ * p2 = 0 ∨ (1 - τ) * g3 + τ * p3 = 0) := by
  have cand : ∀ g p : ℝ, 0 ≤ p → ∃ s : ℝ, 0 ≤ s ∧ s ≤ 1 ∧ (g < 0 → 0 < s) ∧
      (0 < s → (1 - s) * g + s * p = 0) ∧ ∀ τ : ℝ, s ≤ τ → τ ≤ 1 → 0 ≤ (1 - τ) * g + τ * p := by
    intro g p hp
    by_cases hg : g < 0
    · have hd : 0 < p - g := by linarith
      refine ⟨-g / (p - g), div_nonneg (by linarith) hd.le, (div_le_one hd).mpr (by linarith),
        fun _ => div_pos (by linarith) hd, fun _ => ?_, fun τ h1 h2 => ?_⟩
      · field_simp
        ring
      · have h3 : -g ≤ τ * (p - g) := by
          have := mul_le_mul_of_nonneg_right h1 hd.le
          rwa [div_mul_cancel₀ _ hd.ne'] at this
        nlinarith
    · refine ⟨0, le_refl 0, zero_le_one, fun h => absurd h hg, fun h => absurd h (lt_irrefl 0),
        fun τ h1 h2 => ?_⟩
      have hg' : 0 ≤ g := not_lt.mp hg
      nlinarith [mul_nonneg (sub_nonneg.mpr h2) hg', mul_nonneg h1 hp]
  obtain ⟨s1, a1, b1, c1, d1, e1⟩ := cand g1 p1 hp1
  obtain ⟨s2, a2, b2, c2, d2, e2⟩ := cand g2 p2 hp2
  obtain ⟨s3, a3, b3, c3, d3, e3⟩ := cand g3 p3 hp3
  have hm1 : s1 ≤ max s1 (max s2 s3) := le_max_left _ _
  have hm2 : s2 ≤ max s1 (max s2 s3) := le_trans (le_max_left _ _) (le_max_right _ _)
  have hm3 : s3 ≤ max s1 (max s2 s3) := le_trans (le_max_right _ _) (le_max_right _ _)
  have hle : max s1 (max s2 s3) ≤ 1 := max_le b1 (max_le b2 b3)
  have hpos : 0 < max s1 (max s2 s3) := by
    rcases hneg with h | h | h
    · exact lt_of_lt_of_le (c1 h) hm1
    · exact lt_of_lt_of_le (c2 h) hm2
    · exact lt_of_lt_of_le (c3 h) hm3
  refine ⟨max s1 (max s2 s3), hpos.le, hle, e1 _ hm1 hle, e2 _ hm2 hle, e3 _ hm3 hle, ?_⟩
  rcases max_choice s1 (max s2 s3) with h | h
  · rw [h] at hpos ⊢
    exact Or.inl (d1 hpos)
  · rcases max_choice s2 s3 with h' | h'
    · rw [h, h'] at hpos ⊢
      exact Or.inr (Or.inl (d2 hpos))
    · rw [h, h'] at hpos ⊢
      exact Or.inr (Or.inr (d3 hpos))

theorem scale_le (τ a b r2 : ℝ) (τ0 : 0 ≤ τ) (τ1 : τ ≤ 1) (h : a * a + b * b ≤ r2) :
    (τ * a) * (τ * a) + (τ * b) * (τ * b) ≤ r2 := by
  have h2 : τ * τ ≤ 1 := by nlinarith
  have s : 0 ≤ a * a + b * b := add_nonneg (mul_self_nonneg a) (mul_self_nonneg b)
  calc (τ * a) * (τ * a) + (τ * b) * (τ * b) = τ * τ * (a * a + b * b) := by ring
    _ ≤ 1 * (a * a + b * b) := mul_le_mul_of_nonneg_right h2 s
    _ ≤ r2 := by linarith

set_option maxHeartbeats 1000000 in
/-- Completeness of the three-stage test over the reals: when every stage fails on a
clockwise triangle, every point of the triangle is outside the disk. -/
theorem disk_triangle_complete (x1 y1 x2 y2 x3 y3 cx cy r2 : ℝ)
    (hE : 0 < (y2 - y1) * (x3 - x2) - (x2 - x1) * (y3 - y2))
    (v1 : 0 < (cx - x1) * (cx - x1) + (cy - y1) * (cy - y1) - r2)
    (v2 : 0 < (cx - x2) * (cx - x2) + (cy - y2) * (cy - y2) - r2)
    (v3 : 0 < (cx - x3) * (cx - x3) + (cy - y3) * (cy - y3) - r2)
    (hs2 : ¬ ((y2 - y1) * (cx - x1) - (x2 - x1) * (cy - y1) ≥ 0 ∧
      (y3 - y2) * (cx - x2) - (x3 - x2) * (cy - y2) ≥ 0 ∧
      (y1 - y3) * (cx - x3) - (x1 - x3) * (cy - y3) ≥ 0))
    (he1 : ¬ ((cx - x1) * (x2 - x1) + (cy - y1) * (y2 - y1) > 0 ∧
      (cx - x1) * (x2 - x1) + (cy - y1) * (y2 - y1) <
        (x2 - x1) * (x2 - x1) + (y2 - y1) * (y2 - y1) ∧
      ((cx - x1) * (cx - x1) + (cy - y1) * (cy - y1) - r2) *
          ((x2 - x1) * (x2 - x1) + (y2 - y1) * (y2 - y1)) ≤
        ((cx - x1) * (x2 - x1) + (cy - y1) * (y2 - y1)) *
          ((cx - x1) * (x2 - x1) + (cy - y1) * (y2 - y1))))
    (he2 : ¬ ((cx - x2) * (x3 - x2) + (cy - y2) * (y3 - y2) > 0 ∧
      (cx - x2) * (x3 - x2) + (cy - y2) * (y3 - y2) <
        (x3 - x2) * (x3 - x2) + (y3 - y2) * (y3 - y2) ∧
      ((cx - x2) * (cx - x2) + (cy - y2) * (cy - y2) - r2) *
          ((x3 - x2) * (x3 - x2) + (y3 - y2) * (y3 - y2)) ≤
        ((cx - x2) * (x3 - x2) + (cy - y2) * (y3 - y2)) *
          ((cx - x2) * (x3 - x2) + (cy - y2) * (y3 - y2))))
    (he3 : ¬ ((cx - x3) * (x1 - x3) + (cy - y3) * (y1 - y3) > 0 ∧
      (cx - x3) * (x1 - x3) + (cy - y3) * (y1 - y3) <
        (x1 - x3) * (x1 - x3) + (y1 - y3) * (y1 - y3) ∧
      ((cx - x3) * (cx - x3) + (cy - y3) * (cy - y3) - r2) *
          ((x1 - x3) * (x1 - x3) + (y1 - y3) * (y1 - y3)) ≤
        ((cx - x3) * (x1 - x3) + (cy - y3) * (y1 - y3)) *
          ((cx - x3) * (x1 - x3) + (cy - y3) * (y1 - y3))))
    (u v w : ℝ) (hu : 0 ≤ u) (hv : 0 ≤ v) (hw : 0 ≤ w) (hsum : u + v + w = 1) :
    r2 < (u * x1 + v * x2 + w * x3 - cx) * (u * x1 + v * x2 + w * x3 - cx) +
      (u * y1 + v * y2 + w * y3 - cy) * (u * y1 + v * y2 + w * y3 - cy) := by
  set E := (y2 - y1) * (x3 - x2) - (x2 - x1) * (y3 - y2) with hEdef
  set K1 := (y2 - y1) * (cx - x1) - (x2 - x1) * (cy - y1) with hK1
  set K2 := (y3 - y2) * (cx - x2) - (x3 - x2) * (cy - y2) with hK2
  set K3 := (y1 - y3) * (cx - x3) - (x1 - x3) * (cy - y3) with hK3
  have hEne : E ≠ 0 := hE.ne'
  have hKsum : K2 / E + K3 / E + K1 / E = 1 := by
    field_simp
    rw [hK1, hK2, hK3, hEdef]
    ring
  have hCx : cx = K2 / E * x1 + K3 / E * x2 + K1 / E * x3 := by
    field_simp
    rw [hK1, hK2, hK3, hEdef]
    ring
  have hCy : cy = K2 / E * y1 + K3 / E * y2 + K1 / E * y3 := by
    field_simp
    rw [hK1, hK2, hK3, hEdef]
    ring
  have hneg : K2 / E < 0 ∨ K3 / E < 0 ∨ K1 / E < 0 := by
    by_contra hc
    push_neg at hc
    obtain ⟨a, b, c⟩ := hc
    apply hs2
    refine ⟨?_, ?_, ?_⟩
    · have := mul_nonneg c hE.le
      rwa [div_mul_cancel₀ _ hEne] at this
    · have := mul_nonneg a hE.le
      rwa [div_mul_cancel₀ _ hEne] at this
    · have := mul_nonneg b hE.le
      rwa [div_mul_cancel₀ _ hEne] at this
  obtain ⟨τ, τ0, τ1, q1n, q2n, q3n, hz⟩ := exit_point _ _ _ u v w hu hv hw hneg
  by_contra hcon
  have hP := not_lt.mp hcon
  set g1 := K2 / E with hg1
  set g2 := K3 / E with hg2
  set g3 := K1 / E with hg3
  set q1 := (1 - τ) * g1 + τ * u with hq1
  set q2 := (1 - τ) * g2 + τ * v with hq2
  set q3 := (1 - τ) * g3 + τ * w with hq3
  have hqsum : q1 + q2 + q3 = 1 := by
    rw [hq1, hq2, hq3]
    linear_combination (1 - τ) * hKsum + τ * hsum
  have hQx : cx - (q1 * x1 + q2 * x2 + q3 * x3) = τ * (cx - (u * x1 + v * x2 + w * x3)) := by
    rw [hq1, hq2, hq3]
    linear_combination (1 - τ) * hCx
  have hQy : cy - (q1 * y1 + q2 * y2 + q3 * y3) = τ * (cy - (u * y1 + v * y2 + w * y3)) := by
    rw [hq1, hq2, hq3]
    linear_combination (1 - τ) * hCy
  have hQ : (cx - (q1 * x1 + q2 * x2 + q3 * x3)) * (cx - (q1 * x1 + q2 * x2 + q3 * x3)) +
      (cy - (q1 * y1 + q2 * y2 + q3 * y3)) * (cy - (q1 * y1 + q2 * y2 + q3 * y3)) ≤ r2 := by
    rw [hQx, hQy]
    refine scale_le τ _ _ r2 τ0 τ1 ?_
    have e1 : (cx - (u * x1 + v * x2 + w * x3)) * (cx - (u * x1 + v * x2 + w * x3)) =
        (u * x1 + v * x2 + w * x3 - cx) * (u * x1 + v * x2 + w * x3 - cx) := by ring
    have e2 : (cy - (u * y1 + v * y2 + w * y3)) * (cy - (u * y1 + v * y2 + w * y3)) =
        (u * y1 + v * y2 + w * y3 - cy) * (u * y1 + v * y2 + w * y3 - cy) := by ring
    rw [e1, e2]
    exact hP
  rcases hz with z | z | z
  · have hB : 0 < ((cx - x2) - (x3 - x2)) * ((cx - x2) - (x3 - x2)) +
        ((cy - y2) - (y3 - y2)) * ((cy - y2) - (y3 - y2)) - r2 := by
      have e1 : (cx - x2) - (x3 - x2) = cx - x3 := by ring
      have e2 : (cy - y2) - (y3 - y2) = cy - y3 := by ring
      rw [e1, e2]
      exact v3
    have hq3le : q3 ≤ 1 := by linarith
    have := edge_far (cx - x2) (cy - y2) (x3 - x2) (y3 - y2) r2 q3 v2 hB he2 q3n hq3le
    have e1 : cx - x2 - q3 * (x3 - x2) = cx - (q1 * x1 + q2 * x2 + q3 * x3) := by
      have : q2 = 1 - q3 := by linarith
      rw [this, z]
      ring
    have e2 : cy - y2 - q3 * (y3 - y2) = cy - (q1 * y1 + q2 * y2 + q3 * y3) := by
      have : q2 = 1 - q3 := by linarith
      rw [this, z]
      ring
    rw [e1, e2] at this
    linarith
  · have hB : 0 < ((cx - x3) - (x1 - x3)) * ((cx - x3) - (x1 - x3)) +
        ((cy - y3) - (y1 - y3)) * ((cy - y3) - (y1 - y3)) - r2 := by
      have e1 : (cx - x3) - (x1 - x3) = cx - x1 := by ring
      have e2 : (cy - y3) - (y1 - y3) = cy - y1 := by ring
      rw [e1, e2]
      exact v1
    have hq1le : q1 ≤ 1 := by linarith
    have := edge_far (cx - x3) (cy - y3) (x1 - x3) (y1 - y3) r2 q1 v3 hB he3 q1n hq1le
    have e1 : cx - x3 - q1 * (x1 - x3) = cx - (q1 * x1 + q2 * x2 + q3 * x3) := by
      have : q3 = 1 - q1 := by linarith
      rw [this, z]
      ring
    have e2 : cy - y3 - q1 * (y1 - y3) = cy - (q1 * y1 + q2 * y2 + q3 * y3) := by
      have : q3 = 1 - q1 := by linarith
      rw [this, z]
      ring
    rw [e1, e2] at this
    linarith
  · have hB : 0 < ((cx - x1) - (x2 - x1)) * ((cx - x1) - (x2 - x1)) +
        ((cy - y1) - (y2 - y1)) * ((cy - y1) - (y2 - y1)) - r2 := by
      have e1 : (cx - x1) - (x2 - x1) = cx - x2 := by ring
      have e2 : (cy - y1) - (y2 - y1) = cy - y2 := by ring
      rw [e1, e2]
      exact v2
    have hq2le : q2 ≤ 1 := by linarith
    have := edge_far (cx - x1) (cy - y1) (x2 - x1) (y2 - y1) r2 q2 v1 hB he1 q2n hq2le
    have e1 : cx - x1 - q2 * (x2 - x1) = cx - (q1 * x1 + q2 * x2 + q3 * x3) := by
      have : q1 = 1 - q2 := by linarith
      rw [this, z]
      ring
    have e2 : cy - y1 - q2 * (y2 - y1) = cy - (q1 * y1 + q2 * y2 + q3 * y3) := by
      have : q1 = 1 - q2 := by linarith
      rw [this, z]
      ring
    rw [e1, e2] at this
    linarith

/-- An edge that passes the projection test has a point in the disk. -/
theorem edge_near (cx cy ex ey r2 : ℝ)
    (h : cx * ex + cy * ey > 0 ∧ cx * ex + cy * ey < ex * ex + ey * ey ∧
      (cx * cx + cy * cy - r2) * (ex * ex + ey * ey) ≤ (cx * ex + cy * ey) * (cx * ex + cy * ey)) :
    ∃ t : ℝ, 0 ≤ t ∧ t ≤ 1 ∧ (t * ex - cx) * (t * ex - cx) + (t * ey - cy) * (t * ey - cy) ≤ r2 := by
  obtain ⟨h1, h2, h3⟩ := h
  have hl : 0 < ex * ex + ey * ey := lt_trans h1 h2
  refine ⟨(cx * ex + cy * ey) / (ex * ex + ey * ey), div_nonneg h1.le hl.le,
    (div_le_one hl).mpr h2.le, ?_⟩
  have e : ((cx * ex + cy * ey) / (ex * ex + ey * ey) * ex - cx) *
      ((cx * ex + cy * ey) / (ex * ex + ey * ey) * ex - cx) +
      ((cx * ex + cy * ey) / (ex * ex + ey * ey) * ey - cy) *
      ((cx * ex + cy * ey) / (ex * ex + ey * ey) * ey - cy) =
      cx * cx + cy * cy - (cx * ex + cy * ey) * (cx * ex + cy * ey) / (ex * ex + ey * ey) := by
    field_simp
    ring
  rw [e]
  have h4 : cx * cx + cy * cy - r2 ≤
      (cx * ex + cy * ey) * (cx * ex + cy * ey) / (ex * ex + ey * ey) :=
    (le_div_iff₀ hl).mpr h3
  linarith

/-- Soundness of the three-stage test over the reals: a stage that passes names a point of
the triangle inside the disk. -/
theorem disk_triangle_sound (x1 y1 x2 y2 x3 y3 cx cy r2 : ℝ) (hr : 0 ≤ r2)
    (hE : 0 < (y2 - y1) * (x3 - x2) - (x2 - x1) * (y3 - y2))
    (h : (((((cx - x1) * (cx - x1) + (cy - y1) * (cy - y1) - r2 ≤ 0 ∨
        (cx - x2) * (cx - x2) + (cy - y2) * (cy - y2) - r2 ≤ 0 ∨
        (cx - x3) * (cx - x3) + (cy - y3) * (cy - y3) - r2 ≤ 0) ∨
      ((y2 - y1) * (cx - x1) - (x2 - x1) * (cy - y1) ≥ 0 ∧
        (y3 - y2) * (cx - x2) - (x3 - x2) * (cy - y2) ≥ 0 ∧
        (y1 - y3) * (cx - x3) - (x1 - x3) * (cy - y3) ≥ 0)) ∨
      ((cx - x1) * (x2 - x1) + (cy - y1) * (y2 - y1) > 0 ∧
        (cx - x1) * (x2 - x1) + (cy - y1) * (y2 - y1) <
          (x2 - x1) * (x2 - x1) + (y2 - y1) * (y2 - y1) ∧
        ((cx - x1) * (cx - x1) + (cy - y1) * (cy - y1) - r2) *
            ((x2 - x1) * (x2 - x1) + (y2 - y1) * (y2 - y1)) ≤
          ((cx - x1) * (x2 - x1) + (cy - y1) * (y2 - y1)) *
            ((cx - x1) * (x2 - x1) + (cy - y1) * (y2 - y1)))) ∨
      ((cx - x2) * (x3 - x2) + (cy - y2) * (y3 - y2) > 0 ∧
        (cx - x2) * (x3 - x2) + (cy - y2) * (y3 - y2) <
          (x3 - x2) * (x3 - x2) + (y3 - y2) * (y3 - y2) ∧
        ((cx - x2) * (cx - x2) + (cy - y2) * (cy - y2) - r2) *
            ((x3 - x2) * (x3 - x2) + (y3 - y2) * (y3 - y2)) ≤
          ((cx - x2) * (x3 - x2) + (cy - y2) * (y3 - y2)) *
            ((cx - x2) * (x3 - x2) + (cy - y2) * (y3 - y2)))) ∨
      ((cx - x3) * (x1 - x3) + (cy - y3) * (y1 - y3) > 0 ∧
        (cx - x3) * (x1 - x3) + (cy - y3) * (y1 - y3) <
          (x1 - x3) * (x1 - x3) + (y1 - y3) * (y1 - y3) ∧
        ((cx - x3) * (cx - x3) + (cy - y3) * (cy - y3) - r2) *
            ((x1 - x3) * (x1 - x3) + (y1 - y3) * (y1 - y3)) ≤
          ((cx - x3) * (x1 - x3) + (cy - y3) * (y1 - y3)) *
            ((cx - x3) * (x1 - x3) + (cy - y3) * (y1 - y3)))) :
    ∃ u v w : ℝ, 0 ≤ u ∧ 0 ≤ v ∧ 0 ≤ w ∧ u + v + w = 1 ∧
      (u * x1 + v * x2 + w * x3 - cx) * (u * x1 + v * x2 + w * x3 - cx) +
        (u * y1 + v * y2 + w * y3 - cy) * (u * y1 + v * y2 + w * y3 - cy) ≤ r2 := by
  rcases h with (((h | h) | h) | h) | h
  · rcases h with h | h | h
    · exact ⟨1, 0, 0, by norm_num, le_refl _, le_refl _, by norm_num, by nlinarith⟩
    · exact ⟨0, 1, 0, le_refl _, by norm_num, le_refl _, by norm_num, by nlinarith⟩
    · exact ⟨0, 0, 1, le_refl _, le_refl _, by norm_num, by norm_num, by nlinarith⟩
  · obtain ⟨k1, k2, k3⟩ := h
    set E := (y2 - y1) * (x3 - x2) - (x2 - x1) * (y3 - y2) with hEdef
    have hEne : E ≠ 0 := hE.ne'
    refine ⟨((y3 - y2) * (cx - x2) - (x3 - x2) * (cy - y2)) / E,
      ((y1 - y3) * (cx - x3) - (x1 - x3) * (cy - y3)) / E,
      ((y2 - y1) * (cx - x1) - (x2 - x1) * (cy - y1)) / E,
      div_nonneg k2 hE.le, div_nonneg k3 hE.le, div_nonneg k1 hE.le, ?_, ?_⟩
    · field_simp
      rw [hEdef]
      ring
    · have ex : ((y3 - y2) * (cx - x2) - (x3 - x2) * (cy - y2)) / E * x1 +
          ((y1 - y3) * (cx - x3) - (x1 - x3) * (cy - y3)) / E * x2 +
          ((y2 - y1) * (cx - x1) - (x2 - x1) * (cy - y1)) / E * x3 - cx = 0 := by
        field_simp
        rw [hEdef]
        ring
      have ey : ((y3 - y2) * (cx - x2) - (x3 - x2) * (cy - y2)) / E * y1 +
          ((y1 - y3) * (cx - x3) - (x1 - x3) * (cy - y3)) / E * y2 +
          ((y2 - y1) * (cx - x1) - (x2 - x1) * (cy - y1)) / E * y3 - cy = 0 := by
        field_simp
        rw [hEdef]
        ring
      rw [ex, ey]
      simpa using hr
  · obtain ⟨t, t0, t1, ht⟩ := edge_near _ _ _ _ _ h
    refine ⟨1 - t, t, 0, by linarith, t0, le_refl _, by ring, ?_⟩
    have e1 : (1 - t) * x1 + t * x2 + 0 * x3 - cx = t * (x2 - x1) - (cx - x1) := by ring
    have e2 : (1 - t) * y1 + t * y2 + 0 * y3 - cy = t * (y2 - y1) - (cy - y1) := by ring
    rw [e1, e2]
    exact ht
  · obtain ⟨t, t0, t1, ht⟩ := edge_near _ _ _ _ _ h
    refine ⟨0, 1 - t, t, le_refl _, by linarith, t0, by ring, ?_⟩
    have e1 : 0 * x1 + (1 - t) * x2 + t * x3 - cx = t * (x3 - x2) - (cx - x2) := by ring
    have e2 : 0 * y1 + (1 - t) * y2 + t * y3 - cy = t * (y3 - y2) - (cy - y2) := by ring
    rw [e1, e2]
    exact ht
  · obtain ⟨t, t0, t1, ht⟩ := edge_near _ _ _ _ _ h
    refine ⟨t, 0, 1 - t, t0, le_refl _, by linarith, by ring, ?_⟩
    have e1 : t * x1 + 0 * x2 + (1 - t) * x3 - cx = t * (x1 - x3) - (cx - x3) := by ring
    have e2 : t * y1 + 0 * y2 + (1 - t) * y3 - cy = t * (y1 - y3) - (cy - y3) := by ring
    rw [e1, e2]
    exact ht

/-- On a clockwise triangle the exact three-stage test decides whether the closed disk and
the closed triangle meet. -/
theorem collidesCircleExact_iff (t : Triangle) (b : Circle)
    (hE : 0 < cross t.X t.Y t.X2 t.Y2 t.X3 t.Y3) (hr : 0 ≤ b.Radius) :
    t.collidesCircleExact b = true ↔ diskMeetsTriangle t b := by
  have hER : (0 : ℝ) < ((t.Y2 : ℝ) - t.Y) * (t.X3 - t.X2) - (t.X2 - t.X) * (t.Y3 - t.Y2) := by
    unfold cross at hE
    exact_mod_cast hE
  have hrR : (0 : ℝ) ≤ (b.Radius : ℝ) := by exact_mod_cast hr
  have hdist : ∀ u v w : ℝ,
      (Real.sqrt ((u * t.X + v * t.X2 + w * t.X3 - b.X) ^ 2 +
        (u * t.Y + v * t.Y2 + w * t.Y3 - b.Y) ^ 2) ≤ b.Radius ↔
      (u * t.X + v * t.X2 + w * t.X3 - b.X) * (u * t.X + v * t.X2 + w * t.X3 - b.X) +
        (u * t.Y + v * t.Y2 + w * t.Y3 - b.Y) * (u * t.Y + v * t.Y2 + w * t.Y3 - b.Y) ≤
        (b.Radius : ℝ) * b.Radius) := by
    intro u v w
    rw [Real.sqrt_le_iff, pow_two, pow_two, pow_two]
    exact ⟨fun h => h.2, fun h => ⟨hrR, h⟩⟩
  unfold Triangle.collidesCircleExact diskMeetsTriangle
  simp only [Bool.or_eq_true, decide_eq_true_eq]
  constructor
  · intro h
    obtain ⟨u, v, w, hu, hv, hw, hs, hd⟩ :=
      disk_triangle_sound (t.X : ℝ) t.Y t.X2 t.Y2 t.X3 t.Y3 b.X b.Y ((b.Radius : ℝ) * b.Radius)
        (mul_self_nonneg _) hER (by exact_mod_cast h)
    exact ⟨u, v, w, hu, hv, hw, hs, (hdist u v w).mpr hd⟩
  · rintro ⟨u, v, w, hu, hv, hw, hs, hd⟩
    by_contra hc
    push_neg at hc
    obtain ⟨⟨⟨⟨⟨a1, a2, a3⟩, hs2⟩, he1⟩, he2⟩, he3⟩ := hc
    have key := disk_triangle_complete (t.X : ℝ) t.Y t.X2 t.Y2 t.X3 t.Y3 b.X b.Y
      ((b.Radius : ℝ) * b.Radius) hER (by exact_mod_cast a1) (by exact_mod_cast a2)
      (by exact_mod_cast a3) (by push_neg; exact_mod_cast hs2) (by push_neg; exact_mod_cast he1)
      (by push_neg; exact_mod_cast he2) (by push_neg; exact_mod_cast he3) u v w hu hv hw hs
    exact absurd ((hdist u v w).mp hd) (not_le.mpr key)

/-- C11: for a non-degenerate triangle built by `NewTriangle` and a circle of radius at least
zero, the three-stage test evaluated over unbounded integers returns true exactly when the
closed disk and the closed triangle have a point in common, and when no `int32` intermediate
overflows `IsColliding` returns that same answer. -/
theorem IsColliding_circle_exact (x y x2 y2 x3 y3 : Int) (b : Circle)
    (hno : NewTriangle.noOverflow x y x2 y2 x3 y3)
    (hnd : cross x y x2 y2 x3 y3 ≠ 0)
    (hr : 0 ≤ b.Radius)
    (hc : (NewTriangle x y x2 y2 x3 y3).circleNoOverflow b) :
    ((NewTriangle x y x2 y2 x3 y3).collidesCircleExact b = true ↔
        diskMeetsTriangle (NewTriangle x y x2 y2 x3 y3) b) ∧
      ((NewTriangle x y x2 y2 x3 y3).IsColliding (Shape.circle b) = true ↔
        diskMeetsTriangle (NewTriangle x y x2 y2 x3 y3) b) := by
  have hcw : 0 < cross (NewTriangle x y x2 y2 x3 y3).X (NewTriangle x y x2 y2 x3 y3).Y
      (NewTriangle x y x2 y2 x3 y3).X2 (NewTriangle x y x2 y2 x3 y3).Y2
      (NewTriangle x y x2 y2 x3 y3).X3 (NewTriangle x y x2 y2 x3 y3).Y3 := by
    rw [NewTriangle_eq hno]
    by_cases hs : cross x y x2 y2 x3 y3 ≥ 0
    · rw [if_pos hs]
      exact lt_of_le_of_ne hs (Ne.symm hnd)
    · rw [if_neg hs]
      show 0 < cross x y x3 y3 x2 y2
      rw [cross_swap]
      omega
  have hex := collidesCircleExact_iff _ b hcw hr
  refine ⟨hex, ?_⟩
  show (NewTriangle x y x2 y2 x3 y3).collidesCircle b = true ↔ _
  rw [collidesCircle_eq_exact _ _ hc]
  exact hex

theorem IsColliding_circle_exact_witness :
    NewTriangle.noOverflow 10 10 18 18 2 18 ∧ cross 10 10 18 18 2 18 ≠ 0 ∧
      (0 : Int) ≤ (⟨15, 14, 2⟩ : Circle).Radius ∧
      (NewTriangle 10 10 18 18 2 18).circleNoOverflow ⟨15, 14, 2⟩ ∧
      (((NewTriangle 10 10 18 18 2 18).collidesCircleExact ⟨15, 14, 2⟩ = true ↔
          diskMeetsTriangle (NewTriangle 10 10 18 18 2 18) ⟨15, 14, 2⟩) ∧
        ((NewTriangle 10 10 18 18 2 18).IsColliding (Shape.circle ⟨15, 14, 2⟩) = true ↔
          diskMeetsTriangle (NewTriangle 10 10 18 18 2 18) ⟨15, 14, 2⟩)) :=
  ⟨by decide, by decide, by decide, by decide,
    IsColliding_circle_exact 10 10 18 18 2 18 ⟨15, 14, 2⟩ (by decide) (by decide) (by decide)
      (by decide)⟩

/-! ## Overlapping triangles -/

theorem abs_sub_small {a b : Int} (ha : |a| ≤ 10000) (hb : |b| ≤ 10000) : |a - b| ≤ 20000 := by
  rw [abs_le] at *
  omega

theorem abs_mul_small {u v : Int} (hu : |u| ≤ 20000) (hv : |v| ≤ 20000) :
    |u * v| ≤ 400000000 := by
  rw [abs_mul]
  calc |u| * |v| ≤ 20000 * 20000 := mul_le_mul hu hv (abs_nonneg _) (by norm_num)
    _ = 400000000 := by norm_num

theorem inI32_of_abs {v : Int} (h : |v| ≤ 2147483647) : inI32 v := by
  unfold inI32
  rw [abs_le] at h
  omega

theorem fDistance_noOverflow_small {x y x2 y2 : Int} (h1 : |x| ≤ 10000) (h2 : |y| ≤ 10000)
    (h3 : |x2| ≤ 10000) (h4 : |y2| ≤ 10000) : fDistance.noOverflow x y x2 y2 := by
  have a := abs_sub_small h1 h3
  have b := abs_sub_small h2 h4
  have p := abs_mul_small a a
  have q := abs_mul_small b b
  refine ⟨inI32_of_abs (by omega), inI32_of_abs (by omega), inI32_of_abs (by omega),
    inI32_of_abs (by omega), inI32_of_abs ?_⟩
  have := abs_add ((x - x2) * (x - x2)) ((y - y2) * (y - y2))
  omega

theorem PointOnLine_noOverflow_small {x y ax ay bx «by» : Int} (h1 : |x| ≤ 10000)
    (h2 : |y| ≤ 10000) (h3 : |ax| ≤ 10000) (h4 : |ay| ≤ 10000) (h5 : |bx| ≤ 10000)
    (h6 : |«by»| ≤ 10000) : PointOnLine.noOverflow x y ax ay bx «by» :=
  ⟨fDistance_noOverflow_small h1 h2 h3 h4, fDistance_noOverflow_small h1 h2 h5 h6,
    fDistance_noOverflow_small h3 h4 h5 h6⟩

theorem herons_noOverflow_small {x1 y1 x2 y2 x3 y3 : Int} (h1 : |x1| ≤ 10000)
    (h2 : |y1| ≤ 10000) (h3 : |x2| ≤ 10000) (h4 : |y2| ≤ 10000) (h5 : |x3| ≤ 10000)
    (h6 : |y3| ≤ 10000) : herons.noOverflow x1 y1 x2 y2 x3 y3 := by
  have a := abs_sub_small h3 h1
  have b := abs_sub_small h6 h2
  have c := abs_sub_small h5 h1
  have d := abs_sub_small h4 h2
  have p := abs_mul_small a b
  have q := abs_mul_small c d
  refine ⟨inI32_of_abs (by omega), inI32_of_abs (by omega), inI32_of_abs (by omega),
    inI32_of_abs (by omega), inI32_of_abs (by omega), inI32_of_abs (by omega),
    inI32_of_abs ?_⟩
  have := abs_sub ((x2 - x1) * (y3 - y1)) ((x3 - x1) * (y2 - y1))
  omega

theorem orientation_noOverflow_small {px py qx qy rx ry : Int} (h1 : |px| ≤ 10000)
    (h2 : |py| ≤ 10000) (h3 : |qx| ≤ 10000) (h4 : |qy| ≤ 10000) (h5 : |rx| ≤ 10000)
    (h6 : |ry| ≤ 10000) : orientation.noOverflow px py qx qy rx ry := by
  have a := abs_sub_small h4 h2
  have b := abs_sub_small h5 h3
  have c := abs_sub_small h3 h1
  have d := abs_sub_small h6 h4
  have p := abs_mul_small a b
  have q := abs_mul_small c d
  refine ⟨inI32_of_abs (by omega), inI32_of_abs (by omega), inI32_of_abs (by omega),
    inI32_of_abs (by omega), inI32_of_abs (by omega), inI32_of_abs (by omega),
    inI32_of_abs ?_⟩
  have := abs_sub ((qy - py) * (rx - qx)) ((qx - px) * (ry - qy))
  omega

theorem LinesIntersect_noOverflow_small {p1x p1y q1x q1y p2x p2y q2x q2y : Int}
    (h1 : |p1x| ≤ 10000) (h2 : |p1y| ≤ 10000) (h3 : |q1x| ≤ 10000) (h4 : |q1y| ≤ 10000)
    (h5 : |p2x| ≤ 10000) (h6 : |p2y| ≤ 10000) (h7 : |q2x| ≤ 10000) (h8 : |q2y| ≤ 10000) :
    LinesIntersect.noOverflow p1x p1y q1x q1y p2x p2y q2x q2y :=
  ⟨orientation_noOverflow_small h1 h2 h3 h4 h5 h6, orientation_noOverflow_small h1 h2 h3 h4 h7 h8,
    orientation_noOverflow_small h5 h6 h7 h8 h1 h2, orientation_noOverflow_small h5 h6 h7 h8 h3 h4⟩

theorem hasPoint_of_interior {t : Triangle} {px py : ℝ} (h : t.hasInteriorPoint px py) :
    t.hasPoint px py := by
  obtain ⟨u, v, w, hu, hv, hw, hs, hx, hy⟩ := h
  exact ⟨u, v, w, hu.le, hv.le, hw.le, hs, hx, hy⟩

theorem PointOnLine_false_of_clear {x y ax ay bx «by» : Int}
    (hno : PointOnLine.noOverflow x y ax ay bx «by») (hcl : clearOf x y ax ay bx «by») :
    PointOnLine x y ax ay bx «by» = false := by
  by_contra h
  have ht : PointOnLine x y ax ay bx «by» = true := by simpa using h
  have := excess_le_of_PointOnLine hno ht
  unfold clearOf at hcl
  linarith

theorem not_onSegment_of_clear {x y ax ay bx «by» : Int} (hcl : clearOf x y ax ay bx «by») :
    ¬ onSegment x y ax ay bx «by» := by
  intro h
  have := sqrt_add_of_onSegment h
  unfold clearOf at hcl
  rw [this, sub_self] at hcl
  norm_num at hcl

/-- The signed areas that an integer point of the closed triangle forms with the edges have
one sign. -/
theorem areas_of_hasPoint (t : Triangle) (x y : Int) (h : t.hasPoint x y) :
    (0 ≤ area2 x y t.X2 t.Y2 t.X3 t.Y3 ∧ 0 ≤ area2 t.X t.Y x y t.X3 t.Y3 ∧
        0 ≤ area2 t.X t.Y t.X2 t.Y2 x y) ∨
      (area2 x y t.X2 t.Y2 t.X3 t.Y3 ≤ 0 ∧ area2 t.X t.Y x y t.X3 t.Y3 ≤ 0 ∧
        area2 t.X t.Y t.X2 t.Y2 x y ≤ 0) := by
  obtain ⟨u, v, w, hu, hv, hw, hs, hx, hy⟩ := h
  have e1 : ((area2 x y t.X2 t.Y2 t.X3 t.Y3 : Int) : ℝ) =
      u * ((area2 t.X t.Y t.X2 t.Y2 t.X3 t.Y3 : Int) : ℝ) := by
    unfold area2
    push_cast
    rw [hx, hy]
    have : u = 1 - v - w := by linarith
    rw [this]
    ring
  have e2 : ((area2 t.X t.Y x y t.X3 t.Y3 : Int) : ℝ) =
      v * ((area2 t.X t.Y t.X2 t.Y2 t.X3 t.Y3 : Int) : ℝ) := by
    unfold area2
    push_cast
    rw [hx, hy]
    have : u = 1 - v - w := by linarith
    rw [this]
    ring
  have e3 : ((area2 t.X t.Y t.X2 t.Y2 x y : Int) : ℝ) =
      w * ((area2 t.X t.Y t.X2 t.Y2 t.X3 t.Y3 : Int) : ℝ) := by
    unfold area2
    push_cast
    rw [hx, hy]
    have : u = 1 - v - w := by linarith
    rw [this]
    ring
  rcases le_total 0 (area2 t.X t.Y t.X2 t.Y2 t.X3 t.Y3) with hE | hE
  · left
    have hER : (0 : ℝ) ≤ ((area2 t.X t.Y t.X2 t.Y2 t.X3 t.Y3 : Int) : ℝ) := by exact_mod_cast hE
    refine ⟨?_, ?_, ?_⟩
    · have : (0 : ℝ) ≤ ((area2 x y t.X2 t.Y2 t.X3 t.Y3 : Int) : ℝ) := by
        rw [e1]; exact mul_nonneg hu hER
      exact_mod_cast this
    · have : (0 : ℝ) ≤ ((area2 t.X t.Y x y t.X3 t.Y3 : Int) : ℝ) := by
        rw [e2]; exact mul_nonneg hv hER
      exact_mod_cast this
    · have : (0 : ℝ) ≤ ((area2 t.X t.Y t.X2 t.Y2 x y : Int) : ℝ) := by
        rw [e3]; exact mul_nonneg hw hER
      exact_mod_cast this
  · right
    have hER : ((area2 t.X t.Y t.X2 t.Y2 t.X3 t.Y3 : Int) : ℝ) ≤ 0 := by exact_mod_cast hE
    refine ⟨?_, ?_, ?_⟩
    · have : ((area2 x y t.X2 t.Y2 t.X3 t.Y3 : Int) : ℝ) ≤ 0 := by
        rw [e1]; exact mul_nonpos_of_nonneg_of_nonpos hu hER
      exact_mod_cast this
    · have : ((area2 t.X t.Y x y t.X3 t.Y3 : Int) : ℝ) ≤ 0 := by
        rw [e2]; exact mul_nonpos_of_nonneg_of_nonpos hv hER
      exact_mod_cast this
    · have : ((area2 t.X t.Y t.X2 t.Y2 x y : Int) : ℝ) ≤ 0 := by
        rw [e3]; exact mul_nonpos_of_nonneg_of_nonpos hw hER
      exact_mod_cast this

/-- An integer point of the closed triangle that is clear of the three edges passes
`pointCollides`. -/
theorem pointCollides_of_hasPoint (t : Triangle) (x y : Int) (ht : t.within 10000)
    (hx : |x| ≤ 10000) (hy : |y| ≤ 10000) (hin : t.hasPoint x y)
    (hcl : t.clearOfEdges x y) : t.pointCollides x y = true := by
  obtain ⟨t1, t2, t3, t4, t5, t6⟩ := ht
  obtain ⟨c1, c2, c3⟩ := hcl
  rw [pointCollides_eq_true_iff]
  refine ⟨(areas_eq_iff t x y ⟨herons_noOverflow_small hx hy t3 t4 t5 t6,
    herons_noOverflow_small t1 t2 hx hy t5 t6, herons_noOverflow_small t1 t2 t3 t4 hx hy,
    herons_noOverflow_small t1 t2 t3 t4 t5 t6⟩).mpr (areas_of_hasPoint t x y hin), ?_, ?_, ?_⟩
  · exact PointOnLine_false_of_clear (PointOnLine_noOverflow_small hx hy t1 t2 t3 t4) c1
  · exact PointOnLine_false_of_clear (PointOnLine_noOverflow_small hx hy t3 t4 t5 t6) c2
  · exact PointOnLine_false_of_clear (PointOnLine_noOverflow_small hx hy t5 t6 t1 t2) c3

theorem between_of_param (a b c : Int) (β : ℝ) (h0 : 0 ≤ β) (h1 : β ≤ 1)
    (h : (c : ℝ) = a + β * (b - a)) : min a b ≤ c ∧ c ≤ max a b := by
  rcases le_total a b with hab | hab
  · rw [min_eq_left hab, max_eq_right hab]
    have habR : (a : ℝ) ≤ b := by exact_mod_cast hab
    constructor
    · have : (a : ℝ) ≤ c := by
        rw [h]; nlinarith [mul_nonneg h0 (sub_nonneg.mpr habR)]
      exact_mod_cast this
    · have : (c : ℝ) ≤ b := by
        rw [h]; nlinarith [mul_nonneg (sub_nonneg.mpr h1) (sub_nonneg.mpr habR)]
      exact_mod_cast this
  · rw [min_eq_right hab, max_eq_left hab]
    have habR : (b : ℝ) ≤ a := by exact_mod_cast hab
    constructor
    · have : (b : ℝ) ≤ c := by
        rw [h]; nlinarith [mul_nonneg (sub_nonneg.mpr h1) (sub_nonneg.mpr habR)]
      exact_mod_cast this
    · have : (c : ℝ) ≤ a := by
        rw [h]; nlinarith [mul_nonneg h0 (sub_nonneg.mpr habR)]
      exact_mod_cast this

/-- A common point of two segments lies on the line of the first: the cross products of the
endpoints of the second with the first balance. -/
theorem cross_balance {p1x p1y q1x q1y p2x p2y q2x q2y : Int} (s t : ℝ)
    (hx : (p1x : ℝ) + s * (q1x - p1x) = p2x + t * (q2x - p2x))
    (hy : (p1y : ℝ) + s * (q1y - p1y) = p2y + t * (q2y - p2y)) :
    (1 - t) * ((cross p1x p1y q1x q1y p2x p2y : Int) : ℝ) +
      t * ((cross p1x p1y q1x q1y q2x q2y : Int) : ℝ) = 0 := by
  unfold cross
  push_cast
  linear_combination (-((q1y : ℝ) - p1y)) * hx + ((q1x : ℝ) - p1x) * hy

theorem cross_mul_nonpos {a b : Int} (t : ℝ) (h0 : 0 ≤ t) (h1 : t ≤ 1)
    (h : (1 - t) * (a : ℝ) + t * (b : ℝ) = 0) : a * b ≤ 0 := by
  by_contra hc
  have hpos : 0 < a * b := not_le.mp hc
  rcases lt_trichotomy a 0 with ha | ha | ha
  · have hb : b < 0 := by
      by_contra hb
      have := mul_nonpos_of_nonpos_of_nonneg ha.le (not_lt.mp hb)
      omega
    have haR : (a : ℝ) < 0 := by exact_mod_cast ha
    have hbR : (b : ℝ) < 0 := by exact_mod_cast hb
    rcases le_or_lt t (1 / 2) with ht | ht
    · nlinarith [mul_nonneg (sub_nonneg.mpr ht) (neg_pos.mpr haR).le,
        mul_nonneg h0 (neg_pos.mpr hbR).le]
    · nlinarith [mul_nonneg (sub_nonneg.mpr ht.le) (neg_pos.mpr hbR).le,
        mul_nonneg (sub_nonneg.mpr h1) (neg_pos.mpr haR).le]
  · rw [ha, zero_mul] at hpos
    exact absurd hpos (lt_irrefl 0)
  · have hb : 0 < b := by
      by_contra hb
      have := mul_nonpos_of_nonneg_of_nonpos ha.le (not_lt.mp hb)
      omega
    have haR : (0 : ℝ) < a := by exact_mod_cast ha
    have hbR : (0 : ℝ) < b := by exact_mod_cast hb
    rcases le_or_lt t (1 / 2) with ht | ht
    · nlinarith [mul_nonneg (sub_nonneg.mpr ht) haR.le, mul_nonneg h0 hbR.le]
    · nlinarith [mul_nonneg (sub_nonneg.mpr ht.le) hbR.le,
        mul_nonneg (sub_nonneg.mpr h1) haR.le]

/-- A point on the line through two distinct points has a parameter on that line. -/
theorem param_of_cross_zero {px py qx qy rx ry : Int} (hne : ¬ (px = qx ∧ py = qy))
    (hc : cross px py qx qy rx ry = 0) :
    ∃ β : ℝ, (rx : ℝ) = px + β * (qx - px) ∧ (ry : ℝ) = py + β * (qy - py) := by
  have hcR : ((qy : ℝ) - py) * (rx - qx) - (qx - px) * (ry - qy) = 0 := by
    have : ((cross px py qx qy rx ry : Int) : ℝ) = 0 := by rw [hc]; simp
    unfold cross at this
    push_cast at this
    exact this
  have hN : ((qx : ℝ) - px) * (qx - px) + (qy - py) * (qy - py) ≠ 0 := by
    intro h0
    have h1 : ((qx : ℝ) - px) * (qx - px) = 0 := by
      nlinarith [mul_self_nonneg ((qx : ℝ) - px), mul_self_nonneg ((qy : ℝ) - py)]
    have h2 : ((qy : ℝ) - py) * (qy - py) = 0 := by
      nlinarith [mul_self_nonneg ((qx : ℝ) - px), mul_self_nonneg ((qy : ℝ) - py)]
    have h3 : (qx : ℝ) - px = 0 := mul_self_eq_zero.mp h1
    have h4 : (qy : ℝ) - py = 0 := mul_self_eq_zero.mp h2
    apply hne
    constructor
    · have : (px : ℝ) = qx := by linarith
      exact_mod_cast this
    · have : (py : ℝ) = qy := by linarith
      exact_mod_cast this
  refine ⟨(((rx : ℝ) - px) * (qx - px) + (ry - py) * (qy - py)) /
    (((qx : ℝ) - px) * (qx - px) + (qy - py) * (qy - py)), ?_, ?_⟩
  · have hβ := div_mul_cancel₀ (((rx : ℝ) - px) * (qx - px) + (ry - py) * (qy - py)) hN
    generalize (((rx : ℝ) - px) * (qx - px) + (ry - py) * (qy - py)) /
      (((qx : ℝ) - px) * (qx - px) + (qy - py) * (qy - py)) = β at hβ
    have : ((rx : ℝ) - px - β * (qx - px)) *
        (((qx : ℝ) - px) * (qx - px) + (qy - py) * (qy - py)) = 0 := by
      linear_combination ((qy : ℝ) - py) * hcR - ((qx : ℝ) - px) * hβ
    rcases mul_eq_zero.mp this with h | h
    · linarith
    · exact absurd h hN
  · have hβ := div_mul_cancel₀ (((rx : ℝ) - px) * (qx - px) + (ry - py) * (qy - py)) hN
    generalize (((rx : ℝ) - px) * (qx - px) + (ry - py) * (qy - py)) /
      (((qx : ℝ) - px) * (qx - px) + (qy - py) * (qy - py)) = β at hβ
    have : ((ry : ℝ) - py - β * (qy - py)) *
        (((qx : ℝ) - px) * (qx - px) + (qy - py) * (qy - py)) = 0 := by
      linear_combination (-((qx : ℝ) - px)) * hcR - ((qy : ℝ) - py) * hβ
    rcases mul_eq_zero.mp this with h | h
    · linarith
    · exact absurd h hN

/-- Two segments on one line that have a common point: an endpoint of one lies on the
other. -/
theorem colinear_overlap {p1x p1y q1x q1y p2x p2y q2x q2y : Int}
    (hne : ¬ (p1x = q1x ∧ p1y = q1y))
    (c1 : cross p1x p1y q1x q1y p2x p2y = 0) (c2 : cross p1x p1y q1x q1y q2x q2y = 0)
    (s t : ℝ) (hs0 : 0 ≤ s) (hs1 : s ≤ 1) (ht0 : 0 ≤ t) (ht1 : t ≤ 1)
    (hx : (p1x : ℝ) + s * (q1x - p1x) = p2x + t * (q2x - p2x))
    (hy : (p1y : ℝ) + s * (q1y - p1y) = p2y + t * (q2y - p2y)) :
    onSegment p2x p2y p1x p1y q1x q1y ∨ onSegment q2x q2y p1x p1y q1x q1y ∨
      onSegment p1x p1y p2x p2y q2x q2y := by
  obtain ⟨β1, e1x, e1y⟩ := param_of_cross_zero hne c1
  obtain ⟨β2, e2x, e2y⟩ := param_of_cross_zero hne c2
  have hD : ((q1x : ℝ) - p1x) ≠ 0 ∨ ((q1y : ℝ) - p1y) ≠ 0 := by
    by_contra hc
    push_neg at hc
    apply hne
    constructor
    · have : (p1x : ℝ) = q1x := by linarith [hc.1]
      exact_mod_cast this
    · have : (p1y : ℝ) = q1y := by linarith [hc.2]
      exact_mod_cast this
  have hsdef : s = (1 - t) * β1 + t * β2 := by
    rw [e1x, e2x] at hx
    rw [e1y, e2y] at hy
    rcases hD with h | h
    · have : (s - ((1 - t) * β1 + t * β2)) * ((q1x : ℝ) - p1x) = 0 := by
        linear_combination hx
      rcases mul_eq_zero.mp this with h' | h'
      · linarith
      · exact absurd h' h
    · have : (s - ((1 - t) * β1 + t * β2)) * ((q1y : ℝ) - p1y) = 0 := by
        linear_combination hy
      rcases mul_eq_zero.mp this with h' | h'
      · linarith
      · exact absurd h' h
  by_cases hb1 : 0 ≤ β1 ∧ β1 ≤ 1
  · left
    obtain ⟨bx1, bx2⟩ := between_of_param p1x q1x p2x β1 hb1.1 hb1.2 e1x
    obtain ⟨by1, by2⟩ := between_of_param p1y q1y p2y β1 hb1.1 hb1.2 e1y
    exact ⟨c1, bx1, bx2, by1, by2⟩
  by_cases hb2 : 0 ≤ β2 ∧ β2 ≤ 1
  · right; left
    obtain ⟨bx1, bx2⟩ := between_of_param p1x q1x q2x β2 hb2.1 hb2.2 e2x
    obtain ⟨by1, by2⟩ := between_of_param p1y q1y q2y β2 hb2.1 hb2.2 e2y
    exact ⟨c2, bx1, bx2, by1, by2⟩
  right; right
  have hopp : (β1 < 0 ∧ 1 < β2) ∨ (β2 < 0 ∧ 1 < β1) := by
    have h1 : β1 < 0 ∨ 1 < β1 := by
      by_contra hc
      push_neg at hc
      exact hb1 hc
    have h2 : β2 < 0 ∨ 1 < β2 := by
      by_contra hc
      push_neg at hc
      exact hb2 hc
    rcases h1 with h1 | h1 <;> rcases h2 with h2 | h2
    · exfalso
      rcases le_or_lt t (1 / 2) with ht | ht
      · nlinarith [mul_nonneg (sub_nonneg.mpr ht) (neg_pos.mpr h1).le,
          mul_nonneg ht0 (neg_pos.mpr h2).le]
      · nlinarith [mul_nonneg (sub_nonneg.mpr ht.le) (neg_pos.mpr h2).le,
          mul_nonneg (sub_nonneg.mpr ht1) (neg_pos.mpr h1).le]
    · exact Or.inl ⟨h1, h2⟩
    · exact Or.inr ⟨h2, h1⟩
    · exfalso
      rcases le_or_lt t (1 / 2) with ht | ht
      · nlinarith [mul_nonneg (sub_nonneg.mpr ht) (sub_pos.mpr h1).le,
          mul_nonneg ht0 (sub_pos.mpr h2).le]
      · nlinarith [mul_nonneg (sub_nonneg.mpr ht.le) (sub_pos.mpr h2).le,
          mul_nonneg (sub_nonneg.mpr ht1) (sub_pos.mpr h1).le]
  have hne12 : β2 - β1 ≠ 0 := by
    rcases hopp with ⟨a, b⟩ | ⟨a, b⟩
    · exact (by linarith : (0 : ℝ) < β2 - β1).ne'
    · exact (by linarith : β2 - β1 < 0).ne
  have hμ0 : 0 ≤ -β1 / (β2 - β1) := by
    rcases hopp with ⟨a, b⟩ | ⟨a, b⟩
    · exact div_nonneg (by linarith) (by linarith)
    · exact div_nonneg_of_nonpos (by linarith) (by linarith)
  have hμ1 : -β1 / (β2 - β1) ≤ 1 := by
    rcases hopp with ⟨a, b⟩ | ⟨a, b⟩
    · rw [div_le_one (by linarith)]
      linarith
    · rw [div_le_one_of_neg (by linarith)]
      linarith
  have hμ := div_mul_cancel₀ (-β1) hne12
  generalize -β1 / (β2 - β1) = μ at hμ hμ0 hμ1
  have fx : (p1x : ℝ) = p2x + μ * (q2x - p2x) := by
    rw [e1x, e2x]
    linear_combination (-((q1x : ℝ) - p1x)) * hμ
  have fy : (p1y : ℝ) = p2y + μ * (q2y - p2y) := by
    rw [e1y, e2y]
    linear_combination (-((q1y : ℝ) - p1y)) * hμ
  obtain ⟨bx1, bx2⟩ := between_of_param p2x q2x p1x μ hμ0 hμ1 fx
  obtain ⟨by1, by2⟩ := between_of_param p2y q2y p1y μ hμ0 hμ1 fy
  refine ⟨?_, bx1, bx2, by1, by2⟩
  have : ((cross p2x p2y q2x q2y p1x p1y : Int) : ℝ) = 0 := by
    unfold cross
    push_cast
    rw [e1x, e1y, e2x, e2y]
    ring
  exact_mod_cast this

/-- Two segments with distinct endpoints that have a common point, every endpoint clear of
the other segment: `LinesIntersect` returns true. -/
theorem LinesIntersect_of_meet {p1x p1y q1x q1y p2x p2y q2x q2y : Int}
    (h1 : |p1x| ≤ 10000) (h2 : |p1y| ≤ 10000) (h3 : |q1x| ≤ 10000) (h4 : |q1y| ≤ 10000)
    (h5 : |p2x| ≤ 10000) (h6 : |p2y| ≤ 10000) (h7 : |q2x| ≤ 10000) (h8 : |q2y| ≤ 10000)
    (hne1 : ¬ (p1x = q1x ∧ p1y = q1y)) (hne2 : ¬ (p2x = q2x ∧ p2y = q2y))
    (s t : ℝ) (hs0 : 0 ≤ s) (hs1 : s ≤ 1) (ht0 : 0 ≤ t) (ht1 : t ≤ 1)
    (hx : (p1x : ℝ) + s * (q1x - p1x) = p2x + t * (q2x - p2x))
    (hy : (p1y : ℝ) + s * (q1y - p1y) = p2y + t * (q2y - p2y))
    (cl1 : clearOf p1x p1y p2x p2y q2x q2y) (cl2 : clearOf q1x q1y p2x p2y q2x q2y)
    (cl3 : clearOf p2x p2y p1x p1y q1x q1y) (cl4 : clearOf q2x q2y p1x p1y q1x q1y) :
    LinesIntersect p1x p1y q1x q1y p2x p2y q2x q2y = true := by
  obtain ⟨n1, n2, n3, n4⟩ := LinesIntersect_noOverflow_small h1 h2 h3 h4 h5 h6 h7 h8
  have b1 := cross_balance s t hx hy
  have b2 := cross_balance t s hx.symm hy.symm
  have m1 := cross_mul_nonpos t ht0 ht1 b1
  have m2 := cross_mul_nonpos s hs0 hs1 b2
  have z1 : ¬ (cross p1x p1y q1x q1y p2x p2y = 0 ∧ cross p1x p1y q1x q1y q2x q2y = 0) := by
    rintro ⟨c1, c2⟩
    rcases colinear_overlap hne1 c1 c2 s t hs0 hs1 ht0 ht1 hx hy with h | h | h
    · exact not_onSegment_of_clear cl3 h
    · exact not_onSegment_of_clear cl4 h
    · exact not_onSegment_of_clear cl1 h
  have z2 : ¬ (cross p2x p2y q2x q2y p1x p1y = 0 ∧ cross p2x p2y q2x q2y q1x q1y = 0) := by
    rintro ⟨c1, c2⟩
    rcases colinear_overlap hne2 c1 c2 t s ht0 ht1 hs0 hs1 hx.symm hy.symm with h | h | h
    · exact not_onSegment_of_clear cl1 h
    · exact not_onSegment_of_clear cl2 h
    · exact not_onSegment_of_clear cl3 h
  have g1 : orientation p1x p1y q1x q1y p2x p2y ≠ orientation p1x p1y q1x q1y q2x q2y := by
    rw [orientation_exact n1, orientation_exact n2]
    exact classes_ne m1 z1
  have g2 : orientation p2x p2y q2x q2y p1x p1y ≠ orientation p2x p2y q2x q2y q1x q1y := by
    rw [orientation_exact n3, orientation_exact n4]
    exact classes_ne m2 z2
  have f1 := PointOnLine_false_of_clear (PointOnLine_noOverflow_small h1 h2 h5 h6 h7 h8) cl1
  have f2 := PointOnLine_false_of_clear (PointOnLine_noOverflow_small h3 h4 h5 h6 h7 h8) cl2
  have f3 := PointOnLine_false_of_clear (PointOnLine_noOverflow_small h5 h6 h1 h2 h3 h4) cl3
  have f4 := PointOnLine_false_of_clear (PointOnLine_noOverflow_small h7 h8 h1 h2 h3 h4) cl4
  unfold LinesIntersect
  simp only []
  rw [if_pos ⟨g1, g2⟩, f1, f2, f3, f4]
  rfl

theorem hasPoint_convex {t : Triangle} {px py qx qy : ℝ} (hP : t.hasPoint px py)
    (hQ : t.hasPoint qx qy) (τ : ℝ) (h0 : 0 ≤ τ) (h1 : τ ≤ 1) :
    t.hasPoint (qx + τ * (px - qx)) (qy + τ * (py - qy)) := by
  obtain ⟨u, v, w, hu, hv, hw, hs, hx, hy⟩ := hP
  obtain ⟨u', v', w', hu', hv', hw', hs', hx', hy'⟩ := hQ
  have h1' : 0 ≤ 1 - τ := sub_nonneg.mpr h1
  refine ⟨(1 - τ) * u' + τ * u, (1 - τ) * v' + τ * v, (1 - τ) * w' + τ * w,
    add_nonneg (mul_nonneg h1' hu') (mul_nonneg h0 hu),
    add_nonneg (mul_nonneg h1' hv') (mul_nonneg h0 hv),
    add_nonneg (mul_nonneg h1' hw') (mul_nonneg h0 hw), ?_, ?_, ?_⟩
  · linear_combination (1 - τ) * hs' + τ * hs
  · rw [hx, hx']; ring
  · rw [hy, hy']; ring

theorem hasPoint_vertices (t : Triangle) :
    t.hasPoint t.X t.Y ∧ t.hasPoint t.X2 t.Y2 ∧ t.hasPoint t.X3 t.Y3 :=
  ⟨⟨1, 0, 0, by norm_num, le_refl _, le_refl _, by norm_num, by ring, by ring⟩,
    ⟨0, 1, 0, le_refl _, by norm_num, le_refl _, by norm_num, by ring, by ring⟩,
    ⟨0, 0, 1, le_refl _, le_refl _, by norm_num, by norm_num, by ring, by ring⟩⟩

theorem vertices_ne_of_area (t : Triangle) (hE : area2 t.X t.Y t.X2 t.Y2 t.X3 t.Y3 ≠ 0) :
    ¬ (t.X = t.X2 ∧ t.Y = t.Y2) ∧ ¬ (t.X2 = t.X3 ∧ t.Y2 = t.Y3) ∧
      ¬ (t.X3 = t.X ∧ t.Y3 = t.Y) := by
  refine ⟨?_, ?_, ?_⟩ <;> rintro ⟨h1, h2⟩ <;> apply hE <;> unfold area2
  · rw [h1, h2]; ring
  · rw [h1, h2]; ring
  · rw [h1, h2]; ring

/-- A segment from a point outside a triangle of non-zero area to a point of the triangle
meets one of its edges. -/
theorem tri_exit (t : Triangle) (hE : area2 t.X t.Y t.X2 t.Y2 t.X3 t.Y3 ≠ 0)
    (px py qx qy : ℝ) (hP : t.hasPoint px py) (hQ : ¬ t.hasPoint qx qy) :
    ∃ τ r : ℝ, 0 ≤ τ ∧ τ ≤ 1 ∧ 0 ≤ r ∧ r ≤ 1 ∧
      ((qx + τ * (px - qx) = t.X + r * (t.X2 - t.X) ∧
          qy + τ * (py - qy) = t.Y + r * (t.Y2 - t.Y)) ∨
        (qx + τ * (px - qx) = t.X2 + r * (t.X3 - t.X2) ∧
          qy + τ * (py - qy) = t.Y2 + r * (t.Y3 - t.Y2)) ∨
        (qx + τ * (px - qx) = t.X3 + r * (t.X - t.X3) ∧
          qy + τ * (py - qy) = t.Y3 + r * (t.Y - t.Y3))) := by
  obtain ⟨p1, p2, p3, hp1, hp2, hp3, hps, hpx, hpy⟩ := hP
  have hER : ((t.X2 : ℝ) - t.X) * (t.Y3 - t.Y) - (t.X3 - t.X) * (t.Y2 - t.Y) ≠ 0 := by
    have : ((area2 t.X t.Y t.X2 t.Y2 t.X3 t.Y3 : Int) : ℝ) ≠ 0 := by exact_mod_cast hE
    unfold area2 at this
    push_cast at this
    exact this
  generalize hEdef : ((t.X2 : ℝ) - t.X) * (t.Y3 - t.Y) - (t.X3 - t.X) * (t.Y2 - t.Y) = E at hER
  have hg : ∃ g1 g2 g3 : ℝ, g1 + g2 + g3 = 1 ∧ qx = g1 * t.X + g2 * t.X2 + g3 * t.X3 ∧
      qy = g1 * t.Y + g2 * t.Y2 + g3 * t.Y3 := by
    refine ⟨(((t.X2 : ℝ) - qx) * (t.Y3 - qy) - (t.X3 - qx) * (t.Y2 - qy)) / E,
      ((qx - t.X) * (t.Y3 - t.Y) - (t.X3 - t.X) * (qy - t.Y)) / E,
      (((t.X2 : ℝ) - t.X) * (qy - t.Y) - (qx - t.X) * (t.Y2 - t.Y)) / E, ?_, ?_, ?_⟩
    · field_simp
      rw [← hEdef]
      ring
    · field_simp
      rw [← hEdef]
      ring
    · field_simp
      rw [← hEdef]
      ring
  obtain ⟨g1, g2, g3, hgs, hgx, hgy⟩ := hg
  have hneg : g1 < 0 ∨ g2 < 0 ∨ g3 < 0 := by
    by_contra hc
    push_neg at hc
    exact hQ ⟨g1, g2, g3, hc.1, hc.2.1, hc.2.2, hgs, hgx, hgy⟩
  obtain ⟨τ, τ0, τ1, q1n, q2n, q3n, hz⟩ := exit_point g1 g2 g3 p1 p2 p3 hp1 hp2 hp3 hneg
  have hqs : ((1 - τ) * g1 + τ * p1) + ((1 - τ) * g2 + τ * p2) + ((1 - τ) * g3 + τ * p3) = 1 := by
    linear_combination (1 - τ) * hgs + τ * hps
  have hRx : qx + τ * (px - qx) = ((1 - τ) * g1 + τ * p1) * t.X +
      ((1 - τ) * g2 + τ * p2) * t.X2 + ((1 - τ) * g3 + τ * p3) * t.X3 := by
    rw [hpx, hgx]; ring
  have hRy : qy + τ * (py - qy) = ((1 - τ) * g1 + τ * p1) * t.Y +
      ((1 - τ) * g2 + τ * p2) * t.Y2 + ((1 - τ) * g3 + τ * p3) * t.Y3 := by
    rw [hpy, hgy]; ring
  generalize (1 - τ) * g1 + τ * p1 = q1 at *
  generalize (1 - τ) * g2 + τ * p2 = q2 at *
  generalize (1 - τ) * g3 + τ * p3 = q3 at *
  rcases hz with z | z | z
  · refine ⟨τ, q3, τ0, τ1, q3n, by linarith, Or.inr (Or.inl ⟨?_, ?_⟩)⟩
    · rw [hRx, z]
      have : q2 = 1 - q3 := by linarith
      rw [this]; ring
    · rw [hRy, z]
      have : q2 = 1 - q3 := by linarith
      rw [this]; ring
  · refine ⟨τ, q1, τ0, τ1, q1n, by linarith, Or.inr (Or.inr ⟨?_, ?_⟩)⟩
    · rw [hRx, z]
      have : q3 = 1 - q1 := by linarith
      rw [this]; ring
    · rw [hRy, z]
      have : q3 = 1 - q1 := by linarith
      rw [this]; ring
  · refine ⟨τ, q2, τ0, τ1, q2n, by linarith, Or.inl ⟨?_, ?_⟩⟩
    · rw [hRx, z]
      have : q1 = 1 - q2 := by linarith
      rw [this]; ring
    · rw [hRy, z]
      have : q1 = 1 - q2 := by linarith
      rw [this]; ring

/-- A segment that starts outside the triangle `A` and has a point in it, all endpoints clear
of the segments they are tested against: `segmentCollides` returns true. -/
theorem segmentCollides_of_entering (A : Triangle) (hA : A.within 10000)
    (hAn : area2 A.X A.Y A.X2 A.Y2 A.X3 A.Y3 ≠ 0) (fx fy gx gy : Int)
    (h5 : |fx| ≤ 10000) (h6 : |fy| ≤ 10000) (h7 : |gx| ≤ 10000) (h8 : |gy| ≤ 10000)
    (hne : ¬ (fx = gx ∧ fy = gy)) (hout : ¬ A.hasPoint fx fy) (r : ℝ) (hr0 : 0 ≤ r)
    (hr1 : r ≤ 1) (hin : A.hasPoint (fx + r * (gx - fx)) (fy + r * (gy - fy)))
    (clf : A.clearOfEdges fx fy) (clg : A.clearOfEdges gx gy)
    (cl1 : clearOf A.X A.Y fx fy gx gy) (cl2 : clearOf A.X2 A.Y2 fx fy gx gy)
    (cl3 : clearOf A.X3 A.Y3 fx fy gx gy) :
    A.segmentCollides fx fy gx gy = true := by
  obtain ⟨a1, a2, a3, a4, a5, a6⟩ := hA
  obtain ⟨n1, n2, n3⟩ := vertices_ne_of_area A hAn
  obtain ⟨τ, s, τ0, τ1, s0, s1, h⟩ := tri_exit A hAn _ _ _ _ hin hout
  have ht0 : 0 ≤ τ * r := mul_nonneg τ0 hr0
  have ht1 : τ * r ≤ 1 := by nlinarith
  unfold Triangle.segmentCollides
  rcases h with ⟨hx, hy⟩ | ⟨hx, hy⟩ | ⟨hx, hy⟩
  · have := LinesIntersect_of_meet a1 a2 a3 a4 h5 h6 h7 h8 n1 hne s (τ * r) s0 s1 ht0 ht1
      (by rw [← hx]; ring) (by rw [← hy]; ring) cl1 cl2 clf.1 clg.1
    simp [this]
  · have := LinesIntersect_of_meet a3 a4 a5 a6 h5 h6 h7 h8 n2 hne s (τ * r) s0 s1 ht0 ht1
      (by rw [← hx]; ring) (by rw [← hy]; ring) cl2 cl3 clf.2.1 clg.2.1
    simp [this]
  · have := LinesIntersect_of_meet a5 a6 a1 a2 h5 h6 h7 h8 n3 hne s (τ * r) s0 s1 ht0 ht1
      (by rw [← hx]; ring) (by rw [← hy]; ring) cl3 cl1 clf.2.2 clg.2.2
    simp [this]

/-- C3 (amended). For two triangles of non-zero area with coordinates of magnitude at most
`10000` (those built by `NewTriangle` among them) whose interiors share a point, every
vertex of each being clear of every edge of the other (its two distances to the endpoints
exceed the length of the edge by more than `0.0001 + 10^-9`), `A.IsColliding(B)` returns
true unless `A` lies in `B`. -/
theorem IsColliding_of_interiors_meet (A B : Triangle)
    (hA : A.within 10000) (hB : B.within 10000)
    (hAn : area2 A.X A.Y A.X2 A.Y2 A.X3 A.Y3 ≠ 0)
    (hBn : area2 B.X B.Y B.X2 B.Y2 B.X3 B.Y3 ≠ 0)
    (hmeet : A.interiorsMeet B)
    (hclB : A.clearOfTriangle B) (hclA : B.clearOfTriangle A)
    (hnot : ¬ A.liesIn B) :
    A.IsColliding (Shape.triangle B) = true := by
  obtain ⟨zx, zy, hzA, hzB⟩ := hmeet
  have zA := hasPoint_of_interior hzA
  have zB := hasPoint_of_interior hzB
  obtain ⟨b1, b2, b3, b4, b5, b6⟩ := hB
  obtain ⟨cB1, cB2, cB3⟩ := hclB
  obtain ⟨cA1, cA2, cA3⟩ := hclA
  obtain ⟨m1, m2, m3⟩ := vertices_ne_of_area B hBn
  unfold Triangle.IsColliding
  simp only []
  by_cases v1 : A.hasPoint B.X B.Y
  · simp [pointCollides_of_hasPoint A B.X B.Y hA b1 b2 v1 cB1]
  by_cases v2 : A.hasPoint B.X2 B.Y2
  · simp [pointCollides_of_hasPoint A B.X2 B.Y2 hA b3 b4 v2 cB2]
  by_cases v3 : A.hasPoint B.X3 B.Y3
  · simp [pointCollides_of_hasPoint A B.X3 B.Y3 hA b5 b6 v3 cB3]
  have hstar : ∃ ax ay : ℝ, A.hasPoint ax ay ∧ ¬ B.hasPoint ax ay := by
    obtain ⟨w1, w2, w3⟩ := hasPoint_vertices A
    by_contra hc
    push_neg at hc
    exact hnot ⟨hc _ _ w1, hc _ _ w2, hc _ _ w3⟩
  obtain ⟨ax, ay, haA, haB⟩ := hstar
  obtain ⟨τ, r, τ0, τ1, r0, r1, h⟩ := tri_exit B hBn zx zy ax ay zB haB
  have hR := hasPoint_convex zA haA τ τ0 τ1
  rcases h with ⟨hx, hy⟩ | ⟨hx, hy⟩ | ⟨hx, hy⟩
  · rw [hx, hy] at hR
    have := segmentCollides_of_entering A hA hAn B.X B.Y B.X2 B.Y2 b1 b2 b3 b4 m1 v1 r r0 r1 hR
      cB1 cB2 cA1.1 cA2.1 cA3.1
    simp [this]
  · rw [hx, hy] at hR
    have := segmentCollides_of_entering A hA hAn B.X2 B.Y2 B.X3 B.Y3 b3 b4 b5 b6 m2 v2 r r0 r1 hR
      cB2 cB3 cA1.2.1 cA2.2.1 cA3.2.1
    simp [this]
  · rw [hx, hy] at hR
    have := segmentCollides_of_entering A hA hAn B.X3 B.Y3 B.X B.Y b5 b6 b1 b2 m3 v3 r r0 r1 hR
      cB3 cB1 cA1.2.2 cA2.2.2 cA3.2.2
    simp [this]

theorem isqrt_le_sqrt (v : Int) (h : v.toNat < 2 ^ 128) (hv : 0 ≤ v) :
    (isqrt v.toNat : ℝ) ≤ Real.sqrt (v : ℝ) ∧ Real.sqrt (v : ℝ) < (isqrt v.toNat : ℝ) + 1 := by
  obtain ⟨h1, h2⟩ := isqrt_spec _ h
  have hc : ((v.toNat : Nat) : ℝ) = (v : ℝ) := by
    have : ((v.toNat : Nat) : Int) = v := Int.toNat_of_nonneg hv
    exact_mod_cast this
  generalize isqrt v.toNat = i at h1 h2
  clear h
  have h1R : ((i * i : Nat) : ℝ) ≤ (v.toNat : ℝ) := by exact_mod_cast h1
  have h2R : ((v.toNat : Nat) : ℝ) < (((i + 1) * (i + 1) : Nat) : ℝ) := by exact_mod_cast h2
  rw [hc] at h1R h2R
  push_cast at h1R h2R
  constructor
  · apply Real.le_sqrt_of_sq_le
    nlinarith
  · rw [Real.sqrt_lt' (by positivity)]
    nlinarith

theorem clearOf_of_farFrom {px py ax ay bx «by» : Int} (h : farFrom px py ax ay bx «by») :
    clearOf px py ax ay bx «by» := by
  obtain ⟨b1, b2, b3, h4⟩ := h
  have n1 : 0 ≤ (px - ax) * (px - ax) + (py - ay) * (py - ay) :=
    add_nonneg (mul_self_nonneg _) (mul_self_nonneg _)
  have n2 : 0 ≤ (px - bx) * (px - bx) + (py - «by») * (py - «by») :=
    add_nonneg (mul_self_nonneg _) (mul_self_nonneg _)
  have n3 : 0 ≤ (ax - bx) * (ax - bx) + (ay - «by») * (ay - «by») :=
    add_nonneg (mul_self_nonneg _) (mul_self_nonneg _)
  obtain ⟨l1, -⟩ := isqrt_le_sqrt _ b1 n1
  obtain ⟨l2, -⟩ := isqrt_le_sqrt _ b2 n2
  obtain ⟨-, l3⟩ := isqrt_le_sqrt _ b3 n3
  have h4R : ((isqrt ((ax - bx) * (ax - bx) + (ay - «by») * (ay - «by»)).toNat + 2 : Nat) : ℝ) ≤
      ((isqrt ((px - ax) * (px - ax) + (py - ay) * (py - ay)).toNat +
        isqrt ((px - bx) * (px - bx) + (py - «by») * (py - «by»)).toNat : Nat) : ℝ) := by
    exact_mod_cast h4
  push_cast at h4R
  unfold clearOf
  linarith

theorem clearOfTriangle_of_far (A B : Triangle) (h : A.farFromTriangle B) :
    A.clearOfTriangle B := by
  obtain ⟨⟨a1, a2, a3⟩, ⟨a4, a5, a6⟩, a7, a8, a9⟩ := h
  exact ⟨⟨clearOf_of_farFrom a1, clearOf_of_farFrom a2, clearOf_of_farFrom a3⟩,
    ⟨clearOf_of_farFrom a4, clearOf_of_farFrom a5, clearOf_of_farFrom a6⟩,
    clearOf_of_farFrom a7, clearOf_of_farFrom a8, clearOf_of_farFrom a9⟩

theorem hasInteriorPoint_mk (t : Triangle) (px py u v w : ℝ) (hu : 0 < u) (hv : 0 < v)
    (hw : 0 < w) (hs : u + v + w = 1) (hx : px = u * t.X + v * t.X2 + w * t.X3)
    (hy : py = u * t.Y + v * t.Y2 + w * t.Y3) : t.hasInteriorPoint px py :=
  ⟨u, v, w, hu, hv, hw, hs, hx, hy⟩

/-- Witness for C3 (amended): the triangles `(0,0) (0,8000) (8000,0)` and
`(-1600,2400) (9600,2400) (4000,-4800)` cross each other, no vertex of one lying in the
other; `(2400, 1600)` is an interior point of both. -/
theorem IsColliding_of_interiors_meet_witness :
    (NewTriangle 0 0 0 8000 8000 0).IsColliding
      (Shape.triangle (NewTriangle (-1600) 2400 9600 2400 4000 (-4800))) = true :=
  IsColliding_of_interiors_meet (NewTriangle 0 0 0 8000 8000 0)
    (NewTriangle (-1600) 2400 9600 2400 4000 (-4800)) (by decide) (by decide) (by decide)
    (by decide)
    ⟨2400, 1600,
      hasInteriorPoint_mk _ _ _ (1 / 2) (1 / 5) (3 / 10) (by norm_num) (by norm_num)
        (by norm_num) (by norm_num)
        (by rw [show NewTriangle 0 0 0 8000 8000 0 = ⟨0, 0, 0, 8000, 8000, 0⟩ by decide]
            norm_num)
        (by rw [show NewTriangle 0 0 0 8000 8000 0 = ⟨0, 0, 0, 8000, 8000, 0⟩ by decide]
            norm_num),
      hasInteriorPoint_mk _ _ _ (37 / 63) (19 / 63) (1 / 9) (by norm_num) (by norm_num)
        (by norm_num) (by norm_num)
        (by rw [show NewTriangle (-1600) 2400 9600 2400 4000 (-4800) =
              ⟨-1600, 2400, 9600, 2400, 4000, -4800⟩ by decide]
            norm_num)
        (by rw [show NewTriangle (-1600) 2400 9600 2400 4000 (-4800) =
              ⟨-1600, 2400, 9600, 2400, 4000, -4800⟩ by decide]
            norm_num)⟩
    (clearOfTriangle_of_far _ _ (by decide)) (clearOfTriangle_of_far _ _ (by decide))
    (fun h => absurd (areas_of_hasPoint _ _ _ h.1) (by decide))

/-- C3 (counterexample). Two copies of the triangle `(0,0) (0,4) (4,0)` have non-zero area
and share the interior point `(1,1)`, and `IsColliding` returns false: every contact is on
the boundary of the other triangle.  The triangles `(-10000,-10000) (10000,10000)
(10000,-10000)` and `(0,-1) (-5,5) (5,10)` have non-zero area and share the interior point
`(0,-1/2)`, the first does not lie in the second, no vertex of the second lies on an edge of
the first, and `IsColliding` returns false: the vertex `(0,-1)` is within the tolerance of
`PointOnLine` of the long edge. -/
theorem IsColliding_misses_overlap :
    ((NewTriangle 0 0 0 4 4 0).Area ≠ 0 ∧
      (NewTriangle 0 0 0 4 4 0).interiorsMeet (NewTriangle 0 0 0 4 4 0) ∧
      (NewTriangle 0 0 0 4 4 0).IsColliding (Shape.triangle (NewTriangle 0 0 0 4 4 0)) = false) ∧
    ((NewTriangle (-10000) (-10000) 10000 10000 10000 (-10000)).Area ≠ 0 ∧
      (NewTriangle 0 (-1) (-5) 5 5 10).Area ≠ 0 ∧
      (NewTriangle (-10000) (-10000) 10000 10000 10000 (-10000)).within 10000 ∧
      (NewTriangle 0 (-1) (-5) 5 5 10).within 10000 ∧
      (NewTriangle (-10000) (-10000) 10000 10000 10000 (-10000)).interiorsMeet
        (NewTriangle 0 (-1) (-5) 5 5 10) ∧
      ¬ (NewTriangle (-10000) (-10000) 10000 10000 10000 (-10000)).liesIn
        (NewTriangle 0 (-1) (-5) 5 5 10) ∧
      ¬ onSegment 0 (-1) (-10000) (-10000) 10000 10000 ∧
      ¬ onSegment 0 (-1) 10000 10000 10000 (-10000) ∧
      ¬ onSegment 0 (-1) 10000 (-10000) (-10000) (-10000) ∧
      (NewTriangle (-10000) (-10000) 10000 10000 10000 (-10000)).IsColliding
        (Shape.triangle (NewTriangle 0 (-1) (-5) 5 5 10)) = false) := by
  have eA : NewTriangle 0 0 0 4 4 0 = ⟨0, 0, 0, 4, 4, 0⟩ := by decide
  have eB : NewTriangle (-10000) (-10000) 10000 10000 10000 (-10000) =
      ⟨-10000, -10000, 10000, 10000, 10000, -10000⟩ := by decide
  have eC : NewTriangle 0 (-1) (-5) 5 5 10 = ⟨0, -1, -5, 5, 5, 10⟩ := by decide
  refine ⟨⟨by decide, ?_, by decide⟩, by decide, by decide, by decide, by decide, ?_, ?_,
    by decide, by decide, by decide, by decide⟩
  · rw [eA]
    exact ⟨1, 1, hasInteriorPoint_mk _ _ _ (1 / 2) (1 / 4) (1 / 4) (by norm_num) (by norm_num)
      (by norm_num) (by norm_num) (by norm_num) (by norm_num),
      hasInteriorPoint_mk _ _ _ (1 / 2) (1 / 4) (1 / 4) (by norm_num) (by norm_num)
      (by norm_num) (by norm_num) (by norm_num) (by norm_num)⟩
  · rw [eB, eC]
    exact ⟨0, -1 / 2,
      hasInteriorPoint_mk _ _ _ (1 / 2) (19999 / 40000) (1 / 40000) (by norm_num) (by norm_num)
        (by norm_num) (by norm_num) (by norm_num) (by norm_num),
      hasInteriorPoint_mk _ _ _ (16 / 17) (1 / 34) (1 / 34) (by norm_num) (by norm_num)
        (by norm_num) (by norm_num) (by norm_num) (by norm_num)⟩
  · intro h
    exact absurd (areas_of_hasPoint _ _ _ h.1) (by decide)

end Resolv
